import Mathlib

/-!
# Crimson-Lock: a verification development of the secrets-management core

A shallow embedding of `src/core` (CryptoManager, PasswordGenerator, SecureVault,
VaultEntry) and theorems about it.

Conventions of the embedding

* `std::string` and `std::vector<uint8_t>` are lists of byte values (`List Nat`);
  a value stored into a `char` or `uint8_t` is reduced `% 256`.
* A C++ function that can throw returns `Except Exn _`.
* State that a member function reads and writes is passed in and returned.
* Library code outside the repository (Qt's SHA-256, QString conversion, Argon2,
  `std::uniform_int_distribution`) is a parameter of the development
  (`Platform`, `StdRandom`); Qt's Base64 codec and `std::shuffle` are written out.
-/

set_option autoImplicit false

namespace crimson
namespace core

/-- A `std::string` / `std::vector<uint8_t>`: the sequence of its byte values. -/
abbrev Bytes := List Nat

/-- Every element is a byte value. -/
def IsBytes (s : Bytes) : Prop := ∀ b ∈ s, b < 256

instance (s : Bytes) : Decidable (IsBytes s) := by
  unfold IsBytes; infer_instance

/-- The bytes of an ASCII string literal of the source. -/
def lit (s : String) : Bytes := s.toList.map Char.toNat

/-- The exceptions the core throws, one constructor per `throw` site. -/
inductive Exn where
  /-- `std::runtime_error("CryptoManager not initialized")` -/
  | crypto_not_initialized
  /-- `std::runtime_error("Key derivation failed: ...")`, carrying the Argon2 error code -/
  | key_derivation_failed (code : Nat)
  /-- `std::runtime_error("Password hashing failed: ...")`, carrying the Argon2 error code -/
  | password_hashing_failed (code : Nat)
  /-- `std::invalid_argument("Buffer size cannot be zero")` -/
  | buffer_size_zero
  /-- `std::invalid_argument("Password length must be at least 8 characters")` -/
  | password_length_below_minimum
  /-- `std::invalid_argument("Password length cannot exceed 512 characters")` -/
  | password_length_above_maximum
  /-- `std::runtime_error("Vault not open or invalid label")` -/
  | vault_not_open_or_invalid_label
  /-- `std::runtime_error("Vault not open")` -/
  | vault_not_open
  /-- `std::runtime_error("Entry not found")` -/
  | entry_not_found
  /-- `std::runtime_error("Failed to decrypt password")` -/
  | failed_to_decrypt_password
  /-- an exception thrown by `std::random_device` -/
  | random_device_failed
  /-- `std::runtime_error("Failed to parse vault entry JSON: ...")` -/
  | entry_json_parse_failed
  /-- `std::runtime_error("Invalid vault entry JSON: not an object")` -/
  | entry_json_not_object
  /-- `std::runtime_error("Failed to initialize cryptographic manager")` -/
  | crypto_manager_setup_failed
  /-- `std::bad_alloc` -/
  | bad_alloc
  deriving DecidableEq, Repr

instance {α : Type} [DecidableEq α] : DecidableEq (Except Exn α) := fun a b =>
  match a, b with
  | .ok x, .ok y => if h : x = y then isTrue (by rw [h]) else isFalse (by intro e; cases e; exact h rfl)
  | .error x, .error y =>
    if h : x = y then isTrue (by rw [h]) else isFalse (by intro e; cases e; exact h rfl)
  | .ok _, .error _ => isFalse (by intro e; cases e)
  | .error _, .ok _ => isFalse (by intro e; cases e)

/-- True for the `std::invalid_argument` exceptions. -/
def Exn.isInvalidArgument : Exn → Bool
  | .buffer_size_zero => true
  | .password_length_below_minimum => true
  | .password_length_above_maximum => true
  | _ => false

/-! ## SecureMemory -/

/-- The byte region of a `SecureMemory::SecureBuffer`; `size()` is its length. -/
structure SecureBuffer where
  bytes : Bytes
  deriving DecidableEq, Repr

/-- `SecureBuffer::size()`. -/
def SecureBuffer.size (b : SecureBuffer) : Nat := b.bytes.length

/-- `SecureMemory::createBuffer(size)`: the constructor rejects size 0 and clears the region. -/
def SecureMemory.createBuffer (size : Nat) : Except Exn SecureBuffer :=
  if size = 0 then .error .buffer_size_zero
  else .ok ⟨List.replicate size 0⟩

/-- `std::memcpy(dst, src, n)` on the start of a region: the first `n` bytes of `dst`
are replaced by the first `n` bytes of `src` (callers pass `n ≤` both sizes). -/
def memcpy (dst src : Bytes) (n : Nat) : Bytes :=
  src.take n ++ dst.drop n

/-! ## Qt's Base64 codec (`QByteArray::toBase64`, `QByteArray::fromBase64`) -/

namespace Qt

/-- The Base64 alphabet of `QByteArray::toBase64`. -/
def alphabet : Bytes :=
  lit "ABCDEFGHIJKLMNOPQRSTUVWXYZabcdefghijklmnopqrstuvwxyz0123456789+/"

/-- The pad character `=`. -/
def padchar : Nat := 61

/-- `alphabet[j]`. -/
def alphabetAt (j : Nat) : Nat := alphabet.getD j 0

/-- `QByteArray::toBase64()`: three bytes at a time become four characters; a last
group of one or two bytes is padded with `=`. The 24-bit chunk's shifts and masks
are written as division and remainder. -/
def toBase64 : Bytes → Bytes
  | [] => []
  | [a] =>
    let chunk := (a % 256) * 65536
    [alphabetAt (chunk / 262144 % 64), alphabetAt (chunk / 4096 % 64), padchar, padchar]
  | [a, b] =>
    let chunk := (a % 256) * 65536 + (b % 256) * 256
    [alphabetAt (chunk / 262144 % 64), alphabetAt (chunk / 4096 % 64),
     alphabetAt (chunk / 64 % 64), padchar]
  | a :: b :: c :: rest =>
    let chunk := (a % 256) * 65536 + (b % 256) * 256 + c % 256
    alphabetAt (chunk / 262144 % 64) :: alphabetAt (chunk / 4096 % 64) ::
      alphabetAt (chunk / 64 % 64) :: alphabetAt (chunk % 64) :: toBase64 rest

/-- The value `d` that `fromBase64` assigns to a character, `none` for `d = -1`. -/
def sextet (ch : Nat) : Option Nat :=
  if 65 ≤ ch ∧ ch ≤ 90 then some (ch - 65)
  else if 97 ≤ ch ∧ ch ≤ 122 then some (ch - 97 + 26)
  else if 48 ≤ ch ∧ ch ≤ 57 then some (ch - 48 + 52)
  else if ch = 43 then some 62
  else if ch = 47 then some 63
  else none

/-- The decoder's registers: bit buffer, number of buffered bits, bytes written. -/
structure Decoder where
  buf : Nat
  nbits : Nat
  out : Bytes
  deriving DecidableEq, Repr

/-- One iteration of the loop of `QByteArray::fromBase64`: a character outside the
alphabet (the pad character too) is skipped. -/
def Decoder.step (s : Decoder) (ch : Nat) : Decoder :=
  match sextet ch with
  | none => s
  | some d =>
    let buf := (s.buf * 64 + d) % 4294967296
    let nbits := s.nbits + 6
    if 8 ≤ nbits then
      let nbits := nbits - 8
      ⟨buf % 2 ^ nbits, nbits, s.out ++ [buf / 2 ^ nbits % 256]⟩
    else ⟨buf, nbits, s.out⟩

/-- `QByteArray::fromBase64(base64)`. -/
def fromBase64 (base64 : Bytes) : Bytes :=
  (base64.foldl Decoder.step ⟨0, 0, []⟩).out

end Qt

/-- Constructing a `QByteArray` from `const char*`: the bytes before the first NUL. -/
def c_str (s : Bytes) : Bytes := s.takeWhile (fun b => b != 0)

/-! ## Library code the core calls -/

/-- The functions of Qt and Argon2 the core calls, and what the core relies on. -/
structure Platform where
  /-- whether the build defines `HAVE_CRYPTO_LIBS` -/
  have_crypto_libs : Bool
  /-- `argon2id_hash_raw(t, m, p, pwd, salt, out, outlen)`: the bytes written to `out`,
  or the error code when the result is not `ARGON2_OK` -/
  argon2id_hash_raw : Nat → Nat → Nat → Bytes → Bytes → Nat → Except Nat Bytes
  /-- `QCryptographicHash::hash(data, Sha256)` -/
  sha256 : Bytes → Bytes
  /-- `QString::fromUtf8(s).toUtf8()`, also `QString::fromStdString(s).toStdString()` -/
  utf8 : Bytes → Bytes
  /-- Argon2 writes exactly `outlen` bytes. -/
  argon2_length : ∀ t m p pwd salt outlen out,
    argon2id_hash_raw t m p pwd salt outlen = .ok out → out.length = outlen
  /-- Argon2 writes byte values. -/
  argon2_bytes : ∀ t m p pwd salt outlen out,
    argon2id_hash_raw t m p pwd salt outlen = .ok out → IsBytes out
  /-- A SHA-256 digest has 32 bytes. -/
  sha256_length : ∀ data, (sha256 data).length = 32
  /-- A SHA-256 digest consists of byte values. -/
  sha256_bytes : ∀ data, IsBytes (sha256 data)
  /-- Conversion to `QString` and back keeps ASCII text. -/
  utf8_ascii : ∀ s : Bytes, (∀ b ∈ s, b < 128) → utf8 s = s

/-! ## CryptoManager -/

/-- What `std::random_device` does during one call: constructing or reading it may
throw; otherwise the `i`-th `rd()` returns `draws i`. -/
structure RandomDevice where
  available : Bool
  draws : Nat → Nat

/-- The state of a `CryptoManager` (`Impl::initialized`). -/
structure CryptoManager where
  initialized : Bool
  deriving DecidableEq, Repr

namespace CryptoManager

/-- The constructor: `initialized(false)`. -/
def new : CryptoManager := ⟨false⟩

/-- `CryptoManager::initialize()`; `gpgme_ok` tells whether `gpgme_new` reports no
error (it is called only when the build has the crypto libraries). -/
def init (cm : CryptoManager) (pf : Platform) (gpgme_ok : Bool) : Bool × CryptoManager :=
  if pf.have_crypto_libs && !gpgme_ok then (false, cm)
  else (true, { cm with initialized := true })

/-- `CryptoManager::toBase64`. -/
def toBase64 (data : Bytes) : Bytes := Qt.toBase64 data

/-- `CryptoManager::fromBase64`: the argument is passed as `base64.c_str()`. -/
def fromBase64 (base64 : Bytes) : Bytes := Qt.fromBase64 (c_str base64)

/-- The loop of `encrypt` and of `decrypt`, from index `i` on:
`result.push_back(data[i] ^ keyData[i % key.size()])`. A key of size 0 is outside the
function's domain (the C++ is undefined there); `SecureBuffer` cannot be built with size 0. -/
def xorLoop (key : SecureBuffer) : Nat → Bytes → Bytes
  | _, [] => []
  | i, d :: rest => ((d ^^^ key.bytes.getD (i % key.size) 0) % 256) :: xorLoop key (i + 1) rest

/-- `CryptoManager::encrypt(plaintext, key)`. -/
def encrypt (cm : CryptoManager) (plaintext : Bytes) (key : SecureBuffer) : Except Exn Bytes :=
  if !cm.initialized then .error .crypto_not_initialized
  else .ok (xorLoop key 0 plaintext)

/-- `CryptoManager::decrypt(ciphertext, key)`. -/
def decrypt (cm : CryptoManager) (ciphertext : Bytes) (key : SecureBuffer) : Except Exn Bytes :=
  if !cm.initialized then .error .crypto_not_initialized
  else .ok (xorLoop key 0 ciphertext)

/-- The stretching loop of the build without the crypto libraries: the value of
`key` after `n` iterations of
`key = QCryptographicHash::hash(key, QCryptographicHash::Sha256)`. -/
def sha256Rounds (pf : Platform) : Nat → Bytes → Bytes
  | 0, key => key
  | n + 1, key => pf.sha256 (sha256Rounds pf n key)

/-- `CryptoManager::generateSalt(size)`, `size` defaulting to 32: each byte is
`static_cast<uint8_t>(rd())`. -/
def generateSalt (_cm : CryptoManager) (rd : RandomDevice) (size : Nat := 32) : Except Exn Bytes :=
  if !rd.available then .error .random_device_failed
  else .ok (toBase64 ((List.range size).map (fun i => rd.draws i % 256)))

/-- `CryptoManager::deriveKey(masterPassword, salt)`: the key buffer and the value
left in the reference parameter `salt`. (When the function throws, both callers
discard the salt.) -/
def deriveKey (cm : CryptoManager) (pf : Platform) (rd : RandomDevice)
    (masterPassword salt : Bytes) : Except Exn (SecureBuffer × Bytes) :=
  if !cm.initialized then .error .crypto_not_initialized
  else do
    let salt ← if salt.isEmpty then generateSalt cm rd else pure salt
    let saltBytes := fromBase64 salt
    let keyBuffer ← SecureMemory.createBuffer 32
    if pf.have_crypto_libs then
      match pf.argon2id_hash_raw 3 65536 4 masterPassword saltBytes keyBuffer.size with
      | .ok out => pure (⟨memcpy keyBuffer.bytes out keyBuffer.size⟩, salt)
      | .error code => .error (.key_derivation_failed code)
    else
      let combined := pf.utf8 masterPassword ++ pf.utf8 saltBytes
      let key := sha256Rounds pf 10000 combined
      pure (⟨memcpy keyBuffer.bytes key (min keyBuffer.size key.length)⟩, salt)

/-- `CryptoManager::hashMasterPassword(masterPassword, salt)`. -/
def hashMasterPassword (_cm : CryptoManager) (pf : Platform)
    (masterPassword salt : Bytes) : Except Exn Bytes :=
  let saltBytes := fromBase64 salt
  if pf.have_crypto_libs then
    let hash := List.replicate 32 0
    match pf.argon2id_hash_raw 3 65536 4 masterPassword saltBytes hash.length with
    | .ok out => .ok (toBase64 (memcpy hash out hash.length))
    | .error code => .error (.password_hashing_failed code)
  else
    let combined := pf.utf8 masterPassword ++ pf.utf8 saltBytes
    let hash := sha256Rounds pf 10000 combined
    .ok (toBase64 hash)

/-- `CryptoManager::verifyMasterPassword(masterPassword, storedHash, salt)`. -/
def verifyMasterPassword (cm : CryptoManager) (pf : Platform)
    (masterPassword storedHash salt : Bytes) : Except Exn Bool := do
  let computedHash ← hashMasterPassword cm pf masterPassword salt
  pure (decide (computedHash = storedHash))

end CryptoManager

/-! ## PasswordGenerator -/

/-- The pseudo-random engine with `std::uniform_int_distribution<size_t>` on top of it:
`uniform a b g` is the value drawn from `[a, b]` and the engine state afterwards. -/
structure StdRandom (ρ : Type) where
  uniform : Nat → Nat → ρ → Nat × ρ
  /-- The distribution returns a value of its range. -/
  uniform_range : ∀ a b g, a ≤ b → a ≤ (uniform a b g).1 ∧ (uniform a b g).1 ≤ b

/-- `std::iter_swap` on positions `i` and `j` of a sequence. -/
def iter_swap {α : Type} (a : List α) (i j : Nat) : List α :=
  match a[i]?, a[j]? with
  | some x, some y => (a.set i y).set j x
  | _, _ => a

/-- The loop of `std::shuffle(first, last, g)`, `k` iterations from position `i`:
`iter_swap(first + i, first + dist(g, {0, i}))`. -/
def shuffleLoop {α ρ : Type} (R : StdRandom ρ) : Nat → Nat → List α → ρ → List α × ρ
  | 0, _, a, g => (a, g)
  | k + 1, i, a, g =>
    let r := R.uniform 0 i g
    shuffleLoop R k (i + 1) (iter_swap a i r.1) r.2

/-- `std::shuffle(first, last, g)`. -/
def shuffle {α ρ : Type} (R : StdRandom ρ) (a : List α) (g : ρ) : List α × ρ :=
  shuffleLoop R (a.length - 1) 1 a g

namespace PasswordGenerator

variable {ρ : Type}

def LOWERCASE_CHARS : Bytes := lit "abcdefghijklmnopqrstuvwxyz"
def UPPERCASE_CHARS : Bytes := lit "ABCDEFGHIJKLMNOPQRSTUVWXYZ"
def DIGIT_CHARS : Bytes := lit "0123456789"
def SYMBOL_CHARS : Bytes := lit "!@#$%^&*()_+-=[]\x7b\x7d|;:,.<>?"

/-- The loop of `generateFromCharset`: `result += charset[dist(secure_prng_)]`, `n` times. -/
def generateFromCharsetLoop (R : StdRandom ρ) (charset : Bytes) : Nat → ρ → Bytes × ρ
  | 0, g => ([], g)
  | n + 1, g =>
    let r := R.uniform 0 (charset.length - 1) g
    let rest := generateFromCharsetLoop R charset n r.2
    (charset.getD r.1 0 :: rest.1, rest.2)

/-- `PasswordGenerator::generateFromCharset(charset, length)`. -/
def generateFromCharset (R : StdRandom ρ) (charset : Bytes) (length : Nat) (g : ρ) : Bytes × ρ :=
  if charset.isEmpty || length == 0 then ([], g)
  else generateFromCharsetLoop R charset length g

/-- The string `generatePassword` holds before `std::shuffle`, and the engine state. -/
def generatePasswordUnshuffled (R : StdRandom ρ) (length : Nat) (includeSymbols : Bool) (g : ρ) :
    Bytes × ρ :=
  let charset := LOWERCASE_CHARS ++ UPPERCASE_CHARS ++ DIGIT_CHARS
  let charset := if includeSymbols then charset ++ SYMBOL_CHARS else charset
  let r1 := generateFromCharset R LOWERCASE_CHARS 1 g
  let r2 := generateFromCharset R UPPERCASE_CHARS 1 r1.2
  let r3 := generateFromCharset R DIGIT_CHARS 1 r2.2
  let password := r1.1 ++ r2.1 ++ r3.1
  let r4 := if includeSymbols then generateFromCharset R SYMBOL_CHARS 1 r3.2 else ([], r3.2)
  let password := password ++ r4.1
  let remaining := length - password.length
  let r5 := generateFromCharset R charset remaining r4.2
  (password ++ r5.1, r5.2)

/-- `PasswordGenerator::generatePassword(length, includeSymbols)`, defaults 64 and true. -/
def generatePassword (R : StdRandom ρ) (g : ρ) (length : Nat := 64) (includeSymbols : Bool := true) :
    Except Exn (Bytes × ρ) :=
  if length < 8 then .error .password_length_below_minimum
  else if length > 512 then .error .password_length_above_maximum
  else
    let r := generatePasswordUnshuffled R length includeSymbols g
    .ok (shuffle R r.1 r.2)

/-- `PasswordGenerator::generateUsername(basePrefix)`, default `"user_"`. -/
def generateUsername (R : StdRandom ρ) (g : ρ) (basePrefix : Bytes := lit "user_") : Bytes × ρ :=
  let charset := LOWERCASE_CHARS ++ UPPERCASE_CHARS ++ DIGIT_CHARS
  let suffix := generateFromCharset R charset 8 g
  (basePrefix ++ suffix.1, suffix.2)

end PasswordGenerator

/-! ## JSON documents (`QJsonValue`, `QJsonDocument`) and the file system -/

/-- A `QJsonValue`. A string holds the UTF-8 bytes of its `QString`. -/
inductive QJsonValue where
  | null
  | bool (b : Bool)
  | double (x : Int)
  | string (s : Bytes)
  | array (items : List QJsonValue)
  | object (members : List (Bytes × QJsonValue))

/-- A `QJsonObject`: its members; a key is looked up from the front. -/
abbrev QJsonObject := List (Bytes × QJsonValue)

/-- `QJsonValue::toString().toStdString()`: the empty string unless the value is a string. -/
def QJsonValue.toStdString : QJsonValue → Bytes
  | .string s => s
  | _ => []

/-- `QJsonValue::toArray()`: the empty array unless the value is an array. -/
def QJsonValue.toArray : QJsonValue → List QJsonValue
  | .array items => items
  | _ => []

/-- `QJsonValue::isObject()`. -/
def QJsonValue.isObject : QJsonValue → Bool
  | .object _ => true
  | _ => false

/-- `QJsonValue::toObject()`, also `QJsonDocument::object()`: the empty object unless
the value is an object. -/
def QJsonValue.toObject : QJsonValue → QJsonObject
  | .object members => members
  | _ => []

/-- `obj[key]`, `QJsonObject::value(key)`: the member's value, null when the key is absent. -/
def QJsonObject.value (obj : QJsonObject) (key : Bytes) : QJsonValue :=
  match obj.find? (fun m => m.1 == key) with
  | some m => m.2
  | none => .null

/-- A JSON text as `QJsonDocument::fromJson` sees it: rejected with a parse error, or
the document it parses to. `QJsonDocument::toJson` of a document is the text that
parses back to that document. -/
inductive JsonText where
  | malformed
  | document (root : QJsonValue)

/-- The files the vault can reach. `files path` is what an `std::ifstream` on `path`
reads (`none`: the stream is not good); `writable path` tells whether an
`std::ofstream` on `path` is good. -/
structure FileSystem where
  files : Bytes → Option JsonText
  writable : Bytes → Bool

/-- Writing `content` through a good `std::ofstream` on `path`. -/
def FileSystem.write (fs : FileSystem) (path : Bytes) (content : JsonText) : FileSystem :=
  { fs with files := fun p => if p = path then some content else fs.files p }

/-- What the surroundings answer during one call of a vault operation. -/
structure Host where
  /-- `QUuid::createUuid().toString(QUuid::WithoutBraces)` -/
  uuid : Bytes
  /-- `VaultEntry::getCurrentTimestamp()` -/
  timestamp : Bytes
  /-- `VaultEntry::getDeviceFingerprint()` -/
  device_fingerprint : Bytes
  /-- `std::chrono::steady_clock::now()`, as a count of ticks of the clock (seconds, or
  a fixed fraction of a second) -/
  steady_now : Nat
  /-- the `std::random_device` of `generateSalt` -/
  random_device : RandomDevice

/-! ## VaultEntry -/

/-- `struct VaultEntry`. -/
structure VaultEntry where
  id : Bytes
  label : Bytes
  username : Bytes
  password : Bytes
  created_at : Bytes
  device_fingerprint : Bytes
  deriving DecidableEq, Repr

namespace VaultEntry

/-- `VaultEntry::toJson()`; `QString::fromStdString` converts each field. -/
def toJson (pf : Platform) (e : VaultEntry) : JsonText :=
  .document (.object [
    (lit "id", .string (pf.utf8 e.id)),
    (lit "label", .string (pf.utf8 e.label)),
    (lit "username", .string (pf.utf8 e.username)),
    (lit "password", .string (pf.utf8 e.password)),
    (lit "created_at", .string (pf.utf8 e.created_at)),
    (lit "device_fingerprint", .string (pf.utf8 e.device_fingerprint))])

/-- `VaultEntry::fromJson(json)`. -/
def fromJson (json : JsonText) : Except Exn VaultEntry :=
  match json with
  | .malformed => .error .entry_json_parse_failed
  | .document doc =>
    if !doc.isObject then .error .entry_json_not_object
    else
      let obj := doc.toObject
      .ok {
        id := (obj.value (lit "id")).toStdString
        label := (obj.value (lit "label")).toStdString
        username := (obj.value (lit "username")).toStdString
        password := (obj.value (lit "password")).toStdString
        created_at := (obj.value (lit "created_at")).toStdString
        device_fingerprint := (obj.value (lit "device_fingerprint")).toStdString }

end VaultEntry

/-! ## SecureVault -/

/-- The static function `secure_zero_memory(ptr, len)` on a region: the loop
`while (len--) *p++ = 0` writes a zero to each of the first `len` bytes. -/
def secure_zero_memory : Bytes → Nat → Bytes
  | [], _ => []
  | region, 0 => region
  | _ :: rest, len + 1 => 0 :: secure_zero_memory rest len

/-- `SecureMemory::secureZero(ptr, len)` on the region at a non-null `ptr`. -/
def SecureMemory.secureZeroRegion (region : Bytes) (len : Nat) : Bytes :=
  if len = 0 then region else secure_zero_memory region len

/-- `std::string::clear()`: the value afterwards. The size becomes 0; the character
storage stays with the bytes it holds. -/
def string_clear (_str : Bytes) : Bytes := []

/-- `SecureMemory::secureZero(std::string&)`: the value of the string afterwards, and
the bytes its character storage holds afterwards where the value was. A non-empty
string is overwritten over `str.size()` bytes and then cleared. -/
def SecureMemory.secureZeroStorage (str : Bytes) : Bytes × Bytes :=
  if !str.isEmpty then
    let storage := SecureMemory.secureZeroRegion str str.length
    (string_clear storage, storage)
  else (str, str)

/-- `SecureMemory::secureZero(std::string&)`: the value of the string afterwards. -/
def SecureMemory.secureZero (str : Bytes) : Bytes :=
  (SecureMemory.secureZeroStorage str).1

/-- The data members of `SecureVault`; `password_generator_` is the state of the
generator's engine. -/
structure SecureVault (ρ : Type) where
  crypto_manager_ : CryptoManager
  password_generator_ : ρ
  vault_key_ : Option SecureBuffer
  entries_ : List VaultEntry
  vault_path_ : Bytes
  vault_salt_ : Bytes
  master_hash_ : Bytes
  is_open_ : Bool
  last_activity_ : Nat
  auto_lock_timeout_ : Int

namespace SecureVault

variable {ρ : Type}

/-- The constructor `SecureVault::SecureVault()`: `g` is the engine state the
password generator starts with, `now` the reading of the steady clock. -/
def new (pf : Platform) (gpgme_ok : Bool) (g : ρ) (now : Nat) : Except Exn (SecureVault ρ) :=
  let cm := CryptoManager.init CryptoManager.new pf gpgme_ok
  if !cm.1 then .error .crypto_manager_setup_failed
  else .ok {
    crypto_manager_ := cm.2
    password_generator_ := g
    vault_key_ := none
    entries_ := []
    vault_path_ := []
    vault_salt_ := []
    master_hash_ := []
    is_open_ := false
    last_activity_ := now
    auto_lock_timeout_ := 60 }

/-- `*vault_key_`. The C++ is undefined when the pointer is null; the vault
dereferences it only while open, and an open vault holds a key. -/
def key (v : SecureVault ρ) : SecureBuffer := v.vault_key_.getD ⟨[]⟩

/-- The state invariant behind "Open vault": the codec is initialized, and a vault
that is open holds a key buffer of 32 bytes. -/
def KeyInvariant (v : SecureVault ρ) : Prop :=
  v.crypto_manager_.initialized = true ∧
  (v.is_open_ = true → ∃ k, v.vault_key_ = some k ∧ k.size = 32)

/-- `SecureVault::isOpen()`. -/
def isOpen (v : SecureVault ρ) : Bool := v.is_open_

/-- `SecureVault::updateActivity()`. -/
def updateActivity (v : SecureVault ρ) (host : Host) : SecureVault ρ :=
  { v with last_activity_ := host.steady_now }

/-- `SecureVault::clearSensitiveData()`: the vault afterwards, and for each record, in
order, the bytes the character storage of its password holds afterwards. -/
def clearSensitiveDataStorage (v : SecureVault ρ) : SecureVault ρ × List Bytes :=
  let wiped := v.entries_.map
    (fun entry => (entry, SecureMemory.secureZeroStorage entry.password))
  ({ v with entries_ := wiped.map (fun w => { w.1 with password := w.2.1 }) },
   wiped.map (fun w => w.2.2))

/-- `SecureVault::clearSensitiveData()`: the vault afterwards. -/
def clearSensitiveData (v : SecureVault ρ) : SecureVault ρ :=
  (clearSensitiveDataStorage v).1

/-- `SecureVault::closeVault()`: the vault afterwards, and for each record, in order,
the bytes the character storage of its password holds when `entries_.clear()`
destroys the records. -/
def closeVaultStorage (v : SecureVault ρ) : SecureVault ρ × List Bytes :=
  let r := clearSensitiveDataStorage v
  let v := r.1
  ({ v with
      entries_ := []
      vault_path_ := []
      vault_salt_ := []
      master_hash_ := []
      vault_key_ := none
      is_open_ := false },
   r.2)

/-- `SecureVault::closeVault()`: the vault afterwards. -/
def closeVault (v : SecureVault ρ) : SecureVault ρ :=
  (closeVaultStorage v).1

/-- `SecureVault::saveVaultFile()`: whether it reports success, and the file system. -/
def saveVaultFile (v : SecureVault ρ) (pf : Platform) (host : Host) (fs : FileSystem) :
    Bool × FileSystem :=
  if !v.is_open_ || v.vault_path_.isEmpty then (false, fs)
  else
    let entriesArray := v.entries_.map (fun entry =>
      match VaultEntry.toJson pf entry with
      | .document doc => QJsonValue.object doc.toObject
      | .malformed => QJsonValue.object [])
    let root : QJsonObject := [
      (lit "version", .string (lit "1.0")),
      (lit "salt", .string (pf.utf8 v.vault_salt_)),
      (lit "master_hash", .string (pf.utf8 v.master_hash_)),
      (lit "created_at", .string (pf.utf8 host.timestamp)),
      (lit "device_fingerprint", .string (pf.utf8 host.device_fingerprint)),
      (lit "entries", .array entriesArray)]
    if !fs.writable v.vault_path_ then (false, fs)
    else (true, fs.write v.vault_path_ (.document (.object root)))

/-- The loop of `loadVaultFile` over the entries array: the entries pushed so far and
the exception that ended the loop, if any. -/
def loadEntriesLoop : List QJsonValue → List VaultEntry → List VaultEntry × Option Exn
  | [], acc => (acc, none)
  | value :: rest, acc =>
    if value.isObject then
      match VaultEntry.fromJson (.document (.object value.toObject)) with
      | .ok entry => loadEntriesLoop rest (acc ++ [entry])
      | .error x => (acc, some x)
    else loadEntriesLoop rest acc

/-- `SecureVault::loadVaultFile()`. -/
def loadVaultFile (v : SecureVault ρ) (fs : FileSystem) : Bool × SecureVault ρ :=
  match fs.files v.vault_path_ with
  | none => (false, v)
  | some .malformed => (false, v)
  | some (.document doc) =>
    let root := doc.toObject
    let v := { v with
      vault_salt_ := (root.value (lit "salt")).toStdString
      master_hash_ := (root.value (lit "master_hash")).toStdString }
    let entriesArray := (root.value (lit "entries")).toArray
    let r := loadEntriesLoop entriesArray []
    let v := { v with entries_ := r.1 }
    match r.2 with
    | none => (true, v)
    | some _ => (false, v)

/-- `SecureVault::createVault(masterPassword, vaultPath)`. -/
def createVault (v : SecureVault ρ) (pf : Platform) (host : Host) (fs : FileSystem)
    (masterPassword : Bytes) (vaultPath : Bytes := lit "vault.gpg") :
    Bool × SecureVault ρ × FileSystem :=
  if masterPassword.isEmpty then (false, v, fs)
  else
    let v := { v with vault_path_ := vaultPath }
    match CryptoManager.generateSalt v.crypto_manager_ host.random_device with
    | .error _ => (false, closeVault v, fs)
    | .ok salt =>
      let v := { v with vault_salt_ := salt }
      match CryptoManager.deriveKey v.crypto_manager_ pf host.random_device masterPassword
          v.vault_salt_ with
      | .error _ => (false, closeVault v, fs)
      | .ok (keyBuffer, salt) =>
        let v := { v with vault_key_ := some keyBuffer, vault_salt_ := salt }
        match CryptoManager.hashMasterPassword v.crypto_manager_ pf masterPassword
            v.vault_salt_ with
        | .error _ => (false, closeVault v, fs)
        | .ok hash =>
          let v := { v with master_hash_ := hash, entries_ := [], is_open_ := true }
          let v := updateActivity v host
          let r := saveVaultFile v pf host fs
          (r.1, v, r.2)

/-- `SecureVault::openVault(masterPassword, vaultPath)`. -/
def openVault (v : SecureVault ρ) (pf : Platform) (host : Host) (fs : FileSystem)
    (masterPassword : Bytes) (vaultPath : Bytes := lit "vault.gpg") :
    Bool × SecureVault ρ :=
  if masterPassword.isEmpty then (false, v)
  else
    let v := { v with vault_path_ := vaultPath }
    let r := loadVaultFile v fs
    let v := r.2
    if !r.1 then (false, v)
    else
      match CryptoManager.verifyMasterPassword v.crypto_manager_ pf masterPassword
          v.master_hash_ v.vault_salt_ with
      | .error _ => (false, closeVault v)
      | .ok false => (false, closeVault v)
      | .ok true =>
        match CryptoManager.deriveKey v.crypto_manager_ pf host.random_device masterPassword
            v.vault_salt_ with
        | .error _ => (false, closeVault v)
        | .ok (keyBuffer, salt) =>
          let v := { v with vault_key_ := some keyBuffer, vault_salt_ := salt, is_open_ := true }
          (true, updateActivity v host)

/-- `SecureVault::createEntry(label)`. -/
def createEntry (v : SecureVault ρ) (R : StdRandom ρ) (host : Host) (label : Bytes) :
    Except Exn VaultEntry × SecureVault ρ :=
  if !v.is_open_ || label.isEmpty then (.error .vault_not_open_or_invalid_label, v)
  else
    let v := updateActivity v host
    let username := PasswordGenerator.generateUsername R v.password_generator_
    match PasswordGenerator.generatePassword R username.2 with
    | .error x => (.error x, { v with password_generator_ := username.2 })
    | .ok password =>
      (.ok {
        id := host.uuid
        label := label
        username := username.1
        password := password.1
        created_at := host.timestamp
        device_fingerprint := host.device_fingerprint },
       { v with password_generator_ := password.2 })

/-- `*it = encryptedEntry` at the first element that `std::find_if` accepts. -/
def assignFirst (p : VaultEntry → Bool) (x : VaultEntry) : List VaultEntry → List VaultEntry
  | [] => []
  | e :: rest => if p e then x :: rest else e :: assignFirst p x rest

/-- `SecureVault::saveEntry(entry)`. -/
def saveEntry (v : SecureVault ρ) (pf : Platform) (host : Host) (fs : FileSystem)
    (entry : VaultEntry) : Bool × SecureVault ρ × FileSystem :=
  if !v.is_open_ then (false, v, fs)
  else
    let v := updateActivity v host
    match CryptoManager.encrypt v.crypto_manager_ entry.password v.key with
    | .error _ => (false, v, fs)
    | .ok encryptedPassword =>
      let encryptedEntry := { entry with password := CryptoManager.toBase64 encryptedPassword }
      let v :=
        match v.entries_.find? (fun e => e.id == entry.id) with
        | some _ =>
          { v with entries_ := assignFirst (fun e => e.id == entry.id) encryptedEntry v.entries_ }
        | none => { v with entries_ := v.entries_ ++ [encryptedEntry] }
      let r := saveVaultFile v pf host fs
      (r.1, v, r.2)

/-- `SecureVault::getEntryLabels()`. -/
def getEntryLabels (v : SecureVault ρ) : List (Bytes × Bytes) :=
  if !v.is_open_ then []
  else v.entries_.map (fun entry => (entry.id, entry.label))

/-- `SecureVault::getEntry(entryId)`. -/
def getEntry (v : SecureVault ρ) (entryId : Bytes) : Except Exn VaultEntry :=
  if !v.is_open_ then .error .vault_not_open
  else
    match v.entries_.find? (fun e => e.id == entryId) with
    | none => .error .entry_not_found
    | some e => .ok e

/-- `SecureVault::getPassword(entryId)`. -/
def getPassword (v : SecureVault ρ) (host : Host) (entryId : Bytes) :
    Except Exn Bytes × SecureVault ρ :=
  if !v.is_open_ then (.error .vault_not_open, v)
  else
    let v := updateActivity v host
    match v.entries_.find? (fun e => e.id == entryId) with
    | none => (.error .entry_not_found, v)
    | some e =>
      let encryptedPassword := CryptoManager.fromBase64 e.password
      match CryptoManager.decrypt v.crypto_manager_ encryptedPassword v.key with
      | .ok plaintext => (.ok plaintext, v)
      | .error _ => (.error .failed_to_decrypt_password, v)

/-- `SecureVault::deleteEntry(entryId)`. -/
def deleteEntry (v : SecureVault ρ) (pf : Platform) (host : Host) (fs : FileSystem)
    (entryId : Bytes) : Bool × SecureVault ρ × FileSystem :=
  if !v.is_open_ then (false, v, fs)
  else
    let v := updateActivity v host
    match v.entries_.find? (fun e => e.id == entryId) with
    | none => (false, v, fs)
    | some _ =>
      let v := { v with entries_ := v.entries_.eraseP (fun e => e.id == entryId) }
      let r := saveVaultFile v pf host fs
      (r.1, v, r.2)

end SecureVault


/-! ## An example platform, generator, host and vault

One concrete instance of the library parameters and of the surroundings, on which
the statements below are instantiated. -/

/-- A platform with the crypto libraries, whose Argon2 stand-in fills the output
with a byte computed from password and salt. -/
def examplePlatform : Platform where
  have_crypto_libs := true
  argon2id_hash_raw := fun _ _ _ pwd salt outlen =>
    .ok (List.replicate outlen ((pwd.sum + 3 * salt.sum) % 256))
  sha256 := fun data => List.replicate 32 (data.sum % 256)
  utf8 := fun s => s
  argon2_length := by
    intro t m p pwd salt outlen out h
    cases h
    simp
  argon2_bytes := by
    intro t m p pwd salt outlen out h
    cases h
    intro b hb
    rw [List.eq_of_mem_replicate hb]
    exact Nat.mod_lt _ (by norm_num)
  sha256_length := by intro data; simp
  sha256_bytes := by
    intro data b hb
    rw [List.eq_of_mem_replicate hb]
    exact Nat.mod_lt _ (by norm_num)
  utf8_ascii := by intro s _; rfl

/-- A linear congruential engine with the distribution `a + x % (b - a + 1)`. -/
def exampleRandom : StdRandom Nat where
  uniform := fun a b g => (a + (g * 7919 + 13) % (b - a + 1), (g * 75 + 74) % 65537)
  uniform_range := by
    intro a b g h
    have := Nat.mod_lt (g * 7919 + 13) (by omega : b - a + 1 > 0)
    constructor <;> simp only <;> omega


/-- A host: fixed identifiers, clock at 100, a working random device. -/
def exampleHost : Host where
  uuid := lit "0b0e7a52-5c1f-4f0e-9d3a-2f6d1c9a7e11"
  timestamp := lit "2024-05-01T12:00:00Z"
  device_fingerprint := lit "9f86d081884c7d65"
  steady_now := 100
  random_device := ⟨true, fun i => 17 * i + 3⟩

/-- A file system without files in which every non-empty path can be written. -/
def exampleFileSystem : FileSystem where
  files := fun _ => none
  writable := fun path => !path.isEmpty

/-- A vault as the constructor leaves it, with the engine in state 5. -/
def exampleVault : SecureVault Nat where
  crypto_manager_ := ⟨true⟩
  password_generator_ := 5
  vault_key_ := none
  entries_ := []
  vault_path_ := []
  vault_salt_ := []
  master_hash_ := []
  is_open_ := false
  last_activity_ := 0
  auto_lock_timeout_ := 60

/-- The example vault after `createVault("correct-horse", "/tmp/v.store")`. -/
def exampleOpenVault : SecureVault Nat :=
  (exampleVault.createVault examplePlatform exampleHost exampleFileSystem
    (lit "correct-horse") (lit "/tmp/v.store")).2.1

/-- The file system after that `createVault`. -/
def exampleStore : FileSystem :=
  (exampleVault.createVault examplePlatform exampleHost exampleFileSystem
    (lit "correct-horse") (lit "/tmp/v.store")).2.2

/-- The entry `createEntry("Mail")` returns on `exampleOpenVault` with `exampleRandom`. -/
def exampleEntry : VaultEntry where
  id := lit "0b0e7a52-5c1f-4f0e-9d3a-2f6d1c9a7e11"
  label := lit "Mail"
  username := lit "user_0gCuox1H"
  password := lit ":Bt4rPmF)9o2XS7_!3tf-eJa(.\x7b,Jf4^3A6Zyz330!%I?mz0Mj8A;b;@,:)a=OR@"
  created_at := lit "2024-05-01T12:00:00Z"
  device_fingerprint := lit "9f86d081884c7d65"

/-- A store holding at "/tmp/v.store" the vault file that `createVault("wrong",
"/tmp/v.store")` wrote on the example vault, and in which no path can be written
(a read-only file). -/
def exampleReadOnlyStore : FileSystem where
  files := (exampleVault.createVault examplePlatform exampleHost exampleFileSystem
    (lit "wrong") (lit "/tmp/v.store")).2.2.files
  writable := fun _ => false


/-- `SecureVault::verifyIntegrity()`: whether the path is set and an `std::ifstream`
on it is good. -/
def SecureVault.verifyIntegrity {ρ : Type} (v : SecureVault ρ) (fs : FileSystem) : Bool :=
  if v.vault_path_.isEmpty then false
  else (fs.files v.vault_path_).isSome

/-! ## Further example stores -/

/-- A store whose file "/tmp/v.store" can be read and is not JSON. -/
def exampleMalformedStore : FileSystem where
  files := fun path => if path = lit "/tmp/v.store" then some .malformed else none
  writable := fun path => !path.isEmpty

/-- A store file "/tmp/v.store" for the passphrase "correct-horse" that holds two
records with the same id, labelled "Mail" and "Bank". -/
def exampleDuplicateStore : FileSystem :=
  (SecureVault.saveVaultFile
    { exampleOpenVault with
      entries_ := [exampleEntry, { exampleEntry with label := lit "Bank" }] }
    examplePlatform exampleHost exampleFileSystem).2

/-- The entry `VaultEntry::fromJson` reads from the text `toJson` writes for `e`:
every field has gone through `QString`. -/
def VaultEntry.viaQString (pf : Platform) (e : VaultEntry) : VaultEntry where
  id := pf.utf8 e.id
  label := pf.utf8 e.label
  username := pf.utf8 e.username
  password := pf.utf8 e.password
  created_at := pf.utf8 e.created_at
  device_fingerprint := pf.utf8 e.device_fingerprint

/-! ## The build without the crypto libraries -/

/-- A platform without the crypto libraries (`HAVE_CRYPTO_LIBS` not defined): Argon2
is absent, and the SHA-256 stand-in returns 31 zero bytes followed by the byte sum of
its input. -/
def exampleDevPlatform : Platform where
  have_crypto_libs := false
  argon2id_hash_raw := fun _ _ _ _ _ _ => .error 0
  sha256 := fun data => List.replicate 31 0 ++ [data.sum % 256]
  utf8 := fun s => s
  argon2_length := by
    intro t m p pwd salt outlen out h
    cases h
  argon2_bytes := by
    intro t m p pwd salt outlen out h
    cases h
  sha256_length := by intro data; simp
  sha256_bytes := by
    intro data b hb
    rcases List.mem_append.1 hb with h | h
    · rw [List.eq_of_mem_replicate h]
      norm_num
    · rw [List.mem_singleton.1 h]
      exact Nat.mod_lt _ (by norm_num)
  utf8_ascii := by intro s _; rfl

/-- A vault as the constructor leaves it in that build, with the engine in state 5. -/
def exampleDevVault : SecureVault Nat where
  crypto_manager_ := ⟨true⟩
  password_generator_ := 5
  vault_key_ := none
  entries_ := []
  vault_path_ := []
  vault_salt_ := []
  master_hash_ := []
  is_open_ := false
  last_activity_ := 0
  auto_lock_timeout_ := 60

/-- The root object of a store file without a `salt` field, whose `master_hash` is
the hash of "pw" under the empty salt on `exampleDevPlatform`. -/
def exampleSaltlessRoot : QJsonValue :=
  .object [
    (lit "version", .string (lit "1.0")),
    (lit "master_hash", .string (lit "AAAAAAAAAAAAAAAAAAAAAAAAAAAAAAAAAAAAAAAAAOc=")),
    (lit "entries", .array [])]

/-- A store holding that file at "/tmp/v.store". -/
def exampleSaltlessStore : FileSystem where
  files := fun path =>
    if path = lit "/tmp/v.store" then some (.document exampleSaltlessRoot) else none
  writable := fun path => !path.isEmpty

/-- The root object of a store file without a `master_hash` field. -/
def exampleHashlessRoot : QJsonValue :=
  .object [
    (lit "version", .string (lit "1.0")),
    (lit "salt", .string (lit "AxQlNkdYaXqLnK2+z+DxAhMkNUZXaHmKm6y9zt/wARI=")),
    (lit "entries", .array [])]

/-- A store holding that file at "/tmp/v.store". -/
def exampleHashlessStore : FileSystem where
  files := fun path =>
    if path = lit "/tmp/v.store" then some (.document exampleHashlessRoot) else none
  writable := fun path => !path.isEmpty

/-! ## Reachable states -/

/-- The states a vault reaches from its constructor by calls of `createVault`,
`openVault`, `closeVault`, `createEntry`, `saveEntry`, `getPassword`, `deleteEntry`
and `updateActivity`, with any arguments and surroundings, whatever each call
returns (`getEntry` is `const` and leaves the state as it is). The second index is the passphrase of the last call that left a
key in the vault: `createVault` with a non-empty passphrase, or an `openVault` that
returned true (empty before the first such call). -/
inductive Reachable {ρ : Type} (pf : Platform) : SecureVault ρ → Bytes → Prop
  | new (gpgme_ok : Bool) (g : ρ) (now : Nat) (v : SecureVault ρ)
      (h : SecureVault.new pf gpgme_ok g now = .ok v) : Reachable pf v []
  | createVault (v : SecureVault ρ) (p : Bytes) (host : Host) (fs : FileSystem)
      (P F : Bytes) (h : Reachable pf v p) :
      Reachable pf (v.createVault pf host fs P F).2.1 (if P.isEmpty then p else P)
  | openVault (v : SecureVault ρ) (p : Bytes) (host : Host) (fs : FileSystem)
      (P F : Bytes) (h : Reachable pf v p) :
      Reachable pf (v.openVault pf host fs P F).2
        (if (v.openVault pf host fs P F).1 then P else p)
  | closeVault (v : SecureVault ρ) (p : Bytes) (h : Reachable pf v p) :
      Reachable pf v.closeVault p
  | createEntry (v : SecureVault ρ) (p : Bytes) (R : StdRandom ρ) (host : Host)
      (label : Bytes) (h : Reachable pf v p) :
      Reachable pf (v.createEntry R host label).2 p
  | saveEntry (v : SecureVault ρ) (p : Bytes) (host : Host) (fs : FileSystem)
      (entry : VaultEntry) (h : Reachable pf v p) :
      Reachable pf (v.saveEntry pf host fs entry).2.1 p
  | getPassword (v : SecureVault ρ) (p : Bytes) (host : Host) (entryId : Bytes)
      (h : Reachable pf v p) :
      Reachable pf (v.getPassword host entryId).2 p
  | deleteEntry (v : SecureVault ρ) (p : Bytes) (host : Host) (fs : FileSystem)
      (entryId : Bytes) (h : Reachable pf v p) :
      Reachable pf (v.deleteEntry pf host fs entryId).2.1 p
  | updateActivity (v : SecureVault ρ) (p : Bytes) (host : Host) (h : Reachable pf v p) :
      Reachable pf (v.updateActivity host) p

/-- The invariant on key, hash and salt, for the passphrase `P` of the last call that
left a key in the vault: the codec is initialized; a closed vault holds neither key
nor hash; an open vault holds a 32-byte key, which is the key `deriveKey` gives for
`P` and the salt in memory, and a non-empty hash, which is `hashMasterPassword` of `P`
under the salt in memory or under the empty salt. -/
def SecureVault.KeyHashInvariant {ρ : Type} (pf : Platform) (v : SecureVault ρ)
    (P : Bytes) : Prop :=
  v.crypto_manager_.initialized = true ∧
  (v.is_open_ = false → v.vault_key_ = none ∧ v.master_hash_ = []) ∧
  (v.is_open_ = true →
    (∃ k, v.vault_key_ = some k ∧ k.size = 32 ∧
      ∀ rd, v.crypto_manager_.deriveKey pf rd P v.vault_salt_ = .ok (k, v.vault_salt_)) ∧
    v.master_hash_ ≠ [] ∧
    (v.crypto_manager_.hashMasterPassword pf P v.vault_salt_ = .ok v.master_hash_ ∨
      v.crypto_manager_.hashMasterPassword pf P [] = .ok v.master_hash_))


/-! ## Auto-lock -/

/-- `SecureVault::setAutoLockTimeout(timeoutSeconds)`, the argument defaulting to 60. -/
def SecureVault.setAutoLockTimeout {ρ : Type} (v : SecureVault ρ) (timeoutSeconds : Int := 60) :
    SecureVault ρ :=
  { v with auto_lock_timeout_ := timeoutSeconds }

/-- `SecureVault::shouldAutoLock()`: `now` is the reading of the steady clock during
the call and `ticksPerSecond` the number of ticks of that clock in a second;
`duration_cast<seconds>` divides the tick count, truncating towards zero. -/
def SecureVault.shouldAutoLock {ρ : Type} (v : SecureVault ρ) (now : Nat)
    (ticksPerSecond : Nat) : Bool :=
  if !v.is_open_ || decide (v.auto_lock_timeout_ ≤ 0) then false
  else
    let elapsed : Int := Int.tdiv ((now : Int) - (v.last_activity_ : Int)) (ticksPerSecond : Int)
    decide (elapsed ≥ v.auto_lock_timeout_)

/-! ## The entry creation dialog (`VaultCreationDialog`) -/

/-- A `QString`: its UTF-16 code units. -/
abbrev QString := List Nat

/-- `QChar::isSpace_helper`: the code points of the Unicode categories Zs, Zl and Zp
above U+00A0. -/
def Qt.isSpace_helper (ucs4 : Nat) : Bool :=
  ucs4 == 0x1680 || (0x2000 ≤ ucs4 && ucs4 ≤ 0x200a) || ucs4 == 0x2028 || ucs4 == 0x2029 ||
    ucs4 == 0x202f || ucs4 == 0x205f || ucs4 == 0x3000

/-- `QChar::isSpace`. -/
def Qt.isSpace (ucs4 : Nat) : Bool :=
  ucs4 == 0x20 || (ucs4 ≤ 0x0d && ucs4 ≥ 0x09) ||
    (ucs4 > 127 && (ucs4 == 0x85 || ucs4 == 0xa0 || Qt.isSpace_helper ucs4))

/-- `QString::trimmed()`: whitespace removed from the start and the end. -/
def Qt.trimmed (s : QString) : QString :=
  ((s.dropWhile Qt.isSpace).reverse.dropWhile Qt.isSpace).reverse

/-- `VaultCreationDialog::validateInput()` for the text of the label input: whether
the input is accepted (the message boxes are left out). -/
def VaultCreationDialog.validateInput (text : QString) : Bool :=
  let label := Qt.trimmed text
  if label.isEmpty then false
  else if label.length > 100 then false
  else true

/-- The entry `VaultCreationDialog::onGenerateCredentials()` builds for the text of the
label input, none when the input is rejected or the generator throws; `g` is the
state of the dialog's own generator and `toStdString` is `QString::toStdString`. -/
def VaultCreationDialog.onGenerateCredentials {ρ : Type} (R : StdRandom ρ) (g : ρ) (host : Host)
    (toStdString : QString → Bytes) (text : QString) : Option VaultEntry :=
  if !VaultCreationDialog.validateInput text then none
  else
    let username := PasswordGenerator.generateUsername R g
    match PasswordGenerator.generatePassword R username.2 64 true with
    | .error _ => none
    | .ok password =>
      some {
        id := host.uuid
        label := toStdString text
        username := username.1
        password := password.1
        created_at := host.timestamp
        device_fingerprint := host.device_fingerprint }

/-! ## The buffer object (`SecureMemory::SecureBuffer`) and the memory it owns

`SecureBuffer` above is the byte region a key buffer holds. The definitions here
follow the object itself: its pointer, size and lock flag, and the calls it makes on
the memory. -/

namespace SecureMemory

/-- A call on the memory made by the buffer code. -/
inductive Call where
  /-- `mlock(addr, len)` (`VirtualLock` on Windows) -/
  | mlock (addr len : Nat)
  /-- `std::memset(ptr, 0, len)` -/
  | memset_zero (ptr len : Nat)
  /-- `secure_zero_memory(ptr, len)` -/
  | secure_zero_memory (ptr len : Nat)
  /-- `munlock(addr, len)` (`VirtualUnlock` on Windows) -/
  | munlock (addr len : Nat)
  /-- `std::free(ptr)` -/
  | free (ptr : Nat)
  deriving DecidableEq, Repr

/-- The memory: the contents of the region allocated at an address (none: nothing is
allocated there), the addresses whose region is locked against swapping, and the
calls made so far, oldest first. -/
structure Memory where
  region : Nat → Option Bytes
  locked : Nat → Bool
  log : List Call

/-- The memory with the region at `p` replaced. -/
def Memory.setRegion (m : Memory) (p : Nat) (contents : Option Bytes) : Memory :=
  { m with region := fun q => if q = p then contents else m.region q }

/-- The memory with the lock flag at `p` replaced. -/
def Memory.setLocked (m : Memory) (p : Nat) (flag : Bool) : Memory :=
  { m with locked := fun q => if q = p then flag else m.locked q }

/-- The memory with one more call in the log. -/
def Memory.called (m : Memory) (c : Call) : Memory :=
  { m with log := m.log ++ [c] }

/-- `SecureMemory::lockMemory(addr, len)`; `mlock_ok` tells whether the system accepts
the lock. -/
def Memory.lockMemory (m : Memory) (addr : Option Nat) (len : Nat) (mlock_ok : Bool) :
    Bool × Memory :=
  match addr with
  | none => (false, m)
  | some p =>
    if len = 0 then (false, m)
    else (mlock_ok, ((if mlock_ok then m.setLocked p true else m).called (.mlock p len)))

/-- `SecureMemory::unlockMemory(addr, len)`; `munlock_ok` tells whether the system
releases the lock. -/
def Memory.unlockMemory (m : Memory) (addr : Option Nat) (len : Nat) (munlock_ok : Bool) :
    Bool × Memory :=
  match addr with
  | none => (false, m)
  | some p =>
    if len = 0 then (false, m)
    else (munlock_ok, ((if munlock_ok then m.setLocked p false else m).called (.munlock p len)))

/-- `SecureMemory::secureZero(ptr, len)` on the memory. -/
def Memory.secureZero (m : Memory) (ptr : Option Nat) (len : Nat) : Memory :=
  match ptr with
  | none => m
  | some p =>
    if len = 0 then m
    else (m.setRegion p ((m.region p).map (fun r => secure_zero_memory r len))).called
      (.secure_zero_memory p len)

/-- `std::free(ptr)` for a non-null `ptr`. -/
def Memory.free (m : Memory) (p : Nat) : Memory :=
  (m.setRegion p none).called (.free p)

/-- The data members of `SecureMemory::SecureBuffer`; `data_` is none for `nullptr`. -/
structure SecureBuffer where
  data_ : Option Nat
  size_ : Nat
  locked_ : Bool
  deriving DecidableEq, Repr

/-- The constructor `SecureBuffer(size)`: `malloc` is what `std::malloc(size)` returns
(none for a null pointer, else the address of a fresh region with the contents
`fresh`) and `mlock_ok` whether the system accepts the lock. -/
def SecureBuffer.new (m : Memory) (size : Nat) (malloc : Option Nat) (fresh : Bytes)
    (mlock_ok : Bool) : Except Exn (SecureBuffer × Memory) :=
  if size = 0 then .error .buffer_size_zero
  else
    match malloc with
    | none => .error .bad_alloc
    | some p =>
      let m := m.setRegion p (some fresh)
      let r := m.lockMemory (some p) size mlock_ok
      let m := (r.2.setRegion p (some (List.replicate size 0))).called (.memset_zero p size)
      .ok ({ data_ := some p, size_ := size, locked_ := r.1 }, m)

/-- `SecureBuffer::cleanup()`, which the destructor calls. -/
def SecureBuffer.cleanup (b : SecureBuffer) (m : Memory) (munlock_ok : Bool) :
    SecureBuffer × Memory :=
  match b.data_ with
  | some p =>
    let m := m.secureZero b.data_ b.size_
    let m := if b.locked_ then (m.unlockMemory b.data_ b.size_ munlock_ok).2 else m
    let m := m.free p
    ({ data_ := none, size_ := 0, locked_ := false }, m)
  | none => ({ b with size_ := 0, locked_ := false }, m)

/-- The move constructor `SecureBuffer(SecureBuffer&& other)`: the new object and
`other` afterwards. -/
def SecureBuffer.moveConstruct (other : SecureBuffer) : SecureBuffer × SecureBuffer :=
  ({ data_ := other.data_, size_ := other.size_, locked_ := other.locked_ },
   { data_ := none, size_ := 0, locked_ := false })

/-- The move assignment `operator=(SecureBuffer&& other)`: `this` and `other`
afterwards, and the memory; `same_object` tells whether `this == &other`. -/
def SecureBuffer.moveAssign (this other : SecureBuffer) (same_object : Bool) (m : Memory)
    (munlock_ok : Bool) : SecureBuffer × SecureBuffer × Memory :=
  if !same_object then
    let r := this.cleanup m munlock_ok
    ({ data_ := other.data_, size_ := other.size_, locked_ := other.locked_ },
     { data_ := none, size_ := 0, locked_ := false }, r.2)
  else (this, other, m)

end SecureMemory

/-- A memory in which nothing is allocated or locked and no call was made. -/
def exampleMemory : SecureMemory.Memory where
  region := fun _ => none
  locked := fun _ => false
  log := []

/-- The memory after a 32-byte buffer was constructed at address 4096, locked, and
filled with the byte 48. -/
def exampleKeyMemory : SecureMemory.Memory where
  region := fun q => if q = 4096 then some (List.replicate 32 48) else none
  locked := fun q => decide (q = 4096)
  log := [.mlock 4096 32, .memset_zero 4096 32]

/-! ## Vault statistics -/

/-- `operator<` on `std::string`: the lexicographic order of the bytes, a proper prefix
coming first. -/
def string_lt : Bytes → Bytes → Bool
  | [], [] => false
  | [], _ :: _ => true
  | _ :: _, [] => false
  | a :: as, b :: bs =>
    if a < b then true
    else if b < a then false
    else string_lt as bs

/-- `std::min_element(first, last, comp)`: the element the returned iterator points
to, none when the range is empty. The loop keeps the first smallest element. -/
def min_element {α : Type} (comp : α → α → Bool) : List α → Option α
  | [] => none
  | first :: rest =>
    some (rest.foldl (fun smallest x => if comp x smallest then x else smallest) first)

/-- `std::max_element(first, last, comp)`: the element the returned iterator points
to, none when the range is empty. The loop keeps the first largest element. -/
def max_element {α : Type} (comp : α → α → Bool) : List α → Option α
  | [] => none
  | first :: rest =>
    some (rest.foldl (fun largest x => if comp largest x then x else largest) first)

/-- `struct SecureVault::VaultStats`. -/
structure VaultStats where
  entryCount : Nat
  createdAt : Bytes
  lastModified : Bytes
  deviceFingerprint : Bytes
  deriving DecidableEq, Repr

/-- `SecureVault::getStats()`. The iterators are dereferenced only for a non-empty
record set, where they point to an element. -/
def SecureVault.getStats {ρ : Type} (v : SecureVault ρ) (host : Host) : VaultStats :=
  let stats : VaultStats := {
    entryCount := v.entries_.length
    createdAt := []
    lastModified := []
    deviceFingerprint := host.device_fingerprint }
  if !v.entries_.isEmpty then
    let earliest := min_element (fun a b => string_lt a.created_at b.created_at) v.entries_
    let stats := { stats with createdAt := (earliest.map (fun (e : VaultEntry) => e.created_at)).getD [] }
    let latest := max_element (fun a b => string_lt a.created_at b.created_at) v.entries_
    { stats with lastModified := (latest.map (fun (e : VaultEntry) => e.created_at)).getD [] }
  else stats

/-! ## Sequences of entry operations -/

/-- A call of one of the two operations that change the record set, with the
surroundings and the file system it runs on. -/
inductive EntryOp where
  | saveEntry (host : Host) (fs : FileSystem) (entry : VaultEntry)
  | deleteEntry (host : Host) (fs : FileSystem) (entryId : Bytes)

/-- The vault after a sequence of `saveEntry` and `deleteEntry` calls, whatever each
call returns. -/
def SecureVault.applyEntryOps {ρ : Type} (pf : Platform) :
    List EntryOp → SecureVault ρ → SecureVault ρ
  | [], v => v
  | .saveEntry host fs entry :: rest, v =>
    SecureVault.applyEntryOps pf rest (v.saveEntry pf host fs entry).2.1
  | .deleteEntry host fs entryId :: rest, v =>
    SecureVault.applyEntryOps pf rest (v.deleteEntry pf host fs entryId).2.1

/-! ## A platform whose text conversion replaces invalid bytes -/

/-- A stand-in for `QString::fromUtf8(s).toUtf8()`: the bytes 0xC0, 0xC1 and 0xF5 to
0xFF, which occur in no UTF-8 text, are replaced by the encoding EF BF BD of U+FFFD,
as Qt does; every other byte is kept. -/
def exampleUtf8 : Bytes → Bytes
  | [] => []
  | b :: rest =>
    if b = 192 ∨ b = 193 ∨ 245 ≤ b then 239 :: 191 :: 189 :: exampleUtf8 rest
    else b :: exampleUtf8 rest

/-- The example platform with that text conversion. -/
def exampleUtf8Platform : Platform where
  have_crypto_libs := true
  argon2id_hash_raw := examplePlatform.argon2id_hash_raw
  sha256 := examplePlatform.sha256
  utf8 := exampleUtf8
  argon2_length := examplePlatform.argon2_length
  argon2_bytes := examplePlatform.argon2_bytes
  sha256_length := examplePlatform.sha256_length
  sha256_bytes := examplePlatform.sha256_bytes
  utf8_ascii := by
    intro s h
    induction s with
    | nil => rfl
    | cons b rest ih =>
      have hb : b < 128 := h b (List.mem_cons_self _ _)
      have hne : ¬ (b = 192 ∨ b = 193 ∨ 245 ≤ b) := by omega
      rw [exampleUtf8, if_neg hne, ih (fun c hc => h c (List.mem_cons_of_mem _ hc))]

/-- On that platform: the vault and the file system after `createVault("correct-horse",
"/tmp/v.store")`, `createEntry` with the one-byte label 0xFF and `saveEntry` of the
entry it returns. -/
def exampleUtf8Saved : Bool × SecureVault Nat × FileSystem :=
  SecureVault.saveEntry
    ((exampleVault.createVault exampleUtf8Platform exampleHost exampleFileSystem
      (lit "correct-horse") (lit "/tmp/v.store")).2.1.createEntry exampleRandom exampleHost
        [255]).2
    exampleUtf8Platform exampleHost
    (exampleVault.createVault exampleUtf8Platform exampleHost exampleFileSystem
      (lit "correct-horse") (lit "/tmp/v.store")).2.2
    { exampleEntry with label := [255] }

/-! # Theorems -/

/-! ## Bytes and the XOR loop -/

theorem xor_byte (d k : Nat) (hd : d < 256) : ((d ^^^ k) % 256 ^^^ k) % 256 = d := by
  have h8 : (256 : Nat) = 2 ^ 8 := by norm_num
  rw [h8] at hd ⊢
  apply Nat.eq_of_testBit_eq
  intro i
  simp only [Nat.testBit_mod_two_pow, Nat.testBit_xor]
  by_cases hi : i < 8
  · simp [hi]
  · have : d.testBit i = false :=
      Nat.testBit_lt_two_pow (lt_of_lt_of_le hd (Nat.pow_le_pow_right (by norm_num) (by omega)))
    simp [hi, this]

theorem xorLoop_involutive (key : SecureBuffer) (data : Bytes) (h : IsBytes data) (i : Nat) :
    CryptoManager.xorLoop key i (CryptoManager.xorLoop key i data) = data := by
  induction data generalizing i with
  | nil => rfl
  | cons d rest ih =>
    have hd : d < 256 := h d (List.mem_cons_self _ _)
    have hrest : IsBytes rest := fun b hb => h b (List.mem_cons_of_mem _ hb)
    simp only [CryptoManager.xorLoop]
    rw [xor_byte d _ hd, ih hrest]

theorem xorLoop_length (key : SecureBuffer) (data : Bytes) (i : Nat) :
    (CryptoManager.xorLoop key i data).length = data.length := by
  induction data generalizing i with
  | nil => rfl
  | cons d rest ih => simp [CryptoManager.xorLoop, ih]

theorem xorLoop_isBytes (key : SecureBuffer) (data : Bytes) (i : Nat) :
    IsBytes (CryptoManager.xorLoop key i data) := by
  induction data generalizing i with
  | nil => intro b hb; cases hb
  | cons d rest ih =>
    intro b hb
    simp only [CryptoManager.xorLoop, List.mem_cons] at hb
    rcases hb with rfl | hb
    · exact Nat.mod_lt _ (by norm_num)
    · exact ih _ b hb

/-! ## C1 to C3: encrypt and decrypt -/

/-- C1: with the codec initialized, for every plaintext byte string `T` and every key
buffer `K` of non-zero size, `encrypt(T, K)` returns a ciphertext `C` and
`decrypt(C, K)` returns exactly `T`. -/
theorem decrypt_encrypt_roundtrip (cm : CryptoManager) (hinit : cm.initialized = true)
    (T : Bytes) (hT : IsBytes T) (K : SecureBuffer) (_hK : K.size ≠ 0) :
    ∃ C, cm.encrypt T K = .ok C ∧ cm.decrypt C K = .ok T := by
  refine ⟨CryptoManager.xorLoop K 0 T, ?_, ?_⟩
  · simp [CryptoManager.encrypt, hinit]
  · simp [CryptoManager.decrypt, hinit, xorLoop_involutive K T hT 0]

/-- C1 at the plaintext "Hi" under a 32-byte key. -/
theorem decrypt_encrypt_roundtrip_witness :
    ∃ C, CryptoManager.encrypt ⟨true⟩ [72, 105] ⟨List.range 32⟩ = .ok C ∧
      CryptoManager.decrypt ⟨true⟩ C ⟨List.range 32⟩ = .ok [72, 105] :=
  decrypt_encrypt_roundtrip ⟨true⟩ rfl [72, 105] (by decide) ⟨List.range 32⟩ (by decide)

/-- C2 (the code at the failing input): the plaintext "A" under the 32-byte key
0, 1, ..., 31 encrypts to the one byte 65; with its lowest bit flipped the
ciphertext is 64, and `decrypt` returns the plaintext "@" instead of failing. -/
theorem decrypt_returns_plaintext_for_flipped_bit :
    CryptoManager.encrypt ⟨true⟩ [65] ⟨List.range 32⟩ = .ok [65] ∧
    (65 ^^^ 1 = 64) ∧
    CryptoManager.decrypt ⟨true⟩ [64] ⟨List.range 32⟩ = .ok [64] := by
  decide

/-- C3 (the code at the failing input): the plaintext "A" encrypted under the key of
32 zero bytes and decrypted under the key of 32 one bytes gives the string "@";
`decrypt` does not fail. -/
theorem decrypt_returns_plaintext_for_wrong_key :
    (⟨List.replicate 32 0⟩ : SecureBuffer) ≠ ⟨List.replicate 32 1⟩ ∧
    CryptoManager.encrypt ⟨true⟩ [65] ⟨List.replicate 32 0⟩ = .ok [65] ∧
    CryptoManager.decrypt ⟨true⟩ [65] ⟨List.replicate 32 1⟩ = .ok [64] := by
  decide

/-! ## C4: the verification hash and the key -/

theorem memcpy_full (dst src : Bytes) (h : src.length = dst.length) :
    memcpy dst src dst.length = src := by
  unfold memcpy
  rw [← h, List.take_length, List.drop_of_length_le (by omega), List.append_nil]

theorem sha256Rounds_length (pf : Platform) (n : Nat) (data : Bytes) :
    (CryptoManager.sha256Rounds pf (n + 1) data).length = 32 :=
  pf.sha256_length _

/-- What `deriveKey` returns for a salt that is not empty. -/
theorem deriveKey_of_salt (cm : CryptoManager) (hinit : cm.initialized = true) (pf : Platform)
    (rd : RandomDevice) (P S : Bytes) (hS : S ≠ []) :
    cm.deriveKey pf rd P S =
      if pf.have_crypto_libs then
        match pf.argon2id_hash_raw 3 65536 4 P (CryptoManager.fromBase64 S) 32 with
        | .ok out => .ok (⟨out⟩, S)
        | .error code => .error (.key_derivation_failed code)
      else .ok (⟨CryptoManager.sha256Rounds pf 10000
        (pf.utf8 P ++ pf.utf8 (CryptoManager.fromBase64 S))⟩, S) := by
  have hne : S.isEmpty = false := by cases S <;> simp_all
  have hlen := sha256Rounds_length pf 9999 (pf.utf8 P ++ pf.utf8 (CryptoManager.fromBase64 S))
  unfold CryptoManager.deriveKey
  simp only [hinit, hne, Bool.not_true, Bool.false_eq_true, if_false]
  simp only [SecureMemory.createBuffer, SecureBuffer.size, List.length_replicate]
  cases hc : pf.have_crypto_libs
  · simp only [bind, Except.bind, pure, Except.pure, if_false, Bool.false_eq_true]
    simp only [Nat.reduceEqDiff, if_false, List.length_replicate, hlen, min_self]
    have := memcpy_full (List.replicate 32 0) _ (by simpa using hlen)
    simp only [List.length_replicate] at this
    rw [this]
  · simp only [bind, Except.bind, pure, Except.pure, if_true]
    simp only [Nat.reduceEqDiff, if_false, List.length_replicate]
    cases ha : pf.argon2id_hash_raw 3 65536 4 P (CryptoManager.fromBase64 S) 32 with
    | error code => rfl
    | ok out =>
      have hlen := pf.argon2_length _ _ _ _ _ _ _ ha
      have := memcpy_full (List.replicate 32 0) out (by simpa using hlen)
      simp only [List.length_replicate] at this
      simp only [this]

/-- What `hashMasterPassword` returns. -/
theorem hashMasterPassword_eq (cm : CryptoManager) (pf : Platform) (P S : Bytes) :
    cm.hashMasterPassword pf P S =
      if pf.have_crypto_libs then
        match pf.argon2id_hash_raw 3 65536 4 P (CryptoManager.fromBase64 S) 32 with
        | .ok out => .ok (CryptoManager.toBase64 out)
        | .error code => .error (.password_hashing_failed code)
      else .ok (CryptoManager.toBase64
        (CryptoManager.sha256Rounds pf 10000 (pf.utf8 P ++ pf.utf8 (CryptoManager.fromBase64 S)))) := by
  unfold CryptoManager.hashMasterPassword
  cases hc : pf.have_crypto_libs
  · simp
  · simp only [if_true, List.length_replicate]
    cases ha : pf.argon2id_hash_raw 3 65536 4 P (CryptoManager.fromBase64 S) 32 with
    | error code => rfl
    | ok out =>
      have hlen := pf.argon2_length _ _ _ _ _ _ _ ha
      have := memcpy_full (List.replicate 32 0) out (by simpa using hlen)
      simp only [List.length_replicate] at this
      simp only [this]

/-- When `deriveKey` succeeds on a non-empty salt, `hashMasterPassword` returns the
Base64 text of the key bytes. -/
theorem hashMasterPassword_of_deriveKey (cm : CryptoManager) (hinit : cm.initialized = true)
    (pf : Platform) (rd : RandomDevice) (P S : Bytes) (hS : S ≠ [])
    (key : SecureBuffer) (salt : Bytes) (hkey : cm.deriveKey pf rd P S = .ok (key, salt)) :
    cm.hashMasterPassword pf P S = .ok (CryptoManager.toBase64 key.bytes) := by
  rw [deriveKey_of_salt cm hinit pf rd P S hS] at hkey
  rw [hashMasterPassword_eq]
  cases hc : pf.have_crypto_libs
  · simp only [hc, if_false, Bool.false_eq_true, Except.ok.injEq, Prod.mk.injEq] at hkey ⊢
    rw [← hkey.1]
  · simp only [hc, if_true] at hkey ⊢
    cases ha : pf.argon2id_hash_raw 3 65536 4 P (CryptoManager.fromBase64 S) 32 with
    | error code => rw [ha] at hkey; cases hkey
    | ok out =>
      rw [ha] at hkey
      cases hkey
      rfl

/-- C4 (what the code does): for every passphrase `P` and non-empty salt `S`, when
`deriveKey(P, S)` returns the key buffer `key`, `hashMasterPassword(P, S)` returns
`toBase64` of the very bytes of `key`. -/
theorem master_hash_is_text_of_key (cm : CryptoManager) (hinit : cm.initialized = true)
    (pf : Platform) (rd : RandomDevice) (P S : Bytes) (hS : S ≠ [])
    (key : SecureBuffer) (salt : Bytes) (hkey : cm.deriveKey pf rd P S = .ok (key, salt)) :
    cm.hashMasterPassword pf P S = .ok (CryptoManager.toBase64 key.bytes) :=
  hashMasterPassword_of_deriveKey cm hinit pf rd P S hS key salt hkey

/-- C4 at the passphrase "pw" and the salt "c2FsdA==" on the example platform. -/
theorem master_hash_is_text_of_key_witness :
    CryptoManager.hashMasterPassword ⟨true⟩ examplePlatform [112, 119]
        [99, 50, 70, 115, 100, 65, 61, 61] =
      .ok (CryptoManager.toBase64 (List.replicate 32 3)) :=
  master_hash_is_text_of_key ⟨true⟩ rfl examplePlatform ⟨true, fun _ => 0⟩ [112, 119]
    [99, 50, 70, 115, 100, 65, 61, 61] (by decide) ⟨List.replicate 32 3⟩
    [99, 50, 70, 115, 100, 65, 61, 61] (by rfl)

/-! ## C5 and C6: the password generator -/

theorem set_set_perm_of_get {α : Type} [DecidableEq α] (a : List α) (i j : Nat) (x y : α)
    (hx : a[i]? = some x) (hy : a[j]? = some y) : ((a.set i y).set j x).Perm a := by
  obtain ⟨hi, hxi⟩ := List.getElem?_eq_some_iff.mp hx
  obtain ⟨hj, hyj⟩ := List.getElem?_eq_some_iff.mp hy
  rw [List.perm_iff_count]
  intro c
  have hj' : j < (a.set i y).length := by simpa using hj
  rw [List.count_set _ _ _ _ hj', List.count_set _ _ _ _ hi, List.getElem_set]
  have hxm : x ∈ a := hxi ▸ List.getElem_mem hi
  have hym : y ∈ a := hyj ▸ List.getElem_mem hj
  have hxc := List.count_pos_iff.mpr hxm
  have hyc := List.count_pos_iff.mpr hym
  rw [hxi, hyj]
  simp only [beq_iff_eq]
  by_cases hij : i = j
  · subst hij
    have hxy : x = y := by rw [← hxi, ← hyj]
    subst hxy
    simp only [if_true]
    by_cases h1 : x = c
    · subst h1
      simp only [if_true]
      omega
    · simp only [h1, if_false]
      omega
  · simp only [hij, if_false]
    by_cases h1 : x = c <;> by_cases h2 : y = c
    · subst h1; subst h2
      simp only [if_true]
      omega
    · subst h1
      simp only [if_true, h2, if_false]
      omega
    · subst h2
      simp only [if_true, h1, if_false]
      omega
    · simp only [h1, h2, if_false]
      omega

theorem iter_swap_perm {α : Type} [DecidableEq α] (a : List α) (i j : Nat) :
    (iter_swap a i j).Perm a := by
  unfold iter_swap
  cases hx : a[i]? with
  | none => exact List.Perm.refl _
  | some x =>
    cases hy : a[j]? with
    | none => exact List.Perm.refl _
    | some y => exact set_set_perm_of_get a i j x y hx hy

theorem shuffleLoop_perm {α ρ : Type} [DecidableEq α] (R : StdRandom ρ) (k i : Nat)
    (a : List α) (g : ρ) : (shuffleLoop R k i a g).1.Perm a := by
  induction k generalizing i a g with
  | zero => exact List.Perm.refl _
  | succ k ih =>
    simp only [shuffleLoop]
    exact (ih _ _ _).trans (iter_swap_perm a i _)

/-- `std::shuffle` returns a permutation of its input. -/
theorem shuffle_perm {α ρ : Type} [DecidableEq α] (R : StdRandom ρ) (a : List α) (g : ρ) :
    (shuffle R a g).1.Perm a :=
  shuffleLoop_perm R _ _ a g

theorem generateFromCharsetLoop_length {ρ : Type} (R : StdRandom ρ) (charset : Bytes)
    (n : Nat) (g : ρ) : (PasswordGenerator.generateFromCharsetLoop R charset n g).1.length = n := by
  induction n generalizing g with
  | zero => rfl
  | succ n ih => simp [PasswordGenerator.generateFromCharsetLoop, ih]

theorem generateFromCharsetLoop_mem {ρ : Type} (R : StdRandom ρ) (charset : Bytes)
    (hne : charset ≠ []) (n : Nat) (g : ρ) :
    ∀ c ∈ (PasswordGenerator.generateFromCharsetLoop R charset n g).1, c ∈ charset := by
  induction n generalizing g with
  | zero => intro c hc; cases hc
  | succ n ih =>
    intro c hc
    simp only [PasswordGenerator.generateFromCharsetLoop, List.mem_cons] at hc
    rcases hc with rfl | hc
    · have hpos : 0 < charset.length := List.length_pos.mpr hne
      have hr := (R.uniform_range 0 (charset.length - 1) g (Nat.zero_le _)).2
      have hlt : (R.uniform 0 (charset.length - 1) g).1 < charset.length := by omega
      rw [List.getD_eq_getElem _ _ hlt]
      exact List.getElem_mem hlt
    · exact ih _ c hc

theorem generateFromCharset_length {ρ : Type} (R : StdRandom ρ) (charset : Bytes)
    (hne : charset ≠ []) (n : Nat) (g : ρ) :
    (PasswordGenerator.generateFromCharset R charset n g).1.length = n := by
  unfold PasswordGenerator.generateFromCharset
  have h : charset.isEmpty = false := by cases charset <;> simp_all
  cases n with
  | zero => simp
  | succ n => simp [h, generateFromCharsetLoop_length]

theorem generateFromCharset_mem {ρ : Type} (R : StdRandom ρ) (charset : Bytes)
    (n : Nat) (g : ρ) :
    ∀ c ∈ (PasswordGenerator.generateFromCharset R charset n g).1, c ∈ charset := by
  unfold PasswordGenerator.generateFromCharset
  intro c hc
  by_cases h : (charset.isEmpty || n == 0) = true
  · rw [if_pos h] at hc; cases hc
  · rw [if_neg h] at hc
    have hne : charset ≠ [] := by
      intro h0; subst h0; simp at h
    exact generateFromCharsetLoop_mem R charset hne n g c hc

/-- The one character that `generateFromCharset(charset, 1)` returns lies in `charset`. -/
theorem generateFromCharset_one {ρ : Type} (R : StdRandom ρ) (charset : Bytes)
    (hne : charset ≠ []) (g : ρ) :
    ∃ c, (PasswordGenerator.generateFromCharset R charset 1 g).1 = [c] ∧ c ∈ charset := by
  have hl := generateFromCharset_length R charset hne 1 g
  have hm := generateFromCharset_mem R charset 1 g
  match h : (PasswordGenerator.generateFromCharset R charset 1 g).1, hl, hm with
  | [c], _, hm => exact ⟨c, rfl, hm c (List.mem_singleton_self c)⟩

theorem LOWERCASE_CHARS_ne : PasswordGenerator.LOWERCASE_CHARS ≠ [] := by decide
theorem UPPERCASE_CHARS_ne : PasswordGenerator.UPPERCASE_CHARS ≠ [] := by decide
theorem DIGIT_CHARS_ne : PasswordGenerator.DIGIT_CHARS ≠ [] := by decide
theorem SYMBOL_CHARS_ne : PasswordGenerator.SYMBOL_CHARS ≠ [] := by decide

/-- The string before the shuffle: its length and the characters it is sure to hold. -/
theorem generatePasswordUnshuffled_spec {ρ : Type} (R : StdRandom ρ) (L : Nat)
    (includeSymbols : Bool) (g : ρ) (h8 : 8 ≤ L) :
    let pw := (PasswordGenerator.generatePasswordUnshuffled R L includeSymbols g).1
    pw.length = L ∧
    (∃ c ∈ pw, c ∈ PasswordGenerator.LOWERCASE_CHARS) ∧
    (∃ c ∈ pw, c ∈ PasswordGenerator.UPPERCASE_CHARS) ∧
    (∃ c ∈ pw, c ∈ PasswordGenerator.DIGIT_CHARS) ∧
    (includeSymbols = true → ∃ c ∈ pw, c ∈ PasswordGenerator.SYMBOL_CHARS) := by
  intro pw
  obtain ⟨c1, e1, m1⟩ := generateFromCharset_one R _ LOWERCASE_CHARS_ne g
  obtain ⟨c2, e2, m2⟩ := generateFromCharset_one R _ UPPERCASE_CHARS_ne
    (PasswordGenerator.generateFromCharset R PasswordGenerator.LOWERCASE_CHARS 1 g).2
  obtain ⟨c3, e3, m3⟩ := generateFromCharset_one R _ DIGIT_CHARS_ne
    (PasswordGenerator.generateFromCharset R PasswordGenerator.UPPERCASE_CHARS 1
      (PasswordGenerator.generateFromCharset R PasswordGenerator.LOWERCASE_CHARS 1 g).2).2
  cases includeSymbols with
  | false =>
    obtain ⟨g5, hpw⟩ : ∃ g5, pw = [c1, c2, c3] ++ (PasswordGenerator.generateFromCharset R
        (PasswordGenerator.LOWERCASE_CHARS ++ PasswordGenerator.UPPERCASE_CHARS ++
          PasswordGenerator.DIGIT_CHARS) (L - 3) g5).1 := by
      refine ⟨(PasswordGenerator.generateFromCharset R PasswordGenerator.DIGIT_CHARS 1
        (PasswordGenerator.generateFromCharset R PasswordGenerator.UPPERCASE_CHARS 1
          (PasswordGenerator.generateFromCharset R PasswordGenerator.LOWERCASE_CHARS 1 g).2).2).2, ?_⟩
      simp only [pw, PasswordGenerator.generatePasswordUnshuffled, Bool.false_eq_true, if_false, e1, e2, e3]
      simp
    have hcs : PasswordGenerator.LOWERCASE_CHARS ++ PasswordGenerator.UPPERCASE_CHARS ++
        PasswordGenerator.DIGIT_CHARS ≠ [] := by decide
    refine ⟨?_, ⟨c1, ?_, m1⟩, ⟨c2, ?_, m2⟩, ⟨c3, ?_, m3⟩, ?_⟩
    · rw [hpw, List.length_append, generateFromCharset_length R _ hcs]
      simp; omega
    · rw [hpw]; simp
    · rw [hpw]; simp
    · rw [hpw]; simp
    · intro h; cases h
  | true =>
    obtain ⟨c4, e4, m4⟩ := generateFromCharset_one R _ SYMBOL_CHARS_ne
      (PasswordGenerator.generateFromCharset R PasswordGenerator.DIGIT_CHARS 1
        (PasswordGenerator.generateFromCharset R PasswordGenerator.UPPERCASE_CHARS 1
          (PasswordGenerator.generateFromCharset R PasswordGenerator.LOWERCASE_CHARS 1 g).2).2).2
    obtain ⟨g5, hpw⟩ : ∃ g5, pw = [c1, c2, c3, c4] ++ (PasswordGenerator.generateFromCharset R
        (PasswordGenerator.LOWERCASE_CHARS ++ PasswordGenerator.UPPERCASE_CHARS ++
          PasswordGenerator.DIGIT_CHARS ++ PasswordGenerator.SYMBOL_CHARS) (L - 4) g5).1 := by
      refine ⟨(PasswordGenerator.generateFromCharset R PasswordGenerator.SYMBOL_CHARS 1
        (PasswordGenerator.generateFromCharset R PasswordGenerator.DIGIT_CHARS 1
          (PasswordGenerator.generateFromCharset R PasswordGenerator.UPPERCASE_CHARS 1
            (PasswordGenerator.generateFromCharset R PasswordGenerator.LOWERCASE_CHARS 1
              g).2).2).2).2, ?_⟩
      simp only [pw, PasswordGenerator.generatePasswordUnshuffled, if_true, e1, e2, e3, e4]
      simp
    have hcs : PasswordGenerator.LOWERCASE_CHARS ++ PasswordGenerator.UPPERCASE_CHARS ++
        PasswordGenerator.DIGIT_CHARS ++ PasswordGenerator.SYMBOL_CHARS ≠ [] := by decide
    refine ⟨?_, ⟨c1, ?_, m1⟩, ⟨c2, ?_, m2⟩, ⟨c3, ?_, m3⟩, fun _ => ⟨c4, ?_, m4⟩⟩
    · rw [hpw, List.length_append, generateFromCharset_length R _ hcs]
      simp; omega
    · rw [hpw]; simp
    · rw [hpw]; simp
    · rw [hpw]; simp
    · rw [hpw]; simp

/-- C5: for every length `L` with `8 ≤ L ≤ 512`, every `includeSymbols` and every state
`g` of the random generator, `generatePassword(L, includeSymbols)` returns a string
of exactly `L` characters holding at least one lowercase letter, one uppercase
letter and one digit, and one symbol when `includeSymbols` is true; the string is
the shuffle of the string built before it, and the shuffle keeps the length and
the multiset of characters of every string. -/
theorem generatePassword_composition {ρ : Type} (R : StdRandom ρ) (g : ρ) (L : Nat)
    (includeSymbols : Bool) (h8 : 8 ≤ L) (h512 : L ≤ 512) :
    ∃ pw g',
      PasswordGenerator.generatePassword R g L includeSymbols = .ok (pw, g') ∧
      pw.length = L ∧
      (∃ c ∈ pw, c ∈ PasswordGenerator.LOWERCASE_CHARS) ∧
      (∃ c ∈ pw, c ∈ PasswordGenerator.UPPERCASE_CHARS) ∧
      (∃ c ∈ pw, c ∈ PasswordGenerator.DIGIT_CHARS) ∧
      (includeSymbols = true → ∃ c ∈ pw, c ∈ PasswordGenerator.SYMBOL_CHARS) ∧
      pw.Perm (PasswordGenerator.generatePasswordUnshuffled R L includeSymbols g).1 ∧
      (∀ (s : Bytes) (g0 : ρ),
        (shuffle R s g0).1.length = s.length ∧ (shuffle R s g0).1.Perm s) := by
  obtain ⟨hlen, hlow, hup, hdig, hsym⟩ := generatePasswordUnshuffled_spec R L includeSymbols g h8
  have hperm := shuffle_perm R (PasswordGenerator.generatePasswordUnshuffled R L includeSymbols g).1
    (PasswordGenerator.generatePasswordUnshuffled R L includeSymbols g).2
  refine ⟨(shuffle R (PasswordGenerator.generatePasswordUnshuffled R L includeSymbols g).1
      (PasswordGenerator.generatePasswordUnshuffled R L includeSymbols g).2).1,
    (shuffle R (PasswordGenerator.generatePasswordUnshuffled R L includeSymbols g).1
      (PasswordGenerator.generatePasswordUnshuffled R L includeSymbols g).2).2,
    ?_, ?_, ?_, ?_, ?_, ?_, hperm, ?_⟩
  · unfold PasswordGenerator.generatePassword
    rw [if_neg (by omega), if_neg (by omega)]
  · rw [hperm.length_eq]; exact hlen
  · obtain ⟨c, hc, hm⟩ := hlow; exact ⟨c, hperm.symm.subset hc, hm⟩
  · obtain ⟨c, hc, hm⟩ := hup; exact ⟨c, hperm.symm.subset hc, hm⟩
  · obtain ⟨c, hc, hm⟩ := hdig; exact ⟨c, hperm.symm.subset hc, hm⟩
  · intro h
    obtain ⟨c, hc, hm⟩ := hsym h
    exact ⟨c, hperm.symm.subset hc, hm⟩
  · intro s g0
    exact ⟨(shuffle_perm R s g0).length_eq, shuffle_perm R s g0⟩

/-- C5 at length 8 with symbols, on the example generator started in state 5. -/
theorem generatePassword_composition_witness :
    ∃ pw g',
      PasswordGenerator.generatePassword exampleRandom 5 8 true = .ok (pw, g') ∧
      pw.length = 8 ∧
      (∃ c ∈ pw, c ∈ PasswordGenerator.LOWERCASE_CHARS) ∧
      (∃ c ∈ pw, c ∈ PasswordGenerator.UPPERCASE_CHARS) ∧
      (∃ c ∈ pw, c ∈ PasswordGenerator.DIGIT_CHARS) ∧
      (true = true → ∃ c ∈ pw, c ∈ PasswordGenerator.SYMBOL_CHARS) ∧
      pw.Perm (PasswordGenerator.generatePasswordUnshuffled exampleRandom 8 true 5).1 ∧
      (∀ (s : Bytes) (g0 : Nat),
        (shuffle exampleRandom s g0).1.length = s.length ∧ (shuffle exampleRandom s g0).1.Perm s) :=
  generatePassword_composition exampleRandom 5 8 true (by decide) (by decide)

/-- C6: `generatePassword(L, includeSymbols)` throws, and then an
`std::invalid_argument`, if and only if `L < 8` or `L > 512`; it returns a string if
and only if `8 ≤ L ≤ 512`. -/
theorem generatePassword_fails_iff {ρ : Type} (R : StdRandom ρ) (g : ρ) (L : Nat)
    (includeSymbols : Bool) :
    ((∃ x, PasswordGenerator.generatePassword R g L includeSymbols = .error x) ↔
        (L < 8 ∨ L > 512)) ∧
    (∀ x, PasswordGenerator.generatePassword R g L includeSymbols = .error x →
        x.isInvalidArgument = true) ∧
    ((∃ r, PasswordGenerator.generatePassword R g L includeSymbols = .ok r) ↔
        (8 ≤ L ∧ L ≤ 512)) := by
  unfold PasswordGenerator.generatePassword
  by_cases h1 : L < 8
  · simp [h1, Exn.isInvalidArgument]
  · by_cases h2 : L > 512
    · simp [h1, h2, Exn.isInvalidArgument]
    · simp only [h1, h2, if_false]
      refine ⟨?_, ?_, ?_⟩
      · simp
      · intro x hx; cases hx
      · constructor
        · intro _; omega
        · intro _; exact ⟨_, rfl⟩

/-! ## Base64: decoding what was encoded -/

theorem sextet_alphabetAt (n : Nat) : Qt.sextet (Qt.alphabetAt (n % 64)) = some (n % 64) := by
  have h : ∀ j < 64, Qt.sextet (Qt.alphabetAt j) = some j := by decide
  exact h _ (Nat.mod_lt _ (by norm_num))

theorem sextet_padchar : Qt.sextet Qt.padchar = none := by decide

theorem alphabetAt_ascii (n : Nat) : 0 < Qt.alphabetAt (n % 64) ∧ Qt.alphabetAt (n % 64) < 128 := by
  have h : ∀ j < 64, 0 < Qt.alphabetAt j ∧ Qt.alphabetAt j < 128 := by decide
  exact h _ (Nat.mod_lt _ (by norm_num))

/-- One full group: four characters give back the three bytes and leave the
registers empty. -/
theorem decoder_group (a b c : Nat) (ha : a < 256) (hb : b < 256) (hc : c < 256) (out : Bytes) :
    [Qt.alphabetAt ((a % 256 * 65536 + b % 256 * 256 + c % 256) / 262144 % 64),
      Qt.alphabetAt ((a % 256 * 65536 + b % 256 * 256 + c % 256) / 4096 % 64),
      Qt.alphabetAt ((a % 256 * 65536 + b % 256 * 256 + c % 256) / 64 % 64),
      Qt.alphabetAt ((a % 256 * 65536 + b % 256 * 256 + c % 256) % 64)].foldl
        Qt.Decoder.step ⟨0, 0, out⟩ = ⟨0, 0, out ++ [a, b, c]⟩ := by
  simp only [List.foldl, Qt.Decoder.step, sextet_alphabetAt]
  simp only [Nat.reduceAdd, Nat.reduceLeDiff, Nat.reduceSub, Nat.reducePow, if_true, if_false,
    Nat.zero_mul, Nat.zero_add, Nat.not_succ_le_zero, List.append_assoc, List.singleton_append,
    Nat.mod_one]
  simp only [Qt.Decoder.mk.injEq, List.append_cancel_left_eq, List.cons.injEq, true_and, and_true]
  simp only [List.cons_append, List.nil_append, List.cons.injEq, and_true]
  repeat' apply And.intro
  all_goals omega

/-- The decoder, started with empty registers on the encoding of `data`, writes
`data`. -/
theorem decoder_toBase64 (data : Bytes) (h : IsBytes data) (out : Bytes) :
    ((Qt.toBase64 data).foldl Qt.Decoder.step ⟨0, 0, out⟩).out = out ++ data := by
  induction data using Qt.toBase64.induct generalizing out with
  | case1 => simp [Qt.toBase64]
  | case2 a =>
    have ha : a < 256 := h a (by simp)
    simp only [Qt.toBase64, List.foldl, Qt.Decoder.step, sextet_alphabetAt, sextet_padchar]
    simp only [Nat.reduceAdd, Nat.reduceLeDiff, Nat.reduceSub, Nat.reducePow, if_true, if_false,
      Nat.zero_mul, Nat.zero_add, Nat.not_succ_le_zero]
    congr 2
    omega
  | case3 a b =>
    have ha : a < 256 := h a (by simp)
    have hb : b < 256 := h b (by simp)
    simp only [Qt.toBase64, List.foldl, Qt.Decoder.step, sextet_alphabetAt, sextet_padchar]
    simp only [Nat.reduceAdd, Nat.reduceLeDiff, Nat.reduceSub, Nat.reducePow, if_true, if_false,
      Nat.zero_mul, Nat.zero_add, Nat.not_succ_le_zero, List.append_assoc, List.singleton_append]
    congr 2
    · omega
    · congr 1
      omega
  | case4 a b c rest ih =>
    have ha : a < 256 := h a (by simp)
    have hb : b < 256 := h b (by simp)
    have hc : c < 256 := h c (by simp)
    have hrest : IsBytes rest := fun x hx => h x (by simp [hx])
    have hsplit : Qt.toBase64 (a :: b :: c :: rest) =
        [Qt.alphabetAt ((a % 256 * 65536 + b % 256 * 256 + c % 256) / 262144 % 64),
          Qt.alphabetAt ((a % 256 * 65536 + b % 256 * 256 + c % 256) / 4096 % 64),
          Qt.alphabetAt ((a % 256 * 65536 + b % 256 * 256 + c % 256) / 64 % 64),
          Qt.alphabetAt ((a % 256 * 65536 + b % 256 * 256 + c % 256) % 64)] ++
        Qt.toBase64 rest := by
      simp [Qt.toBase64]
    rw [hsplit, List.foldl_append, decoder_group a b c ha hb hc out, ih hrest]
    simp

/-- Every character of an encoding is an ASCII character other than NUL. -/
theorem toBase64_ascii (data : Bytes) : ∀ ch ∈ Qt.toBase64 data, 0 < ch ∧ ch < 128 := by
  induction data using Qt.toBase64.induct with
  | case1 => intro ch hch; simp [Qt.toBase64] at hch
  | case2 a =>
    intro ch hch
    simp only [Qt.toBase64, List.mem_cons, List.mem_singleton, List.not_mem_nil, or_false] at hch
    rcases hch with rfl | rfl | rfl | rfl
    · exact alphabetAt_ascii _
    · exact alphabetAt_ascii _
    · decide
    · decide
  | case3 a b =>
    intro ch hch
    simp only [Qt.toBase64, List.mem_cons, List.mem_singleton, List.not_mem_nil, or_false] at hch
    rcases hch with rfl | rfl | rfl | rfl
    · exact alphabetAt_ascii _
    · exact alphabetAt_ascii _
    · exact alphabetAt_ascii _
    · decide
  | case4 a b c rest ih =>
    intro ch hch
    simp only [Qt.toBase64, List.mem_cons] at hch
    rcases hch with rfl | rfl | rfl | rfl | hch
    · exact alphabetAt_ascii _
    · exact alphabetAt_ascii _
    · exact alphabetAt_ascii _
    · exact alphabetAt_ascii ((a % 256 * 65536 + b % 256 * 256 + c % 256))
    · exact ih ch hch

theorem c_str_toBase64 (data : Bytes) : c_str (Qt.toBase64 data) = Qt.toBase64 data := by
  unfold c_str
  rw [List.takeWhile_eq_self_iff]
  intro ch hch
  have := (toBase64_ascii data ch hch).1
  simp only [bne_iff_ne, ne_eq]
  omega

/-- `fromBase64(toBase64(data)) = data` for every byte string. -/
theorem fromBase64_toBase64 (data : Bytes) (h : IsBytes data) :
    CryptoManager.fromBase64 (CryptoManager.toBase64 data) = data := by
  unfold CryptoManager.fromBase64 CryptoManager.toBase64
  rw [c_str_toBase64]
  unfold Qt.fromBase64
  rw [decoder_toBase64 data h []]
  rfl

/-- An encoding of `n` bytes has `4 * ⌈n / 3⌉` characters. -/
theorem toBase64_length (data : Bytes) : (Qt.toBase64 data).length = (data.length + 2) / 3 * 4 := by
  induction data using Qt.toBase64.induct with
  | case1 => simp [Qt.toBase64]
  | case2 a => simp [Qt.toBase64]
  | case3 a b => simp [Qt.toBase64]
  | case4 a b c rest ih =>
    simp only [Qt.toBase64, List.length_cons, ih]
    omega

/-! ## The vault: creating, saving, loading -/

theorem generateSalt_eq (cm : CryptoManager) (rd : RandomDevice) (h : rd.available = true) :
    cm.generateSalt rd =
      .ok (CryptoManager.toBase64 ((List.range 32).map (fun i => rd.draws i % 256))) := by
  simp [CryptoManager.generateSalt, h]

theorem toBase64_ne_nil (data : Bytes) (h : data ≠ []) : CryptoManager.toBase64 data ≠ [] := by
  intro h0
  have hl := toBase64_length data
  unfold CryptoManager.toBase64 at h0
  rw [h0] at hl
  have : 0 < data.length := List.length_pos.mpr h
  simp only [List.length_nil] at hl
  omega

theorem generateSalt_ne_nil (cm : CryptoManager) (rd : RandomDevice) (salt : Bytes)
    (h : cm.generateSalt rd = .ok salt) : salt ≠ [] := by
  unfold CryptoManager.generateSalt at h
  by_cases ha : rd.available = true
  · simp only [ha, Bool.not_true, Bool.false_eq_true, if_false, Except.ok.injEq] at h
    rw [← h]
    apply toBase64_ne_nil
    simp
  · simp [ha] at h

theorem generateSalt_ascii (cm : CryptoManager) (rd : RandomDevice) (salt : Bytes)
    (h : cm.generateSalt rd = .ok salt) : ∀ b ∈ salt, b < 128 := by
  unfold CryptoManager.generateSalt at h
  by_cases ha : rd.available = true
  · simp only [ha, Bool.not_true, Bool.false_eq_true, if_false, Except.ok.injEq] at h
    rw [← h]
    intro b hb
    exact (toBase64_ascii _ b hb).2
  · simp [ha] at h

theorem hashMasterPassword_ascii (cm : CryptoManager) (pf : Platform) (P S hash : Bytes)
    (h : cm.hashMasterPassword pf P S = .ok hash) : ∀ b ∈ hash, b < 128 := by
  rw [hashMasterPassword_eq] at h
  cases hc : pf.have_crypto_libs
  · simp only [hc, if_false, Bool.false_eq_true, Except.ok.injEq] at h
    rw [← h]
    intro b hb
    exact (toBase64_ascii _ b hb).2
  · simp only [hc, if_true] at h
    cases ha : pf.argon2id_hash_raw 3 65536 4 P (CryptoManager.fromBase64 S) 32 with
    | error code => rw [ha] at h; cases h
    | ok out =>
      rw [ha] at h
      cases h
      intro b hb
      exact (toBase64_ascii _ b hb).2

/-- `createVault` once salt, key and hash have been computed: the vault state it
leaves and the write it attempts. -/
theorem createVault_eq {ρ : Type} (v : SecureVault ρ) (pf : Platform) (host : Host)
    (fs : FileSystem) (P F : Bytes) (hP : P ≠ []) (salt hash : Bytes) (key : SecureBuffer)
    (hs : v.crypto_manager_.generateSalt host.random_device = .ok salt)
    (hk : v.crypto_manager_.deriveKey pf host.random_device P salt = .ok (key, salt))
    (hh : v.crypto_manager_.hashMasterPassword pf P salt = .ok hash)
    (v1 : SecureVault ρ)
    (hv1 : v1 = { v with
      vault_path_ := F, vault_salt_ := salt, vault_key_ := some key, master_hash_ := hash,
      entries_ := [], is_open_ := true, last_activity_ := host.steady_now }) :
    v.createVault pf host fs P F =
      ((v1.saveVaultFile pf host fs).1, v1, (v1.saveVaultFile pf host fs).2) := by
  have hne : P.isEmpty = false := by cases P <;> simp_all
  subst hv1
  unfold SecureVault.createVault
  simp only [hne, Bool.false_eq_true, if_false, hs, hk, hh, SecureVault.updateActivity]

/-- `saveVaultFile` on an open vault with a non-empty, writable path. -/
theorem saveVaultFile_eq {ρ : Type} (v : SecureVault ρ) (pf : Platform) (host : Host)
    (fs : FileSystem) (hopen : v.is_open_ = true) (hpath : v.vault_path_ ≠ [])
    (hw : fs.writable v.vault_path_ = true) :
    v.saveVaultFile pf host fs =
      (true, fs.write v.vault_path_ (.document (.object [
        (lit "version", .string (lit "1.0")),
        (lit "salt", .string (pf.utf8 v.vault_salt_)),
        (lit "master_hash", .string (pf.utf8 v.master_hash_)),
        (lit "created_at", .string (pf.utf8 host.timestamp)),
        (lit "device_fingerprint", .string (pf.utf8 host.device_fingerprint)),
        (lit "entries", .array (v.entries_.map (fun entry =>
          match VaultEntry.toJson pf entry with
          | .document doc => QJsonValue.object doc.toObject
          | .malformed => QJsonValue.object [])))]))) := by
  have hne : v.vault_path_.isEmpty = false := by
    cases h : v.vault_path_ <;> simp_all
  unfold SecureVault.saveVaultFile
  simp only [hopen, hne, hw, Bool.not_true, Bool.or_self, Bool.false_eq_true, if_false]

theorem value_salt (a b c d e f : QJsonValue) :
    QJsonObject.value [(lit "version", a), (lit "salt", b), (lit "master_hash", c),
      (lit "created_at", d), (lit "device_fingerprint", e), (lit "entries", f)] (lit "salt") = b := by
  rfl

theorem value_master_hash (a b c d e f : QJsonValue) :
    QJsonObject.value [(lit "version", a), (lit "salt", b), (lit "master_hash", c),
      (lit "created_at", d), (lit "device_fingerprint", e), (lit "entries", f)]
      (lit "master_hash") = c := by
  rfl

theorem value_entries (a b c d e f : QJsonValue) :
    QJsonObject.value [(lit "version", a), (lit "salt", b), (lit "master_hash", c),
      (lit "created_at", d), (lit "device_fingerprint", e), (lit "entries", f)]
      (lit "entries") = f := by
  rfl

/-- `loadVaultFile` on a file that parses: the fields it reads into the vault. -/
theorem loadVaultFile_of_document {ρ : Type} (v : SecureVault ρ) (fs : FileSystem)
    (doc : QJsonValue) (hfile : fs.files v.vault_path_ = some (.document doc))
    (entries : List VaultEntry)
    (hentries : SecureVault.loadEntriesLoop
      (QJsonObject.value doc.toObject (lit "entries")).toArray [] = (entries, none)) :
    v.loadVaultFile fs =
      (true, { v with
        vault_salt_ := (QJsonObject.value doc.toObject (lit "salt")).toStdString
        master_hash_ := (QJsonObject.value doc.toObject (lit "master_hash")).toStdString
        entries_ := entries }) := by
  unfold SecureVault.loadVaultFile
  simp only [hfile, hentries]

/-- `openVault` on a file that parses, after the load: verification, then key
derivation. -/
theorem openVault_of_document {ρ : Type} (v : SecureVault ρ) (pf : Platform) (host : Host)
    (fs : FileSystem) (P F : Bytes) (hP : P ≠ [])
    (doc : QJsonValue) (hfile : fs.files F = some (.document doc))
    (entries : List VaultEntry)
    (hentries : SecureVault.loadEntriesLoop
      (QJsonObject.value doc.toObject (lit "entries")).toArray [] = (entries, none))
    (v1 : SecureVault ρ)
    (hv1 : v1 = { v with
        vault_path_ := F
        vault_salt_ := (QJsonObject.value doc.toObject (lit "salt")).toStdString
        master_hash_ := (QJsonObject.value doc.toObject (lit "master_hash")).toStdString
        entries_ := entries }) :
    v.openVault pf host fs P F =
      match v.crypto_manager_.verifyMasterPassword pf P v1.master_hash_ v1.vault_salt_ with
      | .error _ => (false, v1.closeVault)
      | .ok false => (false, v1.closeVault)
      | .ok true =>
        match v.crypto_manager_.deriveKey pf host.random_device P v1.vault_salt_ with
        | .error _ => (false, v1.closeVault)
        | .ok (keyBuffer, salt) =>
          (true, { v1 with
            vault_key_ := some keyBuffer, vault_salt_ := salt, is_open_ := true,
            last_activity_ := host.steady_now }) := by
  have hne : P.isEmpty = false := by cases P <;> simp_all
  subst hv1
  unfold SecureVault.openVault
  have hl := loadVaultFile_of_document ({ v with vault_path_ := F }) fs doc hfile entries hentries
  simp only [hne, Bool.false_eq_true, if_false, hl, Bool.not_true, SecureVault.updateActivity]

theorem files_write_same (fs : FileSystem) (path : Bytes) (content : JsonText) :
    (fs.write path content).files path = some content := by
  simp [FileSystem.write]

theorem verifyMasterPassword_of_hash (cm : CryptoManager) (pf : Platform) (P stored salt : Bytes)
    (hash : Bytes) (h : cm.hashMasterPassword pf P salt = .ok hash) :
    cm.verifyMasterPassword pf P stored salt = .ok (decide (hash = stored)) := by
  unfold CryptoManager.verifyMasterPassword
  rw [h]
  rfl

theorem deriveKey_salt_indep (cm : CryptoManager) (hinit : cm.initialized = true) (pf : Platform)
    (rd rd' : RandomDevice) (P S : Bytes) (hS : S ≠ []) :
    cm.deriveKey pf rd P S = cm.deriveKey pf rd' P S := by
  rw [deriveKey_of_salt cm hinit pf rd P S hS, deriveKey_of_salt cm hinit pf rd' P S hS]

/-- The root object `saveVaultFile` writes for a vault without entries whose salt
and hash are ASCII text. -/
theorem createVault_ok {ρ : Type} (v : SecureVault ρ) (pf : Platform) (host : Host)
    (fs : FileSystem) (P F : Bytes)
    (hinit : v.crypto_manager_.initialized = true)
    (hP : P ≠ []) (hF : F ≠ []) (hw : fs.writable F = true)
    (salt : Bytes) (key : SecureBuffer)
    (hs : v.crypto_manager_.generateSalt host.random_device = .ok salt)
    (hk : v.crypto_manager_.deriveKey pf host.random_device P salt = .ok (key, salt)) :
    v.createVault pf host fs P F =
      (true,
       { v with
          vault_path_ := F, vault_salt_ := salt, vault_key_ := some key,
          master_hash_ := CryptoManager.toBase64 key.bytes,
          entries_ := [], is_open_ := true, last_activity_ := host.steady_now },
       fs.write F (.document (.object [
        (lit "version", .string (lit "1.0")),
        (lit "salt", .string salt),
        (lit "master_hash", .string (CryptoManager.toBase64 key.bytes)),
        (lit "created_at", .string (pf.utf8 host.timestamp)),
        (lit "device_fingerprint", .string (pf.utf8 host.device_fingerprint)),
        (lit "entries", .array [])]))) := by
  have hsne := generateSalt_ne_nil _ _ _ hs
  have hh := hashMasterPassword_of_deriveKey _ hinit pf _ P _ hsne key _ hk
  have hsalt := pf.utf8_ascii _ (generateSalt_ascii _ _ _ hs)
  have hhash := pf.utf8_ascii _ (hashMasterPassword_ascii _ pf P _ _ hh)
  rw [createVault_eq v pf host fs P F hP _ _ key hs hk hh _ rfl]
  rw [saveVaultFile_eq _ pf host fs rfl hF hw]
  simp only [hsalt, hhash, List.map_nil]

/-! ## C7: create, close, open -/

/-- C7: for every non-empty passphrase `P` and non-empty path `F` that can be written
(the file system returns what was written), starting from a Closed vault and
provided the random device works and key derivation does not fail for `P`:
`create(P, F)` succeeds, and after `close()` the call `open(P, F)` succeeds, leaves
the vault Open, and `listEntries()` is the empty list. -/
theorem create_close_open {ρ : Type} (v : SecureVault ρ) (pf : Platform) (hc ho : Host)
    (fs : FileSystem) (P F : Bytes)
    (hinit : v.crypto_manager_.initialized = true) (_hclosed : v.is_open_ = false)
    (hP : P ≠ []) (hF : F ≠ []) (hw : fs.writable F = true)
    (hrd : hc.random_device.available = true)
    (hkdf : ∀ salt, v.crypto_manager_.generateSalt hc.random_device = .ok salt →
      ∃ key, v.crypto_manager_.deriveKey pf hc.random_device P salt = .ok (key, salt)) :
    (v.createVault pf hc fs P F).1 = true ∧
    ((v.createVault pf hc fs P F).2.1.closeVault.openVault pf ho
      (v.createVault pf hc fs P F).2.2 P F).1 = true ∧
    ((v.createVault pf hc fs P F).2.1.closeVault.openVault pf ho
      (v.createVault pf hc fs P F).2.2 P F).2.is_open_ = true ∧
    ((v.createVault pf hc fs P F).2.1.closeVault.openVault pf ho
      (v.createVault pf hc fs P F).2.2 P F).2.getEntryLabels = [] := by
  have hs := generateSalt_eq v.crypto_manager_ hc.random_device hrd
  obtain ⟨key, hk⟩ := hkdf _ hs
  have hsne := generateSalt_ne_nil _ _ _ hs
  have hh := hashMasterPassword_of_deriveKey _ hinit pf _ P _ hsne key _ hk
  rw [createVault_ok v pf hc fs P F hinit hP hF hw _ key hs hk]
  refine ⟨rfl, ?_⟩
  dsimp only
  rw [openVault_of_document _ pf ho _ P F hP _ (files_write_same fs F _) [] (by rfl) _ rfl]
  simp only [QJsonValue.toObject, value_salt, value_master_hash, QJsonValue.toStdString]
  simp only [SecureVault.closeVault, SecureVault.closeVaultStorage,
    SecureVault.clearSensitiveData, SecureVault.clearSensitiveDataStorage]
  rw [verifyMasterPassword_of_hash _ pf P _ _ _ hh]
  simp only [decide_True]
  rw [deriveKey_salt_indep _ hinit pf ho.random_device hc.random_device P _ hsne, hk]
  simp [SecureVault.getEntryLabels]

/-- On the example platform key derivation succeeds for every passphrase and salt. -/
theorem examplePlatform_deriveKey (rd : RandomDevice) (P salt : Bytes) (hs : salt ≠ []) :
    ∃ key, CryptoManager.deriveKey ⟨true⟩ examplePlatform rd P salt = .ok (key, salt) := by
  rw [deriveKey_of_salt ⟨true⟩ rfl examplePlatform rd P salt hs]
  exact ⟨_, rfl⟩

/-- C7 on the example vault: passphrase "correct-horse", path "/tmp/v.store". -/
theorem create_close_open_witness :
    (exampleVault.createVault examplePlatform exampleHost exampleFileSystem
      (lit "correct-horse") (lit "/tmp/v.store")).1 = true ∧
    ((exampleVault.createVault examplePlatform exampleHost exampleFileSystem
      (lit "correct-horse") (lit "/tmp/v.store")).2.1.closeVault.openVault examplePlatform
        exampleHost (exampleVault.createVault examplePlatform exampleHost exampleFileSystem
          (lit "correct-horse") (lit "/tmp/v.store")).2.2
        (lit "correct-horse") (lit "/tmp/v.store")).1 = true ∧
    ((exampleVault.createVault examplePlatform exampleHost exampleFileSystem
      (lit "correct-horse") (lit "/tmp/v.store")).2.1.closeVault.openVault examplePlatform
        exampleHost (exampleVault.createVault examplePlatform exampleHost exampleFileSystem
          (lit "correct-horse") (lit "/tmp/v.store")).2.2
        (lit "correct-horse") (lit "/tmp/v.store")).2.is_open_ = true ∧
    ((exampleVault.createVault examplePlatform exampleHost exampleFileSystem
      (lit "correct-horse") (lit "/tmp/v.store")).2.1.closeVault.openVault examplePlatform
        exampleHost (exampleVault.createVault examplePlatform exampleHost exampleFileSystem
          (lit "correct-horse") (lit "/tmp/v.store")).2.2
        (lit "correct-horse") (lit "/tmp/v.store")).2.getEntryLabels = [] :=
  create_close_open exampleVault examplePlatform exampleHost exampleHost exampleFileSystem
    (lit "correct-horse") (lit "/tmp/v.store") rfl rfl (by decide) (by decide) (by decide) rfl
    (fun salt hs => examplePlatform_deriveKey _ _ salt (generateSalt_ne_nil _ _ _ hs))

/-! ## C8: opening with another passphrase -/

theorem toBase64_injective (a b : Bytes) (ha : IsBytes a) (hb : IsBytes b)
    (h : CryptoManager.toBase64 a = CryptoManager.toBase64 b) : a = b := by
  rw [← fromBase64_toBase64 a ha, ← fromBase64_toBase64 b hb, h]

theorem sha256Rounds_bytes (pf : Platform) (n : Nat) (hn : 0 < n) (data : Bytes) :
    IsBytes (CryptoManager.sha256Rounds pf n data) := by
  obtain ⟨m, rfl⟩ : ∃ m, n = m + 1 := ⟨n - 1, by omega⟩
  exact pf.sha256_bytes _

/-- The key `deriveKey` returns consists of byte values. -/
theorem deriveKey_bytes (cm : CryptoManager) (hinit : cm.initialized = true) (pf : Platform)
    (rd : RandomDevice) (P S : Bytes) (hS : S ≠ []) (key : SecureBuffer) (salt : Bytes)
    (hk : cm.deriveKey pf rd P S = .ok (key, salt)) : IsBytes key.bytes ∧ salt = S := by
  rw [deriveKey_of_salt cm hinit pf rd P S hS] at hk
  obtain ⟨kb⟩ := key
  cases hc : pf.have_crypto_libs
  · simp only [hc, if_false, Bool.false_eq_true, Except.ok.injEq, Prod.mk.injEq,
      SecureBuffer.mk.injEq] at hk
    refine ⟨?_, hk.2.symm⟩
    have hb := sha256Rounds_bytes pf 10000 (by norm_num)
      (pf.utf8 P ++ pf.utf8 (CryptoManager.fromBase64 S))
    rw [← hk.1]
    exact hb
  · simp only [hc, if_true] at hk
    cases ha : pf.argon2id_hash_raw 3 65536 4 P (CryptoManager.fromBase64 S) 32 with
    | error code => rw [ha] at hk; cases hk
    | ok out =>
      rw [ha] at hk
      cases hk
      exact ⟨pf.argon2_bytes _ _ _ _ _ _ _ ha, rfl⟩

/-- A passphrase hashes to the text of a key exactly when it derives that key. -/
theorem deriveKey_of_hashMasterPassword (cm : CryptoManager) (hinit : cm.initialized = true)
    (pf : Platform) (rd : RandomDevice) (P S : Bytes) (hS : S ≠ []) (key : SecureBuffer)
    (hkb : IsBytes key.bytes)
    (hh : cm.hashMasterPassword pf P S = .ok (CryptoManager.toBase64 key.bytes)) :
    cm.deriveKey pf rd P S = .ok (key, S) := by
  rw [deriveKey_of_salt cm hinit pf rd P S hS]
  rw [hashMasterPassword_eq] at hh
  cases hc : pf.have_crypto_libs
  · simp only [hc, if_false, Bool.false_eq_true, Except.ok.injEq] at hh ⊢
    have hb := sha256Rounds_bytes pf 10000 (by norm_num)
      (pf.utf8 P ++ pf.utf8 (CryptoManager.fromBase64 S))
    have := toBase64_injective _ _ hb hkb hh
    simp only [Prod.mk.injEq, and_true]
    rw [this]
  · simp only [hc, if_true] at hh ⊢
    cases ha : pf.argon2id_hash_raw 3 65536 4 P (CryptoManager.fromBase64 S) 32 with
    | error code => rw [ha] at hh; cases hh
    | ok out =>
      rw [ha] at hh
      simp only [Except.ok.injEq] at hh
      have := toBase64_injective _ _ (pf.argon2_bytes _ _ _ _ _ _ _ ha) hkb hh
      simp only [Except.ok.injEq, Prod.mk.injEq, and_true]
      rw [this]

/-- What a successful `createVault` went through. -/
theorem createVault_true_inv {ρ : Type} (v : SecureVault ρ) (pf : Platform) (host : Host)
    (fs : FileSystem) (P F : Bytes) (hinit : v.crypto_manager_.initialized = true)
    (h : (v.createVault pf host fs P F).1 = true) :
    P ≠ [] ∧ F ≠ [] ∧ fs.writable F = true ∧
    ∃ salt key,
      v.crypto_manager_.generateSalt host.random_device = .ok salt ∧
      v.crypto_manager_.deriveKey pf host.random_device P salt = .ok (key, salt) := by
  unfold SecureVault.createVault at h
  by_cases hP : P.isEmpty = true
  · simp [hP] at h
  · have hPne : P ≠ [] := by intro h0; subst h0; simp at hP
    simp only [hP, if_false] at h
    cases hs : v.crypto_manager_.generateSalt host.random_device with
    | error x => simp [hs, SecureVault.closeVault, SecureVault.closeVaultStorage] at h
    | ok salt =>
      have hsne := generateSalt_ne_nil _ _ _ hs
      simp only [hs] at h
      cases hk : v.crypto_manager_.deriveKey pf host.random_device P salt with
      | error x => simp [hk] at h
      | ok r =>
        obtain ⟨key, salt2⟩ := r
        have hs2 := (deriveKey_bytes _ hinit pf _ P salt hsne key salt2 hk).2
        subst hs2
        have hh := hashMasterPassword_of_deriveKey _ hinit pf _ P _ hsne key _ hk
        simp only [hk, hh, SecureVault.updateActivity] at h
        unfold SecureVault.saveVaultFile at h
        by_cases hF : F.isEmpty = true
        · simp [hF] at h
        · have hFne : F ≠ [] := by intro h0; subst h0; simp at hF
          by_cases hw : fs.writable F = true
          · exact ⟨hPne, hFne, hw, salt2, key, rfl, hk⟩
          · simp [hF, hw] at h

/-- C8 (amended): for non-empty passphrases `P ≠ P'` and every path `F` for which
`create(P, F)` succeeds, the call `open(P', F)` reports failure and leaves the vault
Closed, whenever `P'` does not derive the vault's key from the stored salt (no
collision of the key derivation function between `P'` and `P`). -/
theorem open_with_other_passphrase {ρ : Type} (v : SecureVault ρ) (pf : Platform)
    (hc ho : Host) (fs : FileSystem) (P P' F : Bytes)
    (hinit : v.crypto_manager_.initialized = true)
    (hP' : P' ≠ []) (_hne : P ≠ P')
    (hcreate : (v.createVault pf hc fs P F).1 = true)
    (hkey : v.crypto_manager_.deriveKey pf ho.random_device P'
        (v.createVault pf hc fs P F).2.1.vault_salt_ ≠
      .ok ((v.createVault pf hc fs P F).2.1.key, (v.createVault pf hc fs P F).2.1.vault_salt_)) :
    ((v.createVault pf hc fs P F).2.1.openVault pf ho (v.createVault pf hc fs P F).2.2 P' F).1
      = false ∧
    ((v.createVault pf hc fs P F).2.1.openVault pf ho (v.createVault pf hc fs P F).2.2 P' F).2.is_open_
      = false := by
  obtain ⟨hP, hF, hw, salt, key, hs, hk⟩ := createVault_true_inv v pf hc fs P F hinit hcreate
  have hsne := generateSalt_ne_nil _ _ _ hs
  have hkb := (deriveKey_bytes _ hinit pf _ P salt hsne key salt hk).1
  rw [createVault_ok v pf hc fs P F hinit hP hF hw salt key hs hk] at hkey ⊢
  dsimp only at hkey ⊢
  simp only [SecureVault.key, Option.getD_some] at hkey
  rw [openVault_of_document _ pf ho _ P' F hP' _ (files_write_same fs F _) [] (by rfl) _ rfl]
  simp only [QJsonValue.toObject, value_salt, value_master_hash, QJsonValue.toStdString]
  cases hh : v.crypto_manager_.hashMasterPassword pf P' salt with
  | error x =>
    simp [CryptoManager.verifyMasterPassword, hh, bind, Except.bind, SecureVault.closeVault,
      SecureVault.closeVaultStorage, SecureVault.clearSensitiveData,
      SecureVault.clearSensitiveDataStorage]
  | ok h' =>
    rw [verifyMasterPassword_of_hash _ pf P' _ _ _ hh]
    by_cases heq : h' = CryptoManager.toBase64 key.bytes
    · subst heq
      exact absurd
        (deriveKey_of_hashMasterPassword _ hinit pf ho.random_device P' salt hsne key hkb hh) hkey
    · simp [heq, SecureVault.closeVault, SecureVault.closeVaultStorage,
        SecureVault.clearSensitiveData, SecureVault.clearSensitiveDataStorage]

set_option maxRecDepth 100000 in
/-- C8 (amended) on the example vault: created with "correct-horse", opened with
"wrong". -/
theorem open_with_other_passphrase_witness :
    ((exampleVault.createVault examplePlatform exampleHost exampleFileSystem
      (lit "correct-horse") (lit "/tmp/v.store")).2.1.openVault examplePlatform exampleHost
        (exampleVault.createVault examplePlatform exampleHost exampleFileSystem
          (lit "correct-horse") (lit "/tmp/v.store")).2.2 (lit "wrong") (lit "/tmp/v.store")).1
      = false ∧
    ((exampleVault.createVault examplePlatform exampleHost exampleFileSystem
      (lit "correct-horse") (lit "/tmp/v.store")).2.1.openVault examplePlatform exampleHost
        (exampleVault.createVault examplePlatform exampleHost exampleFileSystem
          (lit "correct-horse") (lit "/tmp/v.store")).2.2 (lit "wrong")
            (lit "/tmp/v.store")).2.is_open_
      = false :=
  open_with_other_passphrase exampleVault examplePlatform exampleHost exampleHost
    exampleFileSystem (lit "correct-horse") (lit "wrong") (lit "/tmp/v.store") rfl
    (by decide) (by decide) (by decide) (by decide)

/-- `createVault` keeps the codec, and on a path that cannot be written it reports
failure and leaves the file system as it is. -/
theorem createVault_unwritable {ρ : Type} (v : SecureVault ρ) (pf : Platform) (host : Host)
    (fs : FileSystem) (P F : Bytes) (hw : fs.writable F = false) :
    (v.createVault pf host fs P F).1 = false ∧
    (v.createVault pf host fs P F).2.1.crypto_manager_ = v.crypto_manager_ ∧
    (v.createVault pf host fs P F).2.2 = fs := by
  unfold SecureVault.createVault
  by_cases hP : P.isEmpty = true
  · simp [hP]
  · simp only [hP, if_false]
    cases hs : v.crypto_manager_.generateSalt host.random_device with
    | error x => exact ⟨rfl, rfl, rfl⟩
    | ok salt =>
      dsimp only
      cases hk : v.crypto_manager_.deriveKey pf host.random_device P salt with
      | error x => exact ⟨rfl, rfl, rfl⟩
      | ok r =>
        obtain ⟨key, salt2⟩ := r
        dsimp only
        cases hh : v.crypto_manager_.hashMasterPassword pf P salt2 with
        | error x => exact ⟨rfl, rfl, rfl⟩
        | ok hash =>
          dsimp only
          unfold SecureVault.saveVaultFile
          by_cases hF : F.isEmpty = true
          · simp [hF, SecureVault.updateActivity]
          · simp [hF, hw, SecureVault.updateActivity]

/-- On every platform: when the file at `F` is the one a successful `create(P', F)`
wrote and `F` cannot be written any more, `create(P, F)` reports failure and the
following `open(P', F)` succeeds and leaves the vault Open. -/
theorem openVault_after_failed_createVault {ρ : Type} (v0 v : SecureVault ρ) (pf : Platform)
    (h0 hc ho : Host) (fs0 fs1 : FileSystem) (P P' F : Bytes)
    (hinit0 : v0.crypto_manager_.initialized = true)
    (hinit : v.crypto_manager_.initialized = true)
    (hcreate0 : (v0.createVault pf h0 fs0 P' F).1 = true)
    (hfiles : fs1.files = (v0.createVault pf h0 fs0 P' F).2.2.files)
    (hw1 : fs1.writable F = false) :
    (v.createVault pf hc fs1 P F).1 = false ∧
    ((v.createVault pf hc fs1 P F).2.1.openVault pf ho (v.createVault pf hc fs1 P F).2.2 P' F).1
      = true ∧
    ((v.createVault pf hc fs1 P F).2.1.openVault pf ho
      (v.createVault pf hc fs1 P F).2.2 P' F).2.is_open_ = true := by
  obtain ⟨hP', hF, hw, salt, key, hs, hk⟩ := createVault_true_inv v0 pf h0 fs0 P' F hinit0 hcreate0
  have hsne := generateSalt_ne_nil _ _ _ hs
  have hh := hashMasterPassword_of_deriveKey _ hinit0 pf _ P' _ hsne key _ hk
  rw [createVault_ok v0 pf h0 fs0 P' F hinit0 hP' hF hw salt key hs hk] at hfiles
  dsimp only at hfiles
  obtain ⟨hfalse, hcm, hfs⟩ := createVault_unwritable v pf hc fs1 P F hw1
  refine ⟨hfalse, ?_⟩
  rw [hfs]
  have hfile := files_write_same fs0 F (.document (.object [
    (lit "version", .string (lit "1.0")),
    (lit "salt", .string salt),
    (lit "master_hash", .string (CryptoManager.toBase64 key.bytes)),
    (lit "created_at", .string (pf.utf8 h0.timestamp)),
    (lit "device_fingerprint", .string (pf.utf8 h0.device_fingerprint)),
    (lit "entries", .array [])]))
  rw [← hfiles] at hfile
  rw [openVault_of_document _ pf ho fs1 P' F hP' _ hfile [] (by rfl) _ rfl]
  simp only [QJsonValue.toObject, value_salt, value_master_hash, QJsonValue.toStdString]
  have hh' : (v.createVault pf hc fs1 P F).2.1.crypto_manager_.hashMasterPassword pf P' salt =
      .ok (CryptoManager.toBase64 key.bytes) := hh
  rw [verifyMasterPassword_of_hash _ pf P' _ _ _ hh']
  simp only [decide_True]
  have hinit1 : (v.createVault pf hc fs1 P F).2.1.crypto_manager_.initialized = true := by
    rw [hcm]; exact hinit
  have hk' : (v.createVault pf hc fs1 P F).2.1.crypto_manager_.deriveKey pf ho.random_device
      P' salt = .ok (key, salt) := by
    rw [deriveKey_of_salt _ hinit1 pf _ P' salt hsne]
    rw [deriveKey_of_salt _ hinit0 pf _ P' salt hsne] at hk
    exact hk
  rw [hk']
  exact ⟨rfl, rfl⟩

set_option maxRecDepth 100000 in
/-- C8 as stated fails: on a read-only store whose file "/tmp/v.store" holds a vault
made with the passphrase "wrong", `create("correct-horse", "/tmp/v.store")` reports
failure (the file cannot be written and stays as it is), and the following
`open("wrong", "/tmp/v.store")` succeeds and leaves the vault Open. -/
theorem open_with_other_passphrase_after_failed_create :
    lit "correct-horse" ≠ [] ∧ lit "wrong" ≠ [] ∧ lit "correct-horse" ≠ lit "wrong" ∧
    (exampleVault.createVault examplePlatform exampleHost exampleReadOnlyStore
      (lit "correct-horse") (lit "/tmp/v.store")).1 = false ∧
    ((exampleVault.createVault examplePlatform exampleHost exampleReadOnlyStore
      (lit "correct-horse") (lit "/tmp/v.store")).2.1.openVault examplePlatform exampleHost
        (exampleVault.createVault examplePlatform exampleHost exampleReadOnlyStore
          (lit "correct-horse") (lit "/tmp/v.store")).2.2 (lit "wrong") (lit "/tmp/v.store")).1
      = true ∧
    ((exampleVault.createVault examplePlatform exampleHost exampleReadOnlyStore
      (lit "correct-horse") (lit "/tmp/v.store")).2.1.openVault examplePlatform exampleHost
        (exampleVault.createVault examplePlatform exampleHost exampleReadOnlyStore
          (lit "correct-horse") (lit "/tmp/v.store")).2.2 (lit "wrong")
            (lit "/tmp/v.store")).2.is_open_
      = true := by
  decide

/-! ## C9 and C10: an entry after `saveEntry` -/

theorem charsets_ascii :
    ∀ c ∈ PasswordGenerator.LOWERCASE_CHARS ++ PasswordGenerator.UPPERCASE_CHARS ++
      PasswordGenerator.DIGIT_CHARS ++ PasswordGenerator.SYMBOL_CHARS, c < 128 := by
  decide

/-- Every character of a generated password is ASCII. -/
theorem generatePasswordUnshuffled_ascii {ρ : Type} (R : StdRandom ρ) (L : Nat)
    (includeSymbols : Bool) (g : ρ) :
    ∀ c ∈ (PasswordGenerator.generatePasswordUnshuffled R L includeSymbols g).1, c < 128 := by
  intro c hc
  apply charsets_ascii
  unfold PasswordGenerator.generatePasswordUnshuffled at hc
  simp only [List.mem_append] at hc ⊢
  rcases hc with ((((h | h) | h) | h) | h)
  · exact Or.inl (Or.inl (Or.inl (generateFromCharset_mem R _ _ _ c h)))
  · exact Or.inl (Or.inl (Or.inr (generateFromCharset_mem R _ _ _ c h)))
  · exact Or.inl (Or.inr (generateFromCharset_mem R _ _ _ c h))
  · cases includeSymbols with
    | false => simp at h
    | true =>
      simp only [if_true] at h
      exact Or.inr (generateFromCharset_mem R _ _ _ c h)
  · have := generateFromCharset_mem R _ _ _ c h
    cases includeSymbols with
    | false =>
      simp only [Bool.false_eq_true, if_false, List.mem_append] at this
      exact Or.inl this
    | true =>
      simp only [if_true, List.mem_append] at this
      exact this

/-- `generatePassword()` with its default arguments returns 64 ASCII characters. -/
theorem generatePassword_default {ρ : Type} (R : StdRandom ρ) (g : ρ) :
    ∃ pw g', PasswordGenerator.generatePassword R g = .ok (pw, g') ∧
      pw.length = 64 ∧ ∀ c ∈ pw, c < 128 := by
  have hperm := shuffle_perm R (PasswordGenerator.generatePasswordUnshuffled R 64 true g).1
    (PasswordGenerator.generatePasswordUnshuffled R 64 true g).2
  refine ⟨(shuffle R (PasswordGenerator.generatePasswordUnshuffled R 64 true g).1
      (PasswordGenerator.generatePasswordUnshuffled R 64 true g).2).1,
    (shuffle R (PasswordGenerator.generatePasswordUnshuffled R 64 true g).1
      (PasswordGenerator.generatePasswordUnshuffled R 64 true g).2).2, ?_, ?_, ?_⟩
  · unfold PasswordGenerator.generatePassword
    rw [if_neg (by omega), if_neg (by omega)]
  · rw [hperm.length_eq]
    exact (generatePasswordUnshuffled_spec R 64 true g (by norm_num)).1
  · intro c hc
    exact generatePasswordUnshuffled_ascii R 64 true g c (hperm.subset hc)

/-- What `createEntry` returns on an open vault for a non-empty label. -/
theorem createEntry_ok {ρ : Type} (v : SecureVault ρ) (R : StdRandom ρ) (host : Host)
    (label : Bytes) (hopen : v.is_open_ = true) (hlabel : label ≠ [])
    (e : VaultEntry) (v1 : SecureVault ρ) (h : v.createEntry R host label = (.ok e, v1)) :
    e.id = host.uuid ∧ e.label = label ∧ e.created_at = host.timestamp ∧
    e.device_fingerprint = host.device_fingerprint ∧
    e.password.length = 64 ∧ (∀ c ∈ e.password, c < 128) ∧
    v1.is_open_ = true ∧ v1.vault_key_ = v.vault_key_ ∧ v1.crypto_manager_ = v.crypto_manager_ ∧
    v1.entries_ = v.entries_ := by
  have hl : label.isEmpty = false := by cases label <;> simp_all
  obtain ⟨pw, g', hgen, hlen, hascii⟩ := generatePassword_default R
    (PasswordGenerator.generateUsername R v.password_generator_).2
  unfold SecureVault.createEntry at h
  simp only [hopen, hl, Bool.not_true, Bool.or_self, Bool.false_eq_true, if_false,
    SecureVault.updateActivity] at h
  rw [hgen] at h
  simp only [Prod.mk.injEq, Except.ok.injEq] at h
  obtain ⟨he, hv⟩ := h
  subst he
  subst hv
  exact ⟨rfl, rfl, rfl, rfl, hlen, hascii, rfl, rfl, rfl, rfl⟩

/-- `createEntry` succeeds on an open vault for a non-empty label. -/
theorem createEntry_total {ρ : Type} (v : SecureVault ρ) (R : StdRandom ρ) (host : Host)
    (label : Bytes) (hopen : v.is_open_ = true) (hlabel : label ≠ []) :
    ∃ e v1, v.createEntry R host label = (.ok e, v1) := by
  have hl : label.isEmpty = false := by cases label <;> simp_all
  obtain ⟨pw, g', hgen, -, -⟩ := generatePassword_default R
    (PasswordGenerator.generateUsername R v.password_generator_).2
  unfold SecureVault.createEntry
  simp only [hopen, hl, Bool.not_true, Bool.or_self, Bool.false_eq_true, if_false,
    SecureVault.updateActivity]
  rw [hgen]
  exact ⟨_, _, rfl⟩

theorem find?_assignFirst (p : VaultEntry → Bool) (x : VaultEntry) (hx : p x = true)
    (l : List VaultEntry) (y : VaultEntry) (h : l.find? p = some y) :
    (SecureVault.assignFirst p x l).find? p = some x := by
  induction l with
  | nil => simp at h
  | cons a rest ih =>
    unfold SecureVault.assignFirst
    by_cases ha : p a = true
    · simp [ha, hx]
    · have ha' : p a = false := by simpa using ha
      rw [List.find?_cons_of_neg _ ha] at h
      simp only [ha', Bool.false_eq_true, if_false]
      rw [List.find?_cons_of_neg _ ha]
      exact ih h

theorem find?_append_new (p : VaultEntry → Bool) (x : VaultEntry) (hx : p x = true)
    (l : List VaultEntry) (h : l.find? p = none) : (l ++ [x]).find? p = some x := by
  rw [List.find?_append, h]
  simp [hx]

/-- After `saveEntry(entry)` on an open vault whose codec is initialized, the first
stored entry with the id of `entry` is `entry` with its password replaced by the
Base64 text of the XOR loop's output; the vault stays open with the same key. -/
theorem saveEntry_stored {ρ : Type} (v : SecureVault ρ) (pf : Platform) (host : Host)
    (fs : FileSystem) (entry : VaultEntry) (hopen : v.is_open_ = true)
    (hinit : v.crypto_manager_.initialized = true) :
    (v.saveEntry pf host fs entry).2.1.entries_.find? (fun e => e.id == entry.id) =
      some { entry with
        password := CryptoManager.toBase64 (CryptoManager.xorLoop v.key 0 entry.password) } ∧
    (v.saveEntry pf host fs entry).2.1.is_open_ = true ∧
    (v.saveEntry pf host fs entry).2.1.vault_key_ = v.vault_key_ ∧
    (v.saveEntry pf host fs entry).2.1.crypto_manager_ = v.crypto_manager_ := by
  unfold SecureVault.saveEntry
  simp only [hopen, Bool.not_true, Bool.false_eq_true, if_false, SecureVault.updateActivity,
    CryptoManager.encrypt, hinit, SecureVault.key]
  cases hf : v.entries_.find? (fun e => e.id == entry.id) with
  | none =>
    refine ⟨?_, rfl, rfl, rfl⟩
    exact find?_append_new _ _ (by simp) _ hf
  | some y =>
    refine ⟨?_, rfl, rfl, rfl⟩
    exact find?_assignFirst _ _ (by simp) _ y hf

/-- C9: for every Open vault (open, codec initialized, holding a key of non-zero
size) and every non-empty label, if `createEntry(label)` returns `e` and
`saveEntry(e)` succeeds, then `getPassword(e.id)` returns exactly `e.password`. -/
theorem getPassword_after_saveEntry {ρ : Type} (v : SecureVault ρ) (R : StdRandom ρ)
    (pf : Platform) (hcr hsv hrv : Host) (fs : FileSystem) (label : Bytes)
    (hopen : v.is_open_ = true) (hinit : v.crypto_manager_.initialized = true)
    (k : SecureBuffer) (_hk : v.vault_key_ = some k) (_hksize : k.size ≠ 0)
    (hlabel : label ≠ [])
    (e : VaultEntry) (v1 : SecureVault ρ) (hcreate : v.createEntry R hcr label = (.ok e, v1))
    (v2 : SecureVault ρ) (fs2 : FileSystem) (hsave : v1.saveEntry pf hsv fs e = (true, v2, fs2)) :
    (v2.getPassword hrv e.id).1 = .ok e.password := by
  obtain ⟨-, -, -, -, -, hascii, hopen1, hkey1, hcm1, -⟩ :=
    createEntry_ok v R hcr label hopen hlabel e v1 hcreate
  have hinit1 : v1.crypto_manager_.initialized = true := by rw [hcm1]; exact hinit
  obtain ⟨hfind, hopen2, hkey2, hcm2⟩ := saveEntry_stored v1 pf hsv fs e hopen1 hinit1
  rw [hsave] at hfind hopen2 hkey2 hcm2
  dsimp only at hfind hopen2 hkey2 hcm2
  have hbytes : IsBytes e.password := fun c hc => lt_trans (hascii c hc) (by norm_num)
  unfold SecureVault.getPassword
  simp only [hopen2, Bool.not_true, Bool.false_eq_true, if_false, SecureVault.updateActivity,
    hfind, CryptoManager.decrypt, hcm2, hinit1, SecureVault.key, hkey2]
  rw [fromBase64_toBase64 _ (xorLoop_isBytes _ _ _)]
  rw [xorLoop_involutive _ _ hbytes]

set_option maxRecDepth 100000 in
/-- C9 on the example vault: the entry "Mail" is created, saved and revealed. -/
theorem getPassword_after_saveEntry_witness :
    (((exampleOpenVault.createEntry exampleRandom exampleHost (lit "Mail")).2.saveEntry
      examplePlatform exampleHost exampleStore exampleEntry).2.1.getPassword exampleHost
        exampleEntry.id).1 = .ok exampleEntry.password :=
  getPassword_after_saveEntry exampleOpenVault exampleRandom examplePlatform exampleHost
    exampleHost exampleHost exampleStore (lit "Mail") rfl rfl ⟨List.replicate 32 48⟩ rfl
    (by decide) (by decide) exampleEntry
    (exampleOpenVault.createEntry exampleRandom exampleHost (lit "Mail")).2 rfl
    ((exampleOpenVault.createEntry exampleRandom exampleHost (lit "Mail")).2.saveEntry
      examplePlatform exampleHost exampleStore exampleEntry).2.1
    ((exampleOpenVault.createEntry exampleRandom exampleHost (lit "Mail")).2.saveEntry
      examplePlatform exampleHost exampleStore exampleEntry).2.2 rfl

/-- C10: for every Open vault (open, codec initialized, holding the key `k` of
non-zero size) and every non-empty label, if `createEntry(label)` returns `e` and
`saveEntry(e)` succeeds, then `getEntry(e.id)` returns a record with the id, label,
username, created_at and device_fingerprint of `e` whose password is `toBase64` of
`encrypt(e.password, k)` and differs from `e.password`. -/
theorem getEntry_after_saveEntry {ρ : Type} (v : SecureVault ρ) (R : StdRandom ρ)
    (pf : Platform) (hcr hsv : Host) (fs : FileSystem) (label : Bytes)
    (hopen : v.is_open_ = true) (hinit : v.crypto_manager_.initialized = true)
    (k : SecureBuffer) (hk : v.vault_key_ = some k) (_hksize : k.size ≠ 0)
    (hlabel : label ≠ [])
    (e : VaultEntry) (v1 : SecureVault ρ) (hcreate : v.createEntry R hcr label = (.ok e, v1))
    (v2 : SecureVault ρ) (fs2 : FileSystem) (hsave : v1.saveEntry pf hsv fs e = (true, v2, fs2)) :
    ∃ r c, v2.getEntry e.id = .ok r ∧
      r.id = e.id ∧ r.label = e.label ∧ r.username = e.username ∧
      r.created_at = e.created_at ∧ r.device_fingerprint = e.device_fingerprint ∧
      v.crypto_manager_.encrypt e.password k = .ok c ∧
      r.password = CryptoManager.toBase64 c ∧ r.password ≠ e.password := by
  obtain ⟨-, -, -, -, hlen, -, hopen1, hkey1, hcm1, -⟩ :=
    createEntry_ok v R hcr label hopen hlabel e v1 hcreate
  have hinit1 : v1.crypto_manager_.initialized = true := by rw [hcm1]; exact hinit
  obtain ⟨hfind, hopen2, -, -⟩ := saveEntry_stored v1 pf hsv fs e hopen1 hinit1
  rw [hsave] at hfind hopen2
  dsimp only at hfind hopen2
  have hkey : v1.key = k := by simp [SecureVault.key, hkey1, hk]
  rw [hkey] at hfind
  refine ⟨{ e with password := CryptoManager.toBase64 (CryptoManager.xorLoop k 0 e.password) },
    CryptoManager.xorLoop k 0 e.password, ?_, rfl, rfl, rfl, rfl, rfl, ?_, rfl, ?_⟩
  · unfold SecureVault.getEntry
    simp only [hopen2, Bool.not_true, Bool.false_eq_true, if_false, hfind]
  · simp [CryptoManager.encrypt, hinit]
  · intro heq
    have h1 := congrArg List.length heq
    simp only [CryptoManager.toBase64, toBase64_length, xorLoop_length, hlen] at h1
    omega

set_option maxRecDepth 100000 in
/-- C10 on the example vault: the stored record of the entry "Mail". -/
theorem getEntry_after_saveEntry_witness :
    ∃ r c, ((exampleOpenVault.createEntry exampleRandom exampleHost (lit "Mail")).2.saveEntry
        examplePlatform exampleHost exampleStore exampleEntry).2.1.getEntry exampleEntry.id
          = .ok r ∧
      r.id = exampleEntry.id ∧ r.label = exampleEntry.label ∧
      r.username = exampleEntry.username ∧ r.created_at = exampleEntry.created_at ∧
      r.device_fingerprint = exampleEntry.device_fingerprint ∧
      exampleOpenVault.crypto_manager_.encrypt exampleEntry.password ⟨List.replicate 32 48⟩
        = .ok c ∧
      r.password = CryptoManager.toBase64 c ∧ r.password ≠ exampleEntry.password :=
  getEntry_after_saveEntry exampleOpenVault exampleRandom examplePlatform exampleHost
    exampleHost exampleStore (lit "Mail") rfl rfl ⟨List.replicate 32 48⟩ rfl
    (by decide) (by decide) exampleEntry
    (exampleOpenVault.createEntry exampleRandom exampleHost (lit "Mail")).2 rfl
    ((exampleOpenVault.createEntry exampleRandom exampleHost (lit "Mail")).2.saveEntry
      examplePlatform exampleHost exampleStore exampleEntry).2.1
    ((exampleOpenVault.createEntry exampleRandom exampleHost (lit "Mail")).2.saveEntry
      examplePlatform exampleHost exampleStore exampleEntry).2.2 rfl

/-! ## The key invariant of the vault

Every state reached from the constructor by the operations of the vault has an
initialized codec and, while open, a 32-byte key: the hypotheses under which C9
and C10 speak of an Open vault. -/

theorem deriveKey_not_initialized (cm : CryptoManager) (hinit : cm.initialized = false)
    (pf : Platform) (rd : RandomDevice) (P S : Bytes) :
    cm.deriveKey pf rd P S = .error .crypto_not_initialized := by
  simp [CryptoManager.deriveKey, hinit]

/-- With an empty salt `deriveKey` first generates one. -/
theorem deriveKey_empty_salt (cm : CryptoManager) (hinit : cm.initialized = true)
    (pf : Platform) (rd : RandomDevice) (P : Bytes) :
    cm.deriveKey pf rd P [] =
      match cm.generateSalt rd with
      | .ok s => cm.deriveKey pf rd P s
      | .error x => .error x := by
  cases hs : cm.generateSalt rd with
  | error x =>
    simp [CryptoManager.deriveKey, hinit, hs, bind, Except.bind]
  | ok s =>
    have hne : s.isEmpty = false := by
      have := generateSalt_ne_nil cm rd s hs
      cases s <;> simp_all
    simp [CryptoManager.deriveKey, hinit, hs, hne, bind, Except.bind, pure, Except.pure]

/-- A key `deriveKey` returns has 32 bytes. -/
theorem deriveKey_size (cm : CryptoManager) (pf : Platform) (rd : RandomDevice)
    (P S : Bytes) (key : SecureBuffer) (salt : Bytes)
    (h : cm.deriveKey pf rd P S = .ok (key, salt)) : key.size = 32 := by
  cases hi : cm.initialized with
  | false => rw [deriveKey_not_initialized cm hi] at h; cases h
  | true =>
    have core : ∀ s : Bytes, s ≠ [] → cm.deriveKey pf rd P s = .ok (key, salt) →
        key.size = 32 := by
      intro s hs hk
      obtain ⟨kb⟩ := key
      rw [deriveKey_of_salt cm hi pf rd P s hs] at hk
      cases hc : pf.have_crypto_libs
      · simp only [hc, Bool.false_eq_true, if_false, Except.ok.injEq, Prod.mk.injEq,
          SecureBuffer.mk.injEq] at hk
        have := sha256Rounds_length pf 9999 (pf.utf8 P ++ pf.utf8 (CryptoManager.fromBase64 s))
        simp only [SecureBuffer.size, ← hk.1]
        exact this
      · simp only [hc, if_true] at hk
        cases hout : pf.argon2id_hash_raw 3 65536 4 P (CryptoManager.fromBase64 s) 32 with
        | error code => rw [hout] at hk; cases hk
        | ok out =>
          rw [hout] at hk
          simp only [Except.ok.injEq, Prod.mk.injEq, SecureBuffer.mk.injEq] at hk
          simp only [SecureBuffer.size, ← hk.1]
          exact pf.argon2_length _ _ _ _ _ _ _ hout
    by_cases hS : S = []
    · subst hS
      rw [deriveKey_empty_salt cm hi] at h
      cases hs : cm.generateSalt rd with
      | error x => rw [hs] at h; cases h
      | ok s =>
        rw [hs] at h
        exact core s (generateSalt_ne_nil cm rd s hs) h
    · exact core S hS h

theorem new_keyInvariant {ρ : Type} (pf : Platform) (gpgme_ok : Bool) (g : ρ) (now : Nat)
    (v : SecureVault ρ) (h : SecureVault.new pf gpgme_ok g now = .ok v) :
    v.KeyInvariant ∧ v.is_open_ = false := by
  unfold SecureVault.new CryptoManager.init at h
  by_cases hc : (pf.have_crypto_libs && !gpgme_ok) = true
  · simp [hc] at h
  · simp only [hc, if_false, Bool.not_true, Bool.false_eq_true, Except.ok.injEq] at h
    subst h
    exact ⟨⟨rfl, fun h => by cases h⟩, rfl⟩

theorem closeVault_keyInvariant {ρ : Type} (v : SecureVault ρ) (h : v.KeyInvariant) :
    v.closeVault.KeyInvariant :=
  ⟨h.1, fun h => by cases h⟩

theorem createVault_keyInvariant {ρ : Type} (v : SecureVault ρ) (pf : Platform) (host : Host)
    (fs : FileSystem) (P F : Bytes) (h : v.KeyInvariant) :
    (v.createVault pf host fs P F).2.1.KeyInvariant := by
  unfold SecureVault.createVault
  by_cases hP : P.isEmpty = true
  · simpa [hP] using h
  · simp only [hP, if_false]
    cases hs : v.crypto_manager_.generateSalt host.random_device with
    | error x => exact ⟨h.1, fun h => by cases h⟩
    | ok salt =>
      dsimp only
      cases hk : v.crypto_manager_.deriveKey pf host.random_device P salt with
      | error x => exact ⟨h.1, fun h => by cases h⟩
      | ok r =>
        obtain ⟨key, salt2⟩ := r
        dsimp only
        cases hh : v.crypto_manager_.hashMasterPassword pf P salt2 with
        | error x => exact ⟨h.1, fun h => by cases h⟩
        | ok hash => exact ⟨h.1, fun _ => ⟨key, rfl, deriveKey_size _ pf _ P salt key salt2 hk⟩⟩

theorem loadVaultFile_keyInvariant {ρ : Type} (v : SecureVault ρ) (fs : FileSystem)
    (h : v.KeyInvariant) :
    (v.loadVaultFile fs).2.KeyInvariant ∧
    (v.loadVaultFile fs).2.crypto_manager_ = v.crypto_manager_ := by
  unfold SecureVault.loadVaultFile
  cases hf : fs.files v.vault_path_ with
  | none => exact ⟨h, rfl⟩
  | some content =>
    cases content with
    | malformed => exact ⟨h, rfl⟩
    | document doc =>
      dsimp only
      split <;> exact ⟨h, rfl⟩

theorem openVault_keyInvariant {ρ : Type} (v : SecureVault ρ) (pf : Platform) (host : Host)
    (fs : FileSystem) (P F : Bytes) (h : v.KeyInvariant) :
    (v.openVault pf host fs P F).2.KeyInvariant := by
  unfold SecureVault.openVault
  by_cases hP : P.isEmpty = true
  · simpa [hP] using h
  · simp only [hP, if_false]
    have hl := loadVaultFile_keyInvariant ({ v with vault_path_ := F }) fs h
    by_cases hr : (SecureVault.loadVaultFile { v with vault_path_ := F } fs).1 = true
    · simp only [hr, Bool.not_true, Bool.false_eq_true, if_false]
      split
      · exact ⟨hl.1.1, fun h => by cases h⟩
      · exact ⟨hl.1.1, fun h => by cases h⟩
      · split
        · exact ⟨hl.1.1, fun h => by cases h⟩
        · rename_i keyBuffer salt hk
          exact ⟨hl.1.1, fun _ => ⟨keyBuffer, rfl, deriveKey_size _ pf _ P _ keyBuffer salt hk⟩⟩
    · simp only [hr, Bool.not_false, if_true]
      exact hl.1

theorem createEntry_keyInvariant {ρ : Type} (v : SecureVault ρ) (R : StdRandom ρ) (host : Host)
    (label : Bytes) (h : v.KeyInvariant) : (v.createEntry R host label).2.KeyInvariant := by
  unfold SecureVault.createEntry
  dsimp only [SecureVault.updateActivity]
  repeat' split
  all_goals exact h

theorem saveEntry_keyInvariant {ρ : Type} (v : SecureVault ρ) (pf : Platform) (host : Host)
    (fs : FileSystem) (entry : VaultEntry) (h : v.KeyInvariant) :
    (v.saveEntry pf host fs entry).2.1.KeyInvariant := by
  unfold SecureVault.saveEntry
  dsimp only [SecureVault.updateActivity]
  repeat' split
  all_goals exact h

theorem getPassword_keyInvariant {ρ : Type} (v : SecureVault ρ) (host : Host)
    (entryId : Bytes) (h : v.KeyInvariant) : (v.getPassword host entryId).2.KeyInvariant := by
  unfold SecureVault.getPassword
  dsimp only [SecureVault.updateActivity]
  repeat' split
  all_goals exact h

theorem deleteEntry_keyInvariant {ρ : Type} (v : SecureVault ρ) (pf : Platform) (host : Host)
    (fs : FileSystem) (entryId : Bytes) (h : v.KeyInvariant) :
    (v.deleteEntry pf host fs entryId).2.1.KeyInvariant := by
  unfold SecureVault.deleteEntry
  dsimp only [SecureVault.updateActivity]
  repeat' split
  all_goals exact h

/-! ## C11 and C12: deleting an entry -/

theorem find?_eq_none_of_countP_zero (p : VaultEntry → Bool) (l : List VaultEntry)
    (h : l.countP p = 0) : l.find? p = none := by
  rw [List.find?_eq_none]
  intro x hx hpx
  have := List.countP_pos_iff.mpr ⟨x, hx, hpx⟩
  omega

theorem find?_isSome_of_countP_pos (p : VaultEntry → Bool) (l : List VaultEntry)
    (h : 0 < l.countP p) : ∃ y, l.find? p = some y := by
  obtain ⟨x, hx, hpx⟩ := List.countP_pos_iff.mp h
  cases hf : l.find? p with
  | some y => exact ⟨y, rfl⟩
  | none =>
    rw [List.find?_eq_none] at hf
    exact absurd hpx (hf x hx)

/-- Erasing the first match takes one off the number of matches. -/
theorem countP_eraseP (p : VaultEntry → Bool) (l : List VaultEntry) :
    (l.eraseP p).countP p = l.countP p - 1 := by
  induction l with
  | nil => rfl
  | cons a rest ih =>
    by_cases ha : p a = true
    · simp [List.eraseP_cons, ha, List.countP_cons]
    · have ha' : p a = false := by simpa using ha
      simp only [List.eraseP_cons, ha', cond_false, List.countP_cons, Bool.false_eq_true,
        if_false, Nat.add_zero]
      exact ih

/-- What `deleteEntry` does on an open vault when the id is stored. -/
theorem deleteEntry_present {ρ : Type} (v : SecureVault ρ) (pf : Platform) (host : Host)
    (fs : FileSystem) (entryId : Bytes) (hopen : v.is_open_ = true)
    (y : VaultEntry) (hfind : v.entries_.find? (fun e => e.id == entryId) = some y)
    (v1 : SecureVault ρ)
    (hv1 : v1 = { v with
      last_activity_ := host.steady_now
      entries_ := v.entries_.eraseP (fun e => e.id == entryId) }) :
    v.deleteEntry pf host fs entryId =
      ((v1.saveVaultFile pf host fs).1, v1, (v1.saveVaultFile pf host fs).2) := by
  subst hv1
  unfold SecureVault.deleteEntry
  simp only [hopen, Bool.not_true, Bool.false_eq_true, if_false, SecureVault.updateActivity,
    hfind]

/-- C11 (amended): for every Open vault and every id that occurs exactly once in its
record set, when the store can be written (non-empty, writable path)
`deleteEntry(id)` returns true and a subsequent `getEntry(id)` fails with
"Entry not found". -/
theorem deleteEntry_then_getEntry {ρ : Type} (v : SecureVault ρ) (pf : Platform) (host : Host)
    (fs : FileSystem) (entryId : Bytes) (hopen : v.is_open_ = true)
    (honce : v.entries_.countP (fun e => e.id == entryId) = 1)
    (hpath : v.vault_path_ ≠ []) (hw : fs.writable v.vault_path_ = true) :
    (v.deleteEntry pf host fs entryId).1 = true ∧
    (v.deleteEntry pf host fs entryId).2.1.getEntry entryId = .error .entry_not_found := by
  obtain ⟨y, hfind⟩ := find?_isSome_of_countP_pos (fun e => e.id == entryId) v.entries_
    (by rw [honce]; exact Nat.one_pos)
  rw [deleteEntry_present v pf host fs entryId hopen y hfind _ rfl]
  have hs := saveVaultFile_eq ({ v with
      last_activity_ := host.steady_now
      entries_ := v.entries_.eraseP (fun e => e.id == entryId) }) pf host fs hopen hpath hw
  rw [hs]
  refine ⟨rfl, ?_⟩
  have hnone := find?_eq_none_of_countP_zero (fun e => e.id == entryId)
    (v.entries_.eraseP (fun e => e.id == entryId)) (by rw [countP_eraseP, honce])
  unfold SecureVault.getEntry
  simp only [hopen, Bool.not_true, Bool.false_eq_true, if_false, hnone]

set_option maxRecDepth 100000 in
/-- C11 (amended) on the example vault holding the one entry "Mail". -/
theorem deleteEntry_then_getEntry_witness :
    (SecureVault.deleteEntry { exampleOpenVault with entries_ := [exampleEntry] }
      examplePlatform exampleHost exampleStore exampleEntry.id).1 = true ∧
    (SecureVault.deleteEntry { exampleOpenVault with entries_ := [exampleEntry] }
      examplePlatform exampleHost exampleStore exampleEntry.id).2.1.getEntry exampleEntry.id
        = .error .entry_not_found :=
  deleteEntry_then_getEntry { exampleOpenVault with entries_ := [exampleEntry] }
    examplePlatform exampleHost exampleStore exampleEntry.id (by decide) (by decide)
    (by decide) (by decide)

set_option maxRecDepth 100000 in
/-- C11 as stated fails: `open("correct-horse")` on a store file that holds two
records with one id loads both; the store can be written, `deleteEntry(id)` returns
true, and the subsequent `getEntry(id)` returns the second record. -/
theorem getEntry_after_deleteEntry_of_duplicate :
    (exampleVault.openVault examplePlatform exampleHost exampleDuplicateStore
      (lit "correct-horse") (lit "/tmp/v.store")).1 = true ∧
    (exampleVault.openVault examplePlatform exampleHost exampleDuplicateStore
      (lit "correct-horse") (lit "/tmp/v.store")).2.is_open_ = true ∧
    (∃ e ∈ (exampleVault.openVault examplePlatform exampleHost exampleDuplicateStore
      (lit "correct-horse") (lit "/tmp/v.store")).2.entries_, e.id = exampleEntry.id) ∧
    exampleDuplicateStore.writable (lit "/tmp/v.store") = true ∧
    ((exampleVault.openVault examplePlatform exampleHost exampleDuplicateStore
      (lit "correct-horse") (lit "/tmp/v.store")).2.deleteEntry examplePlatform exampleHost
        exampleDuplicateStore exampleEntry.id).1 = true ∧
    ((exampleVault.openVault examplePlatform exampleHost exampleDuplicateStore
      (lit "correct-horse") (lit "/tmp/v.store")).2.deleteEntry examplePlatform exampleHost
        exampleDuplicateStore exampleEntry.id).2.1.getEntry exampleEntry.id =
      .ok { exampleEntry with label := lit "Bank" } := by
  decide

/-- C12: for every Open vault and every id that does not occur in its record set,
`deleteEntry(id)` returns false, leaves the record set, key, salt, hash and path (and
everything but the last-activity time) as they were, and leaves the file system
untouched. -/
theorem deleteEntry_absent {ρ : Type} (v : SecureVault ρ) (pf : Platform) (host : Host)
    (fs : FileSystem) (entryId : Bytes) (hopen : v.is_open_ = true)
    (habsent : ∀ e ∈ v.entries_, e.id ≠ entryId) :
    v.deleteEntry pf host fs entryId =
      (false, { v with last_activity_ := host.steady_now }, fs) ∧
    (v.deleteEntry pf host fs entryId).2.1.entries_ = v.entries_ ∧
    (v.deleteEntry pf host fs entryId).2.1.vault_key_ = v.vault_key_ ∧
    (v.deleteEntry pf host fs entryId).2.1.vault_salt_ = v.vault_salt_ ∧
    (v.deleteEntry pf host fs entryId).2.1.master_hash_ = v.master_hash_ ∧
    (v.deleteEntry pf host fs entryId).2.1.vault_path_ = v.vault_path_ := by
  have hnone : v.entries_.find? (fun e => e.id == entryId) = none := by
    rw [List.find?_eq_none]
    intro x hx
    simpa using habsent x hx
  have h : v.deleteEntry pf host fs entryId =
      (false, { v with last_activity_ := host.steady_now }, fs) := by
    unfold SecureVault.deleteEntry
    simp only [hopen, Bool.not_true, Bool.false_eq_true, if_false, SecureVault.updateActivity,
      hnone]
  rw [h]
  exact ⟨rfl, rfl, rfl, rfl, rfl, rfl⟩

set_option maxRecDepth 100000 in
/-- C12 on the example vault holding the entry "Mail": deleting the id "none". -/
theorem deleteEntry_absent_witness :
    SecureVault.deleteEntry { exampleOpenVault with entries_ := [exampleEntry] }
        examplePlatform exampleHost exampleStore (lit "none") =
      (false, { ({ exampleOpenVault with entries_ := [exampleEntry] } : SecureVault Nat) with
        last_activity_ := exampleHost.steady_now }, exampleStore) :=
  (deleteEntry_absent { exampleOpenVault with entries_ := [exampleEntry] }
    examplePlatform exampleHost exampleStore (lit "none") (by decide) (by decide)).1

/-! ## C16: `saveEntry` upserts by id -/

theorem exists_first_match (p : VaultEntry → Bool) (l : List VaultEntry)
    (h : ∃ x ∈ l, p x = true) :
    ∃ pre e post, l = pre ++ e :: post ∧ (∀ x ∈ pre, p x = false) ∧ p e = true := by
  induction l with
  | nil => obtain ⟨x, hx, -⟩ := h; cases hx
  | cons a rest ih =>
    by_cases ha : p a = true
    · exact ⟨[], a, rest, rfl, fun x hx => absurd hx (List.not_mem_nil x), ha⟩
    · have ha' : p a = false := by simpa using ha
      obtain ⟨x, hx, hpx⟩ := h
      have hx' : x ∈ rest := by
        rcases List.mem_cons.mp hx with rfl | hx'
        · exact absurd hpx ha
        · exact hx'
      obtain ⟨pre, e, post, hl, hpre, he⟩ := ih ⟨x, hx', hpx⟩
      refine ⟨a :: pre, e, post, by rw [hl]; rfl, ?_, he⟩
      intro y hy
      rcases List.mem_cons.mp hy with rfl | hy'
      · exact ha'
      · exact hpre y hy'

theorem assignFirst_append (p : VaultEntry → Bool) (x : VaultEntry)
    (pre : List VaultEntry) (e : VaultEntry) (post : List VaultEntry)
    (hpre : ∀ y ∈ pre, p y = false) (he : p e = true) :
    SecureVault.assignFirst p x (pre ++ e :: post) = pre ++ x :: post := by
  induction pre with
  | nil => simp [SecureVault.assignFirst, he]
  | cons a rest ih =>
    have ha : p a = false := hpre a (List.mem_cons_self _ _)
    have ih' := ih (fun y hy => hpre y (List.mem_cons_of_mem _ hy))
    simp only [List.cons_append, SecureVault.assignFirst, ha, Bool.false_eq_true, if_false]
    exact congrArg (a :: ·) ih'

theorem find?_append_match (p : VaultEntry → Bool)
    (pre : List VaultEntry) (e : VaultEntry) (post : List VaultEntry)
    (hpre : ∀ y ∈ pre, p y = false) (he : p e = true) :
    (pre ++ e :: post).find? p = some e := by
  induction pre with
  | nil => simp [he]
  | cons a rest ih =>
    have ha : p a = false := hpre a (List.mem_cons_self _ _)
    simp only [List.cons_append, List.find?_cons, ha]
    exact ih (fun y hy => hpre y (List.mem_cons_of_mem _ hy))

/-- `saveEntry` on an open vault with an initialized codec: the state it leaves and
the write it attempts. -/
theorem saveEntry_eq {ρ : Type} (v : SecureVault ρ) (pf : Platform) (host : Host)
    (fs : FileSystem) (entry : VaultEntry) (hopen : v.is_open_ = true)
    (hinit : v.crypto_manager_.initialized = true) (v1 : SecureVault ρ)
    (hv1 : v1 = { v with
      last_activity_ := host.steady_now
      entries_ :=
        match v.entries_.find? (fun e => e.id == entry.id) with
        | some _ => SecureVault.assignFirst (fun e => e.id == entry.id)
            { entry with
              password := CryptoManager.toBase64 (CryptoManager.xorLoop v.key 0 entry.password) }
            v.entries_
        | none => v.entries_ ++ [{ entry with
            password := CryptoManager.toBase64
              (CryptoManager.xorLoop v.key 0 entry.password) }] }) :
    v.saveEntry pf host fs entry =
      ((v1.saveVaultFile pf host fs).1, v1, (v1.saveVaultFile pf host fs).2) := by
  subst hv1
  unfold SecureVault.saveEntry
  simp only [hopen, Bool.not_true, Bool.false_eq_true, if_false, SecureVault.updateActivity,
    CryptoManager.encrypt, hinit, SecureVault.key]
  cases hf : v.entries_.find? (fun e => e.id == entry.id) <;> rfl

/-- C16: for every Open vault (open, codec initialized, holding the key `k`) and
record `r`, `saveEntry(r)` upserts by id. The password of `r` is encrypted under
`k` and text-encoded. If some stored record has the id of `r`, the record set is
`pre ++ e :: post` with `e` the first record of that id, and it becomes
`pre ++ r' :: post`: same number and order, every other record unchanged. Otherwise
`r'` is appended at the end and the count grows by one. Here `r'` is `r` with the
encrypted password. -/
theorem saveEntry_upsert {ρ : Type} (v : SecureVault ρ) (pf : Platform) (host : Host)
    (fs : FileSystem) (r : VaultEntry) (hopen : v.is_open_ = true)
    (hinit : v.crypto_manager_.initialized = true)
    (k : SecureBuffer) (hk : v.vault_key_ = some k) :
    (∃ c, v.crypto_manager_.encrypt r.password k = .ok c ∧
      ((∃ x ∈ v.entries_, x.id = r.id) →
        ∃ pre e post, v.entries_ = pre ++ e :: post ∧ (∀ x ∈ pre, x.id ≠ r.id) ∧ e.id = r.id ∧
          (v.saveEntry pf host fs r).2.1.entries_ =
            pre ++ { r with password := CryptoManager.toBase64 c } :: post ∧
          (v.saveEntry pf host fs r).2.1.entries_.length = v.entries_.length) ∧
      ((∀ x ∈ v.entries_, x.id ≠ r.id) →
        (v.saveEntry pf host fs r).2.1.entries_ =
          v.entries_ ++ [{ r with password := CryptoManager.toBase64 c }] ∧
        (v.saveEntry pf host fs r).2.1.entries_.length = v.entries_.length + 1)) := by
  have hkey : v.key = k := by simp [SecureVault.key, hk]
  refine ⟨CryptoManager.xorLoop k 0 r.password, by simp [CryptoManager.encrypt, hinit], ?_, ?_⟩
  · intro hex
    obtain ⟨pre, e, post, hl, hpre, he⟩ := exists_first_match (fun x => x.id == r.id) v.entries_
      (by obtain ⟨x, hx, hid⟩ := hex; exact ⟨x, hx, by simp [hid]⟩)
    have hfind := find?_append_match (fun x => x.id == r.id) pre e post hpre he
    rw [← hl] at hfind
    refine ⟨pre, e, post, hl, fun x hx => by simpa using hpre x hx, by simpa using he, ?_⟩
    rw [saveEntry_eq v pf host fs r hopen hinit _ rfl]
    simp only [hfind, hkey]
    rw [hl, assignFirst_append _ _ pre e post hpre he]
    simp
  · intro hall
    have hnone : v.entries_.find? (fun x => x.id == r.id) = none := by
      rw [List.find?_eq_none]
      intro x hx
      simpa using hall x hx
    rw [saveEntry_eq v pf host fs r hopen hinit _ rfl]
    simp only [hnone, hkey]
    simp

set_option maxRecDepth 100000 in
/-- C16 on the example vault: saving the entry "Mail" into the empty record set. -/
theorem saveEntry_upsert_witness :
    (∃ c, exampleOpenVault.crypto_manager_.encrypt exampleEntry.password
        ⟨List.replicate 32 48⟩ = .ok c ∧
      ((∃ x ∈ exampleOpenVault.entries_, x.id = exampleEntry.id) →
        ∃ pre e post, exampleOpenVault.entries_ = pre ++ e :: post ∧
          (∀ x ∈ pre, x.id ≠ exampleEntry.id) ∧ e.id = exampleEntry.id ∧
          (exampleOpenVault.saveEntry examplePlatform exampleHost exampleStore
            exampleEntry).2.1.entries_ =
            pre ++ { exampleEntry with password := CryptoManager.toBase64 c } :: post ∧
          (exampleOpenVault.saveEntry examplePlatform exampleHost exampleStore
            exampleEntry).2.1.entries_.length = exampleOpenVault.entries_.length) ∧
      ((∀ x ∈ exampleOpenVault.entries_, x.id ≠ exampleEntry.id) →
        (exampleOpenVault.saveEntry examplePlatform exampleHost exampleStore
          exampleEntry).2.1.entries_ =
          exampleOpenVault.entries_ ++
            [{ exampleEntry with password := CryptoManager.toBase64 c }] ∧
        (exampleOpenVault.saveEntry examplePlatform exampleHost exampleStore
          exampleEntry).2.1.entries_.length = exampleOpenVault.entries_.length + 1)) :=
  saveEntry_upsert exampleOpenVault examplePlatform exampleHost exampleStore exampleEntry
    rfl rfl ⟨List.replicate 32 48⟩ rfl

/-! ## C14 and C15: operations that report failure -/

/-- `saveVaultFile` never touches the file system when it reports failure. -/
theorem saveVaultFile_false {ρ : Type} (v : SecureVault ρ) (pf : Platform) (host : Host)
    (fs : FileSystem) (h : (v.saveVaultFile pf host fs).1 = false) :
    (v.saveVaultFile pf host fs).2 = fs := by
  unfold SecureVault.saveVaultFile at h ⊢
  split
  · rfl
  · rename_i h1
    simp only [h1, if_false] at h
    split
    · rfl
    · rename_i h2
      simp [h2] at h

/-- The ways `createVault` reports failure for a non-empty passphrase: after an
exception the vault is closed and key, hash and salt are cleared; after a failed
write of the store the vault stays Open and keeps key, hash and salt. -/
theorem createVault_failure_cases {ρ : Type} (v : SecureVault ρ) (pf : Platform) (host : Host)
    (fs : FileSystem) (P F : Bytes) (hP : P ≠ [])
    (h : (v.createVault pf host fs P F).1 = false) :
    ((v.createVault pf host fs P F).2.1.is_open_ = false ∧
      (v.createVault pf host fs P F).2.1.vault_key_ = none ∧
      (v.createVault pf host fs P F).2.1.master_hash_ = [] ∧
      (v.createVault pf host fs P F).2.1.vault_salt_ = []) ∨
    ((F = [] ∨ fs.writable F = false) ∧
      (v.createVault pf host fs P F).2.1.is_open_ = true ∧
      (v.createVault pf host fs P F).2.1.vault_key_ ≠ none) := by
  have hne : P.isEmpty = false := by cases P <;> simp_all
  cases hs : v.crypto_manager_.generateSalt host.random_device with
  | error x =>
    left
    simp only [SecureVault.createVault, hne, Bool.false_eq_true, if_false, hs]
    exact ⟨rfl, rfl, rfl, rfl⟩
  | ok salt =>
    cases hk : v.crypto_manager_.deriveKey pf host.random_device P salt with
    | error x =>
      left
      simp only [SecureVault.createVault, hne, Bool.false_eq_true, if_false, hs, hk]
      exact ⟨rfl, rfl, rfl, rfl⟩
    | ok r =>
      obtain ⟨key, salt2⟩ := r
      cases hh : v.crypto_manager_.hashMasterPassword pf P salt2 with
      | error x =>
        left
        simp only [SecureVault.createVault, hne, Bool.false_eq_true, if_false, hs, hk, hh]
        exact ⟨rfl, rfl, rfl, rfl⟩
      | ok hash =>
        right
        simp only [SecureVault.createVault, hne, Bool.false_eq_true, if_false, hs, hk, hh,
          SecureVault.updateActivity] at h ⊢
        refine ⟨?_, trivial, by simp⟩
        unfold SecureVault.saveVaultFile at h
        by_cases hF : F = []
        · exact Or.inl hF
        · have hFe : F.isEmpty = false := by cases F <;> simp_all
          by_cases hw : fs.writable F = true
          · simp [hFe, hw] at h
          · exact Or.inr (by simpa using hw)

set_option maxRecDepth 100000 in
/-- C14 (the code at the failing input): `create("correct-horse", "/tmp/v.store")` on
a store that cannot be written reports failure, and afterwards the vault is Open
and still holds the derived key, the verification hash and the salt. -/
theorem createVault_failed_write_leaves_vault_open :
    lit "correct-horse" ≠ [] ∧
    (exampleVault.createVault examplePlatform exampleHost exampleReadOnlyStore
      (lit "correct-horse") (lit "/tmp/v.store")).1 = false ∧
    (exampleVault.createVault examplePlatform exampleHost exampleReadOnlyStore
      (lit "correct-horse") (lit "/tmp/v.store")).2.1.isOpen = true ∧
    (exampleVault.createVault examplePlatform exampleHost exampleReadOnlyStore
      (lit "correct-horse") (lit "/tmp/v.store")).2.1.vault_key_ =
        some ⟨List.replicate 32 48⟩ ∧
    (exampleVault.createVault examplePlatform exampleHost exampleReadOnlyStore
      (lit "correct-horse") (lit "/tmp/v.store")).2.1.master_hash_ =
        lit "MDAwMDAwMDAwMDAwMDAwMDAwMDAwMDAwMDAwMDAwMDA=" ∧
    (exampleVault.createVault examplePlatform exampleHost exampleReadOnlyStore
      (lit "correct-horse") (lit "/tmp/v.store")).2.1.vault_salt_ =
        lit "AxQlNkdYaXqLnK2+z+DxAhMkNUZXaHmKm6y9zt/wARI=" := by
  decide

theorem saveEntry_not_initialized {ρ : Type} (v : SecureVault ρ) (pf : Platform) (host : Host)
    (fs : FileSystem) (record : VaultEntry) (ho : v.is_open_ = true)
    (hi : v.crypto_manager_.initialized = false) :
    v.saveEntry pf host fs record = (false, { v with last_activity_ := host.steady_now }, fs) := by
  simp [SecureVault.saveEntry, ho, CryptoManager.encrypt, SecureVault.updateActivity, hi]

/-- A reported failure of `saveEntry(record)` or `deleteEntry(id)` leaves the file
system as it was, and the vault state either call leaves, the record set included,
does not depend on the file system: on an Open vault with an initialized codec the
record set holds a record with the id of `record` after `saveEntry`, and lacks the
first record with the id after `deleteEntry`, whether or not the write succeeds. -/
theorem failed_persist_keeps_update {ρ : Type} (v : SecureVault ρ) (pf : Platform) (host : Host)
    (fs fs' : FileSystem) (record : VaultEntry) (entryId : Bytes) :
    ((v.saveEntry pf host fs record).1 = false → (v.saveEntry pf host fs record).2.2 = fs) ∧
    (v.saveEntry pf host fs record).2.1 = (v.saveEntry pf host fs' record).2.1 ∧
    (v.is_open_ = true → v.crypto_manager_.initialized = true →
      ∃ x ∈ (v.saveEntry pf host fs record).2.1.entries_, x.id = record.id) ∧
    ((v.deleteEntry pf host fs entryId).1 = false →
      (v.deleteEntry pf host fs entryId).2.2 = fs) ∧
    (v.deleteEntry pf host fs entryId).2.1 = (v.deleteEntry pf host fs' entryId).2.1 ∧
    (v.is_open_ = true →
      (v.deleteEntry pf host fs entryId).2.1.entries_ =
        v.entries_.eraseP (fun e => e.id == entryId)) := by
  refine ⟨?_, ?_, ?_, ?_, ?_, ?_⟩
  · intro h
    by_cases ho : v.is_open_ = true
    · cases hi : v.crypto_manager_.initialized with
      | true =>
        rw [saveEntry_eq v pf host fs record ho hi _ rfl] at h ⊢
        exact saveVaultFile_false _ pf host fs h
      | false => rw [saveEntry_not_initialized v pf host fs record ho hi]
    · simp [SecureVault.saveEntry, ho]
  · by_cases ho : v.is_open_ = true
    · cases hi : v.crypto_manager_.initialized with
      | true =>
        rw [saveEntry_eq v pf host fs record ho hi _ rfl,
          saveEntry_eq v pf host fs' record ho hi _ rfl]
      | false =>
        rw [saveEntry_not_initialized v pf host fs record ho hi,
          saveEntry_not_initialized v pf host fs' record ho hi]
    · simp [SecureVault.saveEntry, ho]
  · intro hopen hinit
    have hst := (saveEntry_stored v pf host fs record hopen hinit).1
    exact ⟨_, List.mem_of_find?_eq_some hst, rfl⟩
  · intro h
    by_cases ho : v.is_open_ = true
    · cases hf : v.entries_.find? (fun e => e.id == entryId) with
      | some y =>
        rw [deleteEntry_present v pf host fs entryId ho y hf _ rfl] at h ⊢
        exact saveVaultFile_false _ pf host fs h
      | none => simp [SecureVault.deleteEntry, ho, hf, SecureVault.updateActivity]
    · simp [SecureVault.deleteEntry, ho]
  · by_cases ho : v.is_open_ = true
    · cases hf : v.entries_.find? (fun e => e.id == entryId) with
      | some y =>
        rw [deleteEntry_present v pf host fs entryId ho y hf _ rfl,
          deleteEntry_present v pf host fs' entryId ho y hf _ rfl]
      | none => simp [SecureVault.deleteEntry, ho, hf, SecureVault.updateActivity]
    · simp [SecureVault.deleteEntry, ho]
  · intro hopen
    cases hf : v.entries_.find? (fun e => e.id == entryId) with
    | some y => rw [deleteEntry_present v pf host fs entryId hopen y hf _ rfl]
    | none =>
      simp only [SecureVault.deleteEntry, hopen, Bool.not_true, Bool.false_eq_true, if_false,
        SecureVault.updateActivity, hf]
      rw [List.find?_eq_none] at hf
      rw [List.eraseP_of_forall_not]
      intro a ha
      exact hf a ha

set_option maxRecDepth 100000 in
/-- C15 (the code at the failing input): on a store that cannot be written `saveEntry`
of the entry "Mail" on the open example vault reports failure, and the record set,
empty before, holds a record afterwards; `deleteEntry` on the vault holding "Mail"
reports failure, and the record set is empty afterwards. -/
theorem failed_persist_changes_record_set :
    exampleOpenVault.is_open_ = true ∧
    exampleOpenVault.entries_ = [] ∧
    (exampleOpenVault.saveEntry examplePlatform exampleHost exampleReadOnlyStore
      exampleEntry).1 = false ∧
    (exampleOpenVault.saveEntry examplePlatform exampleHost exampleReadOnlyStore
      exampleEntry).2.1.entries_ ≠ exampleOpenVault.entries_ ∧
    (SecureVault.deleteEntry { exampleOpenVault with entries_ := [exampleEntry] }
      examplePlatform exampleHost exampleReadOnlyStore exampleEntry.id).1 = false ∧
    (SecureVault.deleteEntry { exampleOpenVault with entries_ := [exampleEntry] }
      examplePlatform exampleHost exampleReadOnlyStore exampleEntry.id).2.1.entries_ ≠
        [exampleEntry] := by
  decide

/-- The ways `saveEntry` reports failure: on a closed vault or after an exception the
record set is as it was; otherwise the write of the store failed and the record set
has been updated. -/
theorem saveEntry_failure_cases {ρ : Type} (v : SecureVault ρ) (pf : Platform) (host : Host)
    (fs : FileSystem) (record : VaultEntry)
    (h : (v.saveEntry pf host fs record).1 = false) :
    (v.saveEntry pf host fs record).2.1.entries_ = v.entries_ ∨
    (v.is_open_ = true ∧ v.crypto_manager_.initialized = true ∧
      (v.vault_path_ = [] ∨ fs.writable v.vault_path_ = false)) := by
  by_cases ho : v.is_open_ = true
  · cases hi : v.crypto_manager_.initialized with
    | false =>
      left
      rw [saveEntry_not_initialized v pf host fs record ho hi]
    | true =>
      right
      refine ⟨ho, rfl, ?_⟩
      rw [saveEntry_eq v pf host fs record ho hi _ rfl] at h
      by_cases hp : v.vault_path_ = []
      · exact Or.inl hp
      · right
        have hpe : v.vault_path_.isEmpty = false := by
          cases hv : v.vault_path_ <;> simp_all
        by_cases hw : fs.writable v.vault_path_ = true
        · simp [SecureVault.saveVaultFile, ho, hpe, hw] at h
        · simpa using hw
  · left
    simp [SecureVault.saveEntry, ho]

/-- The ways `deleteEntry` reports failure: on a closed vault or for an absent id the
record set is as it was; otherwise the write of the store failed and the record has
been removed. -/
theorem deleteEntry_failure_cases {ρ : Type} (v : SecureVault ρ) (pf : Platform) (host : Host)
    (fs : FileSystem) (entryId : Bytes)
    (h : (v.deleteEntry pf host fs entryId).1 = false) :
    (v.deleteEntry pf host fs entryId).2.1.entries_ = v.entries_ ∨
    (v.is_open_ = true ∧ (v.vault_path_ = [] ∨ fs.writable v.vault_path_ = false) ∧
      (v.deleteEntry pf host fs entryId).2.1.entries_ =
        v.entries_.eraseP (fun e => e.id == entryId)) := by
  by_cases ho : v.is_open_ = true
  · cases hf : v.entries_.find? (fun e => e.id == entryId) with
    | none =>
      left
      simp [SecureVault.deleteEntry, ho, hf, SecureVault.updateActivity]
    | some y =>
      right
      rw [deleteEntry_present v pf host fs entryId ho y hf _ rfl] at h ⊢
      refine ⟨ho, ?_, rfl⟩
      by_cases hp : v.vault_path_ = []
      · exact Or.inl hp
      · right
        have hpe : v.vault_path_.isEmpty = false := by
          cases hv : v.vault_path_ <;> simp_all
        by_cases hw : fs.writable v.vault_path_ = true
        · simp [SecureVault.saveVaultFile, ho, hpe, hw] at h
        · simpa using hw
  · left
    simp [SecureVault.deleteEntry, ho]

/-! ## C13: the record set survives the store -/

theorem fromJson_toJson (pf : Platform) (e : VaultEntry) :
    VaultEntry.fromJson (.document (.object
      (match VaultEntry.toJson pf e with
        | .document doc => QJsonValue.object doc.toObject
        | .malformed => QJsonValue.object []).toObject)) = .ok (e.viaQString pf) := by
  rfl

/-- Loading the entries array that `saveVaultFile` writes gives back the entries,
each field converted through `QString`. -/
theorem loadEntriesLoop_saved (pf : Platform) (l acc : List VaultEntry) :
    SecureVault.loadEntriesLoop (l.map (fun entry =>
      match VaultEntry.toJson pf entry with
      | .document doc => QJsonValue.object doc.toObject
      | .malformed => QJsonValue.object [])) acc =
    (acc ++ l.map (VaultEntry.viaQString pf), none) := by
  induction l generalizing acc with
  | nil => simp [SecureVault.loadEntriesLoop]
  | cons e rest ih =>
    simp only [List.map_cons, SecureVault.loadEntriesLoop]
    have hobj : (match VaultEntry.toJson pf e with
        | .document doc => QJsonValue.object doc.toObject
        | .malformed => QJsonValue.object []).isObject = true := rfl
    rw [if_pos hobj, fromJson_toJson]
    simp only [ih]
    simp

theorem toObject_object (members : List (Bytes × QJsonValue)) :
    (QJsonValue.object members).toObject = members := rfl

theorem toArray_array (items : List QJsonValue) :
    (QJsonValue.array items).toArray = items := rfl

theorem toStdString_string (s : Bytes) : (QJsonValue.string s).toStdString = s := rfl

/-- Opening the store a vault has just saved, with a passphrase that hashes to the
saved hash and derives a key under the saved salt: the vault opens and holds the
saved records, each field converted through `QString`. -/
theorem openVault_after_save {ρ : Type} (v w : SecureVault ρ) (pf : Platform) (hs ho : Host)
    (fs : FileSystem) (P : Bytes) (key : SecureBuffer)
    (hopen : v.is_open_ = true) (hpath : v.vault_path_ ≠ [])
    (hw : fs.writable v.vault_path_ = true)
    (hcm : w.crypto_manager_ = v.crypto_manager_)
    (hinit : v.crypto_manager_.initialized = true)
    (hP : P ≠ []) (hsne : v.vault_salt_ ≠ [])
    (hsalt : pf.utf8 v.vault_salt_ = v.vault_salt_)
    (hhash : pf.utf8 v.master_hash_ = v.master_hash_)
    (hh : v.crypto_manager_.hashMasterPassword pf P v.vault_salt_ = .ok v.master_hash_)
    (hk : v.crypto_manager_.deriveKey pf hs.random_device P v.vault_salt_ =
      .ok (key, v.vault_salt_)) :
    w.openVault pf ho (v.saveVaultFile pf hs fs).2 P v.vault_path_ =
      (true, { w with
        vault_path_ := v.vault_path_
        vault_salt_ := v.vault_salt_
        master_hash_ := v.master_hash_
        entries_ := v.entries_.map (VaultEntry.viaQString pf)
        vault_key_ := some key
        is_open_ := true
        last_activity_ := ho.steady_now }) := by
  rw [saveVaultFile_eq v pf hs fs hopen hpath hw]
  dsimp only
  rw [openVault_of_document w pf ho _ P v.vault_path_ hP _ (files_write_same fs _ _)
    (v.entries_.map (VaultEntry.viaQString pf))
    (by
      rw [toObject_object, value_entries, toArray_array]
      exact (loadEntriesLoop_saved pf v.entries_ []).trans rfl) _ rfl]
  simp only [toObject_object, value_salt, value_master_hash, toStdString_string,
    hsalt, hhash, hcm]
  rw [verifyMasterPassword_of_hash _ pf P _ _ _ hh]
  simp only [decide_True]
  rw [deriveKey_salt_indep _ hinit pf ho.random_device hs.random_device P _ hsne, hk]

/-- The state `createEntry` leaves: only the engine of the generator and the
last-activity time change. -/
theorem createEntry_state {ρ : Type} (v : SecureVault ρ) (R : StdRandom ρ) (host : Host)
    (label : Bytes) (e : VaultEntry) (v1 : SecureVault ρ)
    (h : v.createEntry R host label = (.ok e, v1)) :
    ∃ g, v1 = { v with password_generator_ := g, last_activity_ := host.steady_now } := by
  unfold SecureVault.createEntry at h
  split at h
  · cases h
  · dsimp only [SecureVault.updateActivity] at h
    split at h
    · cases h
    · simp only [Prod.mk.injEq] at h
      exact ⟨_, h.2.symm⟩

theorem createEntry_label_ne {ρ : Type} (v : SecureVault ρ) (R : StdRandom ρ) (host : Host)
    (label : Bytes) (e : VaultEntry) (v1 : SecureVault ρ)
    (h : v.createEntry R host label = (.ok e, v1)) : v.is_open_ = true ∧ label ≠ [] := by
  unfold SecureVault.createEntry at h
  split at h
  · cases h
  · rename_i hc
    simp only [Bool.or_eq_true, Bool.not_eq_true', not_or, Bool.not_eq_false] at hc
    refine ⟨hc.1, ?_⟩
    intro h0
    subst h0
    simp at hc

theorem utf8_toBase64 (pf : Platform) (data : Bytes) :
    pf.utf8 (CryptoManager.toBase64 data) = CryptoManager.toBase64 data :=
  pf.utf8_ascii _ (fun b hb => (toBase64_ascii data b hb).2)

/-- C13 (amended): after a successful `create(P, F)`, `createEntry(label)` returning
`e` for a label that is UTF-8 text (the conversion to `QString` and back keeps it,
as it keeps the generated id), a successful `saveEntry(e)`, `close()` and
`open(P, F)`, on a file system that returns what was written: `open` succeeds,
`listEntries()` is exactly `[(e.id, label)]`, and `getPassword(e.id)` returns
`e.password`, the 64-character plaintext of `createEntry`. -/
theorem vault_survives_store {ρ : Type} (v : SecureVault ρ) (R : StdRandom ρ) (pf : Platform)
    (hc he hs ho hr : Host) (fs : FileSystem) (P F label : Bytes)
    (hinit : v.crypto_manager_.initialized = true)
    (v1 : SecureVault ρ) (fs1 : FileSystem)
    (hcreate : v.createVault pf hc fs P F = (true, v1, fs1))
    (e : VaultEntry) (v2 : SecureVault ρ)
    (hentry : v1.createEntry R he label = (.ok e, v2))
    (v3 : SecureVault ρ) (fs3 : FileSystem)
    (hsave : v2.saveEntry pf hs fs1 e = (true, v3, fs3))
    (hid : pf.utf8 e.id = e.id) (hlabel : pf.utf8 label = label) :
    (v3.closeVault.openVault pf ho fs3 P F).1 = true ∧
    (v3.closeVault.openVault pf ho fs3 P F).2.getEntryLabels = [(e.id, label)] ∧
    ((v3.closeVault.openVault pf ho fs3 P F).2.getPassword hr e.id).1 = .ok e.password ∧
    e.password.length = 64 := by
  -- the created vault
  obtain ⟨hP, hF, hw, salt, key, hsalt, hk⟩ :=
    createVault_true_inv v pf hc fs P F hinit (by rw [hcreate])
  have hsne := generateSalt_ne_nil _ _ _ hsalt
  have hh := hashMasterPassword_of_deriveKey _ hinit pf _ P _ hsne key _ hk
  rw [createVault_ok v pf hc fs P F hinit hP hF hw salt key hsalt hk] at hcreate
  simp only [Prod.mk.injEq, true_and] at hcreate
  obtain ⟨hv1, hfs1⟩ := hcreate
  -- the entry
  obtain ⟨hopen1, hlne⟩ := createEntry_label_ne v1 R he label e v2 hentry
  obtain ⟨-, hel, -, -, hlen, hascii, -, -, -, -⟩ :=
    createEntry_ok v1 R he label hopen1 hlne e v2 hentry
  obtain ⟨g, hv2⟩ := createEntry_state v1 R he label e v2 hentry
  have hbytes : IsBytes e.password := fun c hc => lt_trans (hascii c hc) (by norm_num)
  have h2open : v2.is_open_ = true := by rw [hv2, ← hv1]
  have h2cm : v2.crypto_manager_ = v.crypto_manager_ := by rw [hv2, ← hv1]
  have h2key : v2.vault_key_ = some key := by rw [hv2, ← hv1]
  have h2entries : v2.entries_ = [] := by rw [hv2, ← hv1]
  have h2path : v2.vault_path_ = F := by rw [hv2, ← hv1]
  have h2salt : v2.vault_salt_ = salt := by rw [hv2, ← hv1]
  have h2hash : v2.master_hash_ = CryptoManager.toBase64 key.bytes := by rw [hv2, ← hv1]
  have h2init : v2.crypto_manager_.initialized = true := by rw [h2cm]; exact hinit
  -- the save
  rw [saveEntry_eq v2 pf hs fs1 e h2open h2init _ rfl] at hsave
  simp only [Prod.mk.injEq] at hsave
  obtain ⟨-, hv3, hfs3⟩ := hsave
  rw [hv3] at hfs3
  simp only [h2entries, List.find?_nil, List.nil_append, SecureVault.key, h2key,
    Option.getD_some] at hv3
  have h3open : v3.is_open_ = true := by rw [← hv3]; exact h2open
  have h3cm : v3.crypto_manager_ = v.crypto_manager_ := by rw [← hv3]; exact h2cm
  have h3entries : v3.entries_ = [{ e with
      password := CryptoManager.toBase64 (CryptoManager.xorLoop key 0 e.password) }] := by
    rw [← hv3]
  have h3path : v3.vault_path_ = F := by rw [← hv3]; exact h2path
  have h3salt : v3.vault_salt_ = salt := by rw [← hv3]; exact h2salt
  have h3hash : v3.master_hash_ = CryptoManager.toBase64 key.bytes := by rw [← hv3]; exact h2hash
  have hw1 : fs1.writable F = true := by rw [← hfs1]; exact hw
  -- the reopened vault
  have hopen := openVault_after_save v3 v3.closeVault pf hs ho fs1 P key h3open
    (by rw [h3path]; exact hF) (by rw [h3path]; exact hw1) rfl
    (by rw [h3cm]; exact hinit) hP (by rw [h3salt]; exact hsne)
    (by rw [h3salt]; exact pf.utf8_ascii _ (generateSalt_ascii _ _ _ hsalt))
    (by rw [h3hash]; exact utf8_toBase64 pf _)
    (by rw [h3cm, h3salt, h3hash]; exact hh)
    (by
      rw [h3cm, h3salt]
      rw [deriveKey_salt_indep _ hinit pf hs.random_device hc.random_device P _ hsne]
      exact hk)
  rw [hfs3, h3path] at hopen
  rw [hopen]
  refine ⟨rfl, ?_, ?_, hlen⟩
  · simp only [SecureVault.getEntryLabels, Bool.not_true, Bool.false_eq_true, if_false,
      h3entries, List.map_cons, List.map_nil, VaultEntry.viaQString, hid, hel, hlabel]
  · simp only [SecureVault.getPassword, Bool.not_true, Bool.false_eq_true, if_false,
      SecureVault.updateActivity, h3entries, List.map_cons, List.map_nil,
      VaultEntry.viaQString, hid, List.find?_cons, beq_self_eq_true, utf8_toBase64,
      CryptoManager.decrypt, SecureVault.closeVault, SecureVault.closeVaultStorage,
      SecureVault.clearSensitiveData, SecureVault.clearSensitiveDataStorage, h3cm,
      hinit, SecureVault.key, Option.getD_some]
    rw [fromBase64_toBase64 _ (xorLoop_isBytes _ _ _), xorLoop_involutive _ _ hbytes]

set_option maxRecDepth 100000 in
/-- C13 (amended) on the example vault: passphrase "correct-horse", path "/tmp/v.store", label
"Mail". -/
theorem vault_survives_store_witness :
    (((exampleOpenVault.createEntry exampleRandom exampleHost (lit "Mail")).2.saveEntry
      examplePlatform exampleHost exampleStore exampleEntry).2.1.closeVault.openVault
        examplePlatform exampleHost
        ((exampleOpenVault.createEntry exampleRandom exampleHost (lit "Mail")).2.saveEntry
          examplePlatform exampleHost exampleStore exampleEntry).2.2
        (lit "correct-horse") (lit "/tmp/v.store")).1 = true ∧
    (((exampleOpenVault.createEntry exampleRandom exampleHost (lit "Mail")).2.saveEntry
      examplePlatform exampleHost exampleStore exampleEntry).2.1.closeVault.openVault
        examplePlatform exampleHost
        ((exampleOpenVault.createEntry exampleRandom exampleHost (lit "Mail")).2.saveEntry
          examplePlatform exampleHost exampleStore exampleEntry).2.2
        (lit "correct-horse") (lit "/tmp/v.store")).2.getEntryLabels =
      [(exampleEntry.id, lit "Mail")] ∧
    ((((exampleOpenVault.createEntry exampleRandom exampleHost (lit "Mail")).2.saveEntry
      examplePlatform exampleHost exampleStore exampleEntry).2.1.closeVault.openVault
        examplePlatform exampleHost
        ((exampleOpenVault.createEntry exampleRandom exampleHost (lit "Mail")).2.saveEntry
          examplePlatform exampleHost exampleStore exampleEntry).2.2
        (lit "correct-horse") (lit "/tmp/v.store")).2.getPassword exampleHost
          exampleEntry.id).1 = .ok exampleEntry.password ∧
    exampleEntry.password.length = 64 :=
  vault_survives_store exampleVault exampleRandom examplePlatform exampleHost exampleHost
    exampleHost exampleHost exampleHost exampleFileSystem (lit "correct-horse")
    (lit "/tmp/v.store") (lit "Mail") rfl exampleOpenVault exampleStore rfl exampleEntry
    (exampleOpenVault.createEntry exampleRandom exampleHost (lit "Mail")).2 rfl
    ((exampleOpenVault.createEntry exampleRandom exampleHost (lit "Mail")).2.saveEntry
      examplePlatform exampleHost exampleStore exampleEntry).2.1
    ((exampleOpenVault.createEntry exampleRandom exampleHost (lit "Mail")).2.saveEntry
      examplePlatform exampleHost exampleStore exampleEntry).2.2 rfl rfl rfl

set_option maxRecDepth 100000 in
/-- C13 as stated fails: with a text conversion that replaces invalid bytes, as
`QString::fromStdString` does, `create("correct-horse", "/tmp/v.store")`,
`createEntry` with the one-byte label 0xFF and `saveEntry` succeed, and after
`close()` and `open("correct-horse", "/tmp/v.store")` the one pair `listEntries()`
returns carries the label EF BF BD instead of the label given. -/
theorem label_does_not_survive_store :
    (exampleVault.createVault exampleUtf8Platform exampleHost exampleFileSystem
      (lit "correct-horse") (lit "/tmp/v.store")).1 = true ∧
    ((exampleVault.createVault exampleUtf8Platform exampleHost exampleFileSystem
      (lit "correct-horse") (lit "/tmp/v.store")).2.1.createEntry exampleRandom exampleHost
        [255]).1 = .ok { exampleEntry with label := [255] } ∧
    exampleUtf8Saved.1 = true ∧
    (exampleUtf8Saved.2.1.closeVault.openVault exampleUtf8Platform exampleHost
      exampleUtf8Saved.2.2 (lit "correct-horse") (lit "/tmp/v.store")).1 = true ∧
    (exampleUtf8Saved.2.1.closeVault.openVault exampleUtf8Platform exampleHost
      exampleUtf8Saved.2.2 (lit "correct-horse") (lit "/tmp/v.store")).2.getEntryLabels =
      [(exampleEntry.id, [239, 191, 189])] ∧
    (exampleUtf8Saved.2.1.closeVault.openVault exampleUtf8Platform exampleHost
      exampleUtf8Saved.2.2 (lit "correct-horse") (lit "/tmp/v.store")).2.getEntryLabels ≠
      [(exampleEntry.id, [255])] := by
  decide

/-! ## C18 and C19: failures of `open`, and the uninitialized codec -/

/-- `openVault` with a non-empty passphrase on a file that cannot be read or parsed:
it returns false right after setting the path, without `closeVault`. -/
theorem openVault_load_failure {ρ : Type} (v : SecureVault ρ) (pf : Platform) (host : Host)
    (fs : FileSystem) (P F : Bytes) (hP : P ≠ [])
    (hfile : fs.files F = none ∨ fs.files F = some .malformed) :
    v.openVault pf host fs P F = (false, { v with vault_path_ := F }) := by
  have hne : P.isEmpty = false := by cases P <;> simp_all
  unfold SecureVault.openVault SecureVault.loadVaultFile
  rcases hfile with h | h <;> simp [hne, h]

set_option maxRecDepth 100000 in
/-- C18 (the code at the failing input): from the same Closed vault, `open("wrong")`
fails on the well-formed store made with "correct-horse" and fails on a store whose
file is not JSON; both calls return false and leave the vault closed, but
`verifyIntegrity()` is false after the first and true after the second. -/
theorem open_failures_differ_in_verifyIntegrity :
    exampleVault.isOpen = false ∧
    (exampleVault.openVault examplePlatform exampleHost exampleStore
      (lit "wrong") (lit "/tmp/v.store")).1 = false ∧
    (exampleVault.openVault examplePlatform exampleHost exampleMalformedStore
      (lit "wrong") (lit "/tmp/v.store")).1 = false ∧
    (exampleVault.openVault examplePlatform exampleHost exampleStore
      (lit "wrong") (lit "/tmp/v.store")).2.isOpen = false ∧
    (exampleVault.openVault examplePlatform exampleHost exampleMalformedStore
      (lit "wrong") (lit "/tmp/v.store")).2.isOpen = false ∧
    (exampleVault.openVault examplePlatform exampleHost exampleStore
      (lit "wrong") (lit "/tmp/v.store")).2.verifyIntegrity exampleStore = false ∧
    (exampleVault.openVault examplePlatform exampleHost exampleMalformedStore
      (lit "wrong") (lit "/tmp/v.store")).2.verifyIntegrity exampleMalformedStore = true := by
  decide

set_option maxRecDepth 100000 in
/-- C19 (the code at the failing input): on a codec whose `initialize()` was never
called, `deriveKey`, `encrypt` and `decrypt` throw "CryptoManager not initialized"
for every input, while `generateSalt`, `hashMasterPassword` and
`verifyMasterPassword` return results: a salt, the hash of "pw" under the salt
"c2FsdA==", and true for that hash. -/
theorem uninitialized_codec_hashes_and_salts :
    CryptoManager.new.initialized = false ∧
    (∀ (pf : Platform) (rd : RandomDevice) (P S : Bytes),
      CryptoManager.new.deriveKey pf rd P S = .error .crypto_not_initialized) ∧
    (∀ (T : Bytes) (K : SecureBuffer),
      CryptoManager.new.encrypt T K = .error .crypto_not_initialized) ∧
    (∀ (C : Bytes) (K : SecureBuffer),
      CryptoManager.new.decrypt C K = .error .crypto_not_initialized) ∧
    CryptoManager.new.generateSalt exampleHost.random_device =
      .ok (lit "AxQlNkdYaXqLnK2+z+DxAhMkNUZXaHmKm6y9zt/wARI=") ∧
    CryptoManager.new.hashMasterPassword examplePlatform (lit "pw") (lit "c2FsdA==") =
      .ok (lit "AwMDAwMDAwMDAwMDAwMDAwMDAwMDAwMDAwMDAwMDAwM=") ∧
    CryptoManager.new.verifyMasterPassword examplePlatform (lit "pw")
      (lit "AwMDAwMDAwMDAwMDAwMDAwMDAwMDAwMDAwMDAwMDAwM=") (lit "c2FsdA==") = .ok true := by
  refine ⟨rfl, ?_, ?_, ?_, ?_, ?_, ?_⟩
  · intro pf rd P S
    exact deriveKey_not_initialized _ rfl pf rd P S
  · intro T K
    rfl
  · intro C K
    rfl
  · decide
  · decide
  · decide

/-! ## C17: stores without salt or verification hash -/

/-- The loop over the entries array never ends with an exception: each object is
re-serialised before `fromJson` parses it. -/
theorem loadEntriesLoop_none (l : List QJsonValue) (acc : List VaultEntry) :
    (SecureVault.loadEntriesLoop l acc).2 = none := by
  induction l generalizing acc with
  | nil => rfl
  | cons value rest ih =>
    unfold SecureVault.loadEntriesLoop
    by_cases hobj : value.isObject = true
    · rw [if_pos hobj]
      exact ih _
    · rw [if_neg hobj]
      exact ih _

/-- A hash `hashMasterPassword` returns is not the empty string. -/
theorem hashMasterPassword_ne_nil (cm : CryptoManager) (pf : Platform) (P S hash : Bytes)
    (h : cm.hashMasterPassword pf P S = .ok hash) : hash ≠ [] := by
  rw [hashMasterPassword_eq] at h
  cases hc : pf.have_crypto_libs
  · simp only [hc, if_false, Bool.false_eq_true, Except.ok.injEq] at h
    rw [← h]
    apply toBase64_ne_nil
    intro h0
    have := sha256Rounds_length pf 9999 (pf.utf8 P ++ pf.utf8 (CryptoManager.fromBase64 S))
    rw [h0] at this
    cases this
  · simp only [hc, if_true] at h
    cases ha : pf.argon2id_hash_raw 3 65536 4 P (CryptoManager.fromBase64 S) 32 with
    | error code => rw [ha] at h; cases h
    | ok out =>
      rw [ha] at h
      cases h
      apply toBase64_ne_nil
      intro h0
      have := pf.argon2_length _ _ _ _ _ _ _ ha
      rw [h0] at this
      cases this

/-- A field that is missing or not a string reads as the empty string. -/
theorem toStdString_of_not_string (x : QJsonValue) (h : ∀ s, x ≠ .string s) :
    x.toStdString = [] := by
  cases x with
  | string s => exact absurd rfl (h s)
  | null => rfl
  | bool b => rfl
  | double d => rfl
  | array items => rfl
  | object members => rfl

/-- `openVault` on a file that parses and whose hash the passphrase does not verify
against: it returns false and leaves the vault closed. -/
theorem openVault_not_verified {ρ : Type} (v : SecureVault ρ) (pf : Platform) (host : Host)
    (fs : FileSystem) (P F : Bytes) (hP : P ≠ [])
    (doc : QJsonValue) (hfile : fs.files F = some (.document doc))
    (hhash : v.crypto_manager_.hashMasterPassword pf P
        (QJsonObject.value doc.toObject (lit "salt")).toStdString ≠
      .ok (QJsonObject.value doc.toObject (lit "master_hash")).toStdString) :
    (v.openVault pf host fs P F).1 = false ∧ (v.openVault pf host fs P F).2.is_open_ = false := by
  have hentries : SecureVault.loadEntriesLoop
      (QJsonObject.value doc.toObject (lit "entries")).toArray [] =
      ((SecureVault.loadEntriesLoop
        (QJsonObject.value doc.toObject (lit "entries")).toArray []).1, none) := by
    rw [← loadEntriesLoop_none _ []]
  rw [openVault_of_document v pf host fs P F hP doc hfile _ hentries _ rfl]
  dsimp only
  cases hh : v.crypto_manager_.hashMasterPassword pf P
      (QJsonObject.value doc.toObject (lit "salt")).toStdString with
  | error x =>
    have : v.crypto_manager_.verifyMasterPassword pf P
        (QJsonObject.value doc.toObject (lit "master_hash")).toStdString
        (QJsonObject.value doc.toObject (lit "salt")).toStdString = .error x := by
      unfold CryptoManager.verifyMasterPassword
      rw [hh]
      rfl
    rw [this]
    exact ⟨rfl, rfl⟩
  | ok hash =>
    rw [verifyMasterPassword_of_hash _ pf P _ _ hash hh]
    have hne : hash ≠ (QJsonObject.value doc.toObject (lit "master_hash")).toStdString := by
      intro heq
      rw [hh, heq] at hhash
      exact hhash rfl
    rw [decide_eq_false hne]
    exact ⟨rfl, rfl⟩

/-- The SHA-256 stand-in of `exampleDevPlatform`. -/
theorem exampleDevPlatform_sha256 (data : Bytes) :
    exampleDevPlatform.sha256 data = List.replicate 31 0 ++ [data.sum % 256] := rfl

/-- The stretching loop on `exampleDevPlatform`: after one round or more the value
is the stand-in digest of the input. -/
theorem exampleDevPlatform_rounds (n : Nat) (data : Bytes) :
    CryptoManager.sha256Rounds exampleDevPlatform (n + 1) data =
      List.replicate 31 0 ++ [data.sum % 256] := by
  induction n with
  | zero => rfl
  | succ n ih =>
    rw [CryptoManager.sha256Rounds, ih, exampleDevPlatform_sha256]
    simp

theorem exampleDevPlatform_rounds_10000 (data : Bytes) :
    CryptoManager.sha256Rounds exampleDevPlatform 10000 data =
      List.replicate 31 0 ++ [data.sum % 256] :=
  exampleDevPlatform_rounds 9999 data

/-- What `hashMasterPassword` returns on `exampleDevPlatform`. -/
theorem exampleDevPlatform_hash (cm : CryptoManager) (P S : Bytes) :
    cm.hashMasterPassword exampleDevPlatform P S =
      .ok (CryptoManager.toBase64
        (List.replicate 31 0 ++ [(P ++ CryptoManager.fromBase64 S).sum % 256])) := by
  rw [hashMasterPassword_eq, exampleDevPlatform_rounds_10000]
  rfl

/-- What `deriveKey` returns on `exampleDevPlatform` for a salt that is not empty. -/
theorem exampleDevPlatform_deriveKey (rd : RandomDevice) (P S : Bytes) (hS : S ≠ []) :
    CryptoManager.deriveKey ⟨true⟩ exampleDevPlatform rd P S =
      .ok (⟨List.replicate 31 0 ++ [(P ++ CryptoManager.fromBase64 S).sum % 256]⟩, S) := by
  rw [deriveKey_of_salt ⟨true⟩ rfl exampleDevPlatform rd P S hS, exampleDevPlatform_rounds_10000]
  rfl

theorem exampleDevVault_verify :
    exampleDevVault.crypto_manager_.verifyMasterPassword exampleDevPlatform (lit "pw")
      (lit "AAAAAAAAAAAAAAAAAAAAAAAAAAAAAAAAAAAAAAAAAOc=") [] = .ok true := by
  rw [verifyMasterPassword_of_hash _ _ _ _ _ _ (exampleDevPlatform_hash _ _ _)]
  decide

theorem exampleDevVault_generateSalt :
    exampleDevVault.crypto_manager_.generateSalt exampleHost.random_device =
      .ok (lit "AxQlNkdYaXqLnK2+z+DxAhMkNUZXaHmKm6y9zt/wARI=") := by decide

set_option maxRecDepth 100000 in
theorem exampleDevVault_deriveKey :
    exampleDevVault.crypto_manager_.deriveKey exampleDevPlatform
      exampleHost.random_device (lit "pw") [] =
      .ok (⟨List.replicate 31 0 ++ [55]⟩,
        lit "AxQlNkdYaXqLnK2+z+DxAhMkNUZXaHmKm6y9zt/wARI=") := by
  rw [deriveKey_empty_salt exampleDevVault.crypto_manager_ rfl, exampleDevVault_generateSalt]
  exact (exampleDevPlatform_deriveKey _ _ _ (by decide)).trans (by decide)

/-- `openVault` on a file that parses, whose hash the passphrase verifies against and
for which the key derivation succeeds: it returns true and leaves the vault open. -/
theorem openVault_verified {ρ : Type} (v : SecureVault ρ) (pf : Platform) (host : Host)
    (fs : FileSystem) (P F : Bytes) (hP : P ≠ [])
    (doc : QJsonValue) (hfile : fs.files F = some (.document doc))
    (salt hash : Bytes)
    (hsalt : (QJsonObject.value doc.toObject (lit "salt")).toStdString = salt)
    (hhash : (QJsonObject.value doc.toObject (lit "master_hash")).toStdString = hash)
    (hverify : v.crypto_manager_.verifyMasterPassword pf P hash salt = .ok true)
    (key : SecureBuffer) (salt2 : Bytes)
    (hkey : v.crypto_manager_.deriveKey pf host.random_device P salt = .ok (key, salt2)) :
    v.openVault pf host fs P F =
      (true, { v with
        vault_path_ := F
        vault_salt_ := salt2
        master_hash_ := hash
        entries_ := (SecureVault.loadEntriesLoop
          (QJsonObject.value doc.toObject (lit "entries")).toArray []).1
        vault_key_ := some key
        is_open_ := true
        last_activity_ := host.steady_now }) := by
  have hentries : SecureVault.loadEntriesLoop
      (QJsonObject.value doc.toObject (lit "entries")).toArray [] =
      ((SecureVault.loadEntriesLoop
        (QJsonObject.value doc.toObject (lit "entries")).toArray []).1, none) := by
    rw [← loadEntriesLoop_none _ []]
  rw [openVault_of_document v pf host fs P F hP doc hfile _ hentries _ rfl]
  subst hsalt hhash
  dsimp only
  rw [hverify]
  dsimp only
  rw [hkey]

/-- On `exampleDevPlatform`, `openVault("pw", "/tmp/v.store")` on the store without
salt: the state it leaves. -/
theorem exampleDevVault_open_saltless :
    exampleDevVault.openVault exampleDevPlatform exampleHost exampleSaltlessStore
        (lit "pw") (lit "/tmp/v.store") =
      (true, { exampleDevVault with
        vault_path_ := lit "/tmp/v.store"
        vault_salt_ := lit "AxQlNkdYaXqLnK2+z+DxAhMkNUZXaHmKm6y9zt/wARI="
        master_hash_ := lit "AAAAAAAAAAAAAAAAAAAAAAAAAAAAAAAAAAAAAAAAAOc="
        entries_ := []
        vault_key_ := some ⟨List.replicate 31 0 ++ [55]⟩
        is_open_ := true
        last_activity_ := 100 }) :=
  openVault_verified exampleDevVault exampleDevPlatform exampleHost exampleSaltlessStore
    (lit "pw") (lit "/tmp/v.store") (by decide) exampleSaltlessRoot rfl
    [] (lit "AAAAAAAAAAAAAAAAAAAAAAAAAAAAAAAAAAAAAAAAAOc=") rfl rfl
    exampleDevVault_verify _ _ exampleDevVault_deriveKey

/-- In the build without the crypto libraries, `openVault(P, F)` opens every store
file without salt whose `master_hash` is `hashMasterPassword(P, "")`. -/
theorem openVault_saltless_dev_build {ρ : Type} (v : SecureVault ρ) (pf : Platform)
    (host : Host) (fs : FileSystem) (P F : Bytes) (hP : P ≠ [])
    (hdev : pf.have_crypto_libs = false) (hinit : v.crypto_manager_.initialized = true)
    (hrd : host.random_device.available = true)
    (doc : QJsonValue) (hfile : fs.files F = some (.document doc))
    (hsalt : (QJsonObject.value doc.toObject (lit "salt")).toStdString = [])
    (hhash : v.crypto_manager_.hashMasterPassword pf P [] =
      .ok (QJsonObject.value doc.toObject (lit "master_hash")).toStdString) :
    (v.openVault pf host fs P F).1 = true ∧ (v.openVault pf host fs P F).2.is_open_ = true := by
  have hverify := verifyMasterPassword_of_hash v.crypto_manager_ pf P
    (QJsonObject.value doc.toObject (lit "master_hash")).toStdString [] _ hhash
  rw [decide_eq_true rfl] at hverify
  have hs := generateSalt_eq v.crypto_manager_ host.random_device hrd
  have hne := generateSalt_ne_nil v.crypto_manager_ host.random_device _ hs
  have hkey := deriveKey_empty_salt v.crypto_manager_ hinit pf host.random_device P
  rw [hs] at hkey
  dsimp only at hkey
  rw [deriveKey_of_salt v.crypto_manager_ hinit pf host.random_device P _ hne] at hkey
  simp only [hdev, Bool.false_eq_true, if_false] at hkey
  rw [openVault_verified v pf host fs P F hP doc hfile [] _ hsalt rfl hverify _ _ hkey]
  exact ⟨rfl, rfl⟩

/-- C17 (the code at the failing input): in the build without the crypto libraries,
the store file at "/tmp/v.store" has no `salt` field, and
`openVault("pw", "/tmp/v.store")` on the closed vault returns true and leaves the
vault open. -/
theorem open_of_store_without_salt :
    exampleDevPlatform.have_crypto_libs = false ∧
    exampleSaltlessStore.files (lit "/tmp/v.store") = some (.document exampleSaltlessRoot) ∧
    QJsonObject.value exampleSaltlessRoot.toObject (lit "salt") = .null ∧
    exampleDevVault.isOpen = false ∧
    (exampleDevVault.openVault exampleDevPlatform exampleHost exampleSaltlessStore
      (lit "pw") (lit "/tmp/v.store")).1 = true ∧
    (exampleDevVault.openVault exampleDevPlatform exampleHost exampleSaltlessStore
      (lit "pw") (lit "/tmp/v.store")).2.isOpen = true := by
  refine ⟨rfl, rfl, rfl, rfl, ?_, ?_⟩
  · rw [exampleDevVault_open_saltless]
  · rw [exampleDevVault_open_saltless]
    rfl

/-- For every store file that parses and in which the `master_hash` field is missing
or not a string, `openVault(P, F)` returns false and leaves the vault closed, for
every passphrase `P` (the vault being closed before, or `P` not empty); for a store
file in which the `salt` field is missing or not a string the same holds whenever
the stored hash is not `hashMasterPassword(P, "")`, so wherever `hashMasterPassword`
rejects the empty salt. -/
theorem openVault_store_without_hash_or_salt {ρ : Type} (v : SecureVault ρ) (pf : Platform)
    (host : Host) (fs : FileSystem) (P F : Bytes) (doc : QJsonValue)
    (hstart : v.is_open_ = false ∨ P ≠ [])
    (hfile : fs.files F = some (.document doc))
    (hmissing : (∀ s, QJsonObject.value doc.toObject (lit "master_hash") ≠ .string s) ∨
      ((∀ s, QJsonObject.value doc.toObject (lit "salt") ≠ .string s) ∧
        v.crypto_manager_.hashMasterPassword pf P [] ≠
          .ok (QJsonObject.value doc.toObject (lit "master_hash")).toStdString)) :
    (v.openVault pf host fs P F).1 = false ∧ (v.openVault pf host fs P F).2.isOpen = false := by
  by_cases hP : P = []
  · subst hP
    have hclosed : v.is_open_ = false := by
      rcases hstart with h | h
      · exact h
      · exact absurd rfl h
    have : v.openVault pf host fs [] F = (false, v) := by
      unfold SecureVault.openVault
      rfl
    rw [this]
    exact ⟨rfl, hclosed⟩
  · apply openVault_not_verified v pf host fs P F hP doc hfile
    rcases hmissing with h | ⟨hs, hh⟩
    · rw [toStdString_of_not_string _ h]
      intro hok
      exact hashMasterPassword_ne_nil _ pf P _ [] hok rfl
    · rw [toStdString_of_not_string _ hs]
      exact hh

set_option maxRecDepth 100000 in
/-- On the example stores: the store without `master_hash` with the passphrase
"correct-horse", and, in the build without the crypto libraries, the store without
`salt` with the passphrase "wrong". -/
theorem openVault_store_without_hash_or_salt_witness :
    ((exampleVault.openVault examplePlatform exampleHost exampleHashlessStore
        (lit "correct-horse") (lit "/tmp/v.store")).1 = false ∧
      (exampleVault.openVault examplePlatform exampleHost exampleHashlessStore
        (lit "correct-horse") (lit "/tmp/v.store")).2.isOpen = false) ∧
    ((exampleDevVault.openVault exampleDevPlatform exampleHost exampleSaltlessStore
        (lit "wrong") (lit "/tmp/v.store")).1 = false ∧
      (exampleDevVault.openVault exampleDevPlatform exampleHost exampleSaltlessStore
        (lit "wrong") (lit "/tmp/v.store")).2.isOpen = false) :=
  ⟨openVault_store_without_hash_or_salt exampleVault examplePlatform exampleHost
      exampleHashlessStore (lit "correct-horse") (lit "/tmp/v.store") exampleHashlessRoot
      (Or.inl rfl) rfl (Or.inl (fun _ h => QJsonValue.noConfusion h)),
    openVault_store_without_hash_or_salt exampleDevVault exampleDevPlatform exampleHost
      exampleSaltlessStore (lit "wrong") (lit "/tmp/v.store") exampleSaltlessRoot
      (Or.inl rfl) rfl
      (Or.inr ⟨fun _ h => QJsonValue.noConfusion h, by
        rw [exampleDevPlatform_hash]
        decide⟩)⟩

/-! ## C20: key, hash and salt in the reachable states -/

/-- For a salt that is not empty, `deriveKey` leaves the salt as it is. -/
theorem deriveKey_salt_kept (cm : CryptoManager) (pf : Platform) (rd : RandomDevice)
    (P S : Bytes) (hS : S ≠ []) (key : SecureBuffer) (salt : Bytes)
    (h : cm.deriveKey pf rd P S = .ok (key, salt)) : salt = S := by
  cases hi : cm.initialized with
  | false => rw [deriveKey_not_initialized cm hi] at h; cases h
  | true =>
    rw [deriveKey_of_salt cm hi pf rd P S hS] at h
    cases hc : pf.have_crypto_libs
    · simp only [hc, Bool.false_eq_true, if_false, Except.ok.injEq, Prod.mk.injEq] at h
      exact h.2.symm
    · simp only [hc, if_true] at h
      cases hout : pf.argon2id_hash_raw 3 65536 4 P (CryptoManager.fromBase64 S) 32 with
      | error code => rw [hout] at h; cases h
      | ok out =>
        rw [hout] at h
        simp only [Except.ok.injEq, Prod.mk.injEq] at h
        exact h.2.symm

/-- The salt `deriveKey` returns is not empty, it is the salt passed in unless that
was empty, and deriving again under the returned salt gives the same key. -/
theorem deriveKey_salt_out (cm : CryptoManager) (pf : Platform) (rd : RandomDevice)
    (P S : Bytes) (key : SecureBuffer) (salt : Bytes)
    (h : cm.deriveKey pf rd P S = .ok (key, salt)) :
    salt ≠ [] ∧ (S ≠ [] → salt = S) ∧
    ∀ rd2, cm.deriveKey pf rd2 P salt = .ok (key, salt) := by
  cases hi : cm.initialized with
  | false => rw [deriveKey_not_initialized cm hi] at h; cases h
  | true =>
    by_cases hS : S = []
    · subst hS
      rw [deriveKey_empty_salt cm hi] at h
      cases hs : cm.generateSalt rd with
      | error x => rw [hs] at h; cases h
      | ok s =>
        rw [hs] at h
        dsimp only at h
        have hne := generateSalt_ne_nil cm rd s hs
        have hk := deriveKey_salt_kept cm pf rd P s hne key salt h
        subst hk
        refine ⟨hne, fun h0 => absurd rfl h0, fun rd2 => ?_⟩
        rw [deriveKey_salt_indep cm hi pf rd2 rd P salt hne]
        exact h
    · have hk := deriveKey_salt_kept cm pf rd P S hS key salt h
      subst hk
      refine ⟨hS, fun _ => rfl, fun rd2 => ?_⟩
      rw [deriveKey_salt_indep cm hi pf rd2 rd P salt hS]
      exact h

theorem new_keyHashInvariant {ρ : Type} (pf : Platform) (gpgme_ok : Bool) (g : ρ) (now : Nat)
    (v : SecureVault ρ) (h : SecureVault.new pf gpgme_ok g now = .ok v) :
    v.KeyHashInvariant pf [] := by
  unfold SecureVault.new CryptoManager.init at h
  by_cases hc : (pf.have_crypto_libs && !gpgme_ok) = true
  · simp [hc] at h
  · simp only [hc, if_false, Bool.not_true, Bool.false_eq_true, Except.ok.injEq] at h
    subst h
    exact ⟨rfl, fun _ => ⟨rfl, rfl⟩, fun h => by cases h⟩

theorem closeVault_keyHashInvariant {ρ : Type} (pf : Platform) (v : SecureVault ρ)
    (p q : Bytes) (h : v.KeyHashInvariant pf p) : v.closeVault.KeyHashInvariant pf q :=
  ⟨h.1, fun _ => ⟨rfl, rfl⟩, fun h => by cases h⟩

theorem createVault_keyHashInvariant {ρ : Type} (v : SecureVault ρ) (pf : Platform)
    (host : Host) (fs : FileSystem) (P F p : Bytes) (h : v.KeyHashInvariant pf p) :
    (v.createVault pf host fs P F).2.1.KeyHashInvariant pf (if P.isEmpty then p else P) := by
  by_cases hP : P.isEmpty = true
  · simpa [SecureVault.createVault, hP] using h
  · have hne : P.isEmpty = false := by simpa using hP
    cases hs : v.crypto_manager_.generateSalt host.random_device with
    | error x =>
      simp only [SecureVault.createVault, hne, Bool.false_eq_true, if_false, hs]
      exact ⟨h.1, fun _ => ⟨rfl, rfl⟩, fun h => by cases h⟩
    | ok salt =>
      cases hk : v.crypto_manager_.deriveKey pf host.random_device P salt with
      | error x =>
        simp only [SecureVault.createVault, hne, Bool.false_eq_true, if_false, hs, hk]
        exact ⟨h.1, fun _ => ⟨rfl, rfl⟩, fun h => by cases h⟩
      | ok r =>
        obtain ⟨key, salt2⟩ := r
        cases hh : v.crypto_manager_.hashMasterPassword pf P salt2 with
        | error x =>
          simp only [SecureVault.createVault, hne, Bool.false_eq_true, if_false, hs, hk, hh]
          exact ⟨h.1, fun _ => ⟨rfl, rfl⟩, fun h => by cases h⟩
        | ok hash =>
          simp only [SecureVault.createVault, hne, Bool.false_eq_true, if_false, hs, hk, hh,
            SecureVault.updateActivity]
          have hout := deriveKey_salt_out _ pf _ P salt key salt2 hk
          exact ⟨h.1, fun h => (by cases h), fun _ =>
            ⟨⟨key, rfl, deriveKey_size _ pf _ P salt key salt2 hk, hout.2.2⟩,
              hashMasterPassword_ne_nil _ pf P salt2 hash hh, Or.inl hh⟩⟩

theorem openVault_keyHashInvariant {ρ : Type} (v : SecureVault ρ) (pf : Platform)
    (host : Host) (fs : FileSystem) (P F p : Bytes) (h : v.KeyHashInvariant pf p) :
    (v.openVault pf host fs P F).2.KeyHashInvariant pf
      (if (v.openVault pf host fs P F).1 then P else p) := by
  by_cases hP : P = []
  · subst hP
    have : v.openVault pf host fs [] F = (false, v) := by
      unfold SecureVault.openVault
      rfl
    rw [this]
    exact h
  · cases hf : fs.files F with
    | none =>
      rw [openVault_load_failure v pf host fs P F hP (Or.inl hf)]
      exact h
    | some content =>
      cases content with
      | malformed =>
        rw [openVault_load_failure v pf host fs P F hP (Or.inr hf)]
        exact h
      | document doc =>
        have hentries : SecureVault.loadEntriesLoop
            (QJsonObject.value doc.toObject (lit "entries")).toArray [] =
            ((SecureVault.loadEntriesLoop
              (QJsonObject.value doc.toObject (lit "entries")).toArray []).1, none) := by
          rw [← loadEntriesLoop_none _ []]
        rw [openVault_of_document v pf host fs P F hP doc hf _ hentries _ rfl]
        dsimp only
        cases hv : v.crypto_manager_.verifyMasterPassword pf P
            (QJsonObject.value doc.toObject (lit "master_hash")).toStdString
            (QJsonObject.value doc.toObject (lit "salt")).toStdString with
        | error x => exact ⟨h.1, fun _ => ⟨rfl, rfl⟩, fun h => by cases h⟩
        | ok b =>
          cases b with
          | false => exact ⟨h.1, fun _ => ⟨rfl, rfl⟩, fun h => by cases h⟩
          | true =>
            dsimp only
            cases hk : v.crypto_manager_.deriveKey pf host.random_device P
                (QJsonObject.value doc.toObject (lit "salt")).toStdString with
            | error x => exact ⟨h.1, fun _ => ⟨rfl, rfl⟩, fun h => by cases h⟩
            | ok r =>
              obtain ⟨key, salt2⟩ := r
              have hout := deriveKey_salt_out _ pf _ P _ key salt2 hk
              have hhash : v.crypto_manager_.hashMasterPassword pf P
                  (QJsonObject.value doc.toObject (lit "salt")).toStdString =
                  .ok (QJsonObject.value doc.toObject (lit "master_hash")).toStdString := by
                unfold CryptoManager.verifyMasterPassword at hv
                cases hh : v.crypto_manager_.hashMasterPassword pf P
                    (QJsonObject.value doc.toObject (lit "salt")).toStdString with
                | error x => rw [hh] at hv; cases hv
                | ok hash =>
                  rw [hh] at hv
                  simp only [bind, Except.bind, pure, Except.pure, Except.ok.injEq,
                    decide_eq_true_eq] at hv
                  rw [hv]
              refine ⟨h.1, fun h => (by cases h), fun _ =>
                ⟨⟨key, rfl, deriveKey_size _ pf _ P _ key salt2 hk, hout.2.2⟩,
                  hashMasterPassword_ne_nil _ pf P _ _ hhash, ?_⟩⟩
              by_cases hs : (QJsonObject.value doc.toObject (lit "salt")).toStdString = []
              · right
                rw [hs] at hhash
                exact hhash
              · left
                show v.crypto_manager_.hashMasterPassword pf P salt2 = _
                rw [hout.2.1 hs]
                exact hhash

theorem createEntry_keyHashInvariant {ρ : Type} (v : SecureVault ρ) (pf : Platform)
    (R : StdRandom ρ) (host : Host) (label p : Bytes) (h : v.KeyHashInvariant pf p) :
    (v.createEntry R host label).2.KeyHashInvariant pf p := by
  unfold SecureVault.createEntry
  dsimp only [SecureVault.updateActivity]
  repeat' split
  all_goals exact h

theorem saveEntry_keyHashInvariant {ρ : Type} (v : SecureVault ρ) (pf : Platform) (host : Host)
    (fs : FileSystem) (entry : VaultEntry) (p : Bytes) (h : v.KeyHashInvariant pf p) :
    (v.saveEntry pf host fs entry).2.1.KeyHashInvariant pf p := by
  unfold SecureVault.saveEntry
  dsimp only [SecureVault.updateActivity]
  repeat' split
  all_goals exact h

theorem getPassword_keyHashInvariant {ρ : Type} (v : SecureVault ρ) (pf : Platform)
    (host : Host) (entryId p : Bytes) (h : v.KeyHashInvariant pf p) :
    (v.getPassword host entryId).2.KeyHashInvariant pf p := by
  unfold SecureVault.getPassword
  dsimp only [SecureVault.updateActivity]
  repeat' split
  all_goals exact h

theorem deleteEntry_keyHashInvariant {ρ : Type} (v : SecureVault ρ) (pf : Platform)
    (host : Host) (fs : FileSystem) (entryId p : Bytes) (h : v.KeyHashInvariant pf p) :
    (v.deleteEntry pf host fs entryId).2.1.KeyHashInvariant pf p := by
  unfold SecureVault.deleteEntry
  dsimp only [SecureVault.updateActivity]
  repeat' split
  all_goals exact h

/-- Every reachable state satisfies the invariant on key, hash and salt. -/
theorem reachable_keyHashInvariant {ρ : Type} (pf : Platform) (v : SecureVault ρ) (P : Bytes)
    (h : Reachable pf v P) : v.KeyHashInvariant pf P := by
  induction h with
  | new gpgme_ok g now v h => exact new_keyHashInvariant pf gpgme_ok g now v h
  | createVault v p host fs P F _ ih => exact createVault_keyHashInvariant v pf host fs P F p ih
  | openVault v p host fs P F _ ih => exact openVault_keyHashInvariant v pf host fs P F p ih
  | closeVault v p _ ih => exact closeVault_keyHashInvariant pf v p p ih
  | createEntry v p R host label _ ih => exact createEntry_keyHashInvariant v pf R host label p ih
  | saveEntry v p host fs entry _ ih => exact saveEntry_keyHashInvariant v pf host fs entry p ih
  | getPassword v p host entryId _ ih => exact getPassword_keyHashInvariant v pf host entryId p ih
  | deleteEntry v p host fs entryId _ ih =>
    exact deleteEntry_keyHashInvariant v pf host fs entryId p ih
  | updateActivity v p host _ ih => exact ih

set_option maxRecDepth 100000 in
/-- C20 (the code at the failing input): in the build without the crypto libraries,
opening the store file without salt with "pw" leads from the constructor's state to
a reachable Open state whose hash is the hash of "pw" under the empty salt, while
the hash of "pw" under the salt now held by the vault is another string. -/
theorem open_of_saltless_store_breaks_hash :
    SecureVault.new exampleDevPlatform true 5 0 = .ok exampleDevVault ∧
    Reachable exampleDevPlatform
      (exampleDevVault.openVault exampleDevPlatform exampleHost exampleSaltlessStore
        (lit "pw") (lit "/tmp/v.store")).2 (lit "pw") ∧
    (exampleDevVault.openVault exampleDevPlatform exampleHost exampleSaltlessStore
      (lit "pw") (lit "/tmp/v.store")).2.isOpen = true ∧
    (exampleDevVault.openVault exampleDevPlatform exampleHost exampleSaltlessStore
      (lit "pw") (lit "/tmp/v.store")).2.vault_salt_ =
        lit "AxQlNkdYaXqLnK2+z+DxAhMkNUZXaHmKm6y9zt/wARI=" ∧
    (exampleDevVault.openVault exampleDevPlatform exampleHost exampleSaltlessStore
      (lit "pw") (lit "/tmp/v.store")).2.master_hash_ =
        lit "AAAAAAAAAAAAAAAAAAAAAAAAAAAAAAAAAAAAAAAAAOc=" ∧
    CryptoManager.hashMasterPassword
      (exampleDevVault.openVault exampleDevPlatform exampleHost exampleSaltlessStore
        (lit "pw") (lit "/tmp/v.store")).2.crypto_manager_ exampleDevPlatform (lit "pw")
      (exampleDevVault.openVault exampleDevPlatform exampleHost exampleSaltlessStore
        (lit "pw") (lit "/tmp/v.store")).2.vault_salt_ =
        .ok (lit "AAAAAAAAAAAAAAAAAAAAAAAAAAAAAAAAAAAAAAAAADc=") := by
  have hreach := Reachable.openVault exampleDevVault [] exampleHost exampleSaltlessStore
    (lit "pw") (lit "/tmp/v.store")
    (Reachable.new true 5 0 exampleDevVault rfl : Reachable exampleDevPlatform exampleDevVault [])
  rw [exampleDevVault_open_saltless] at hreach ⊢
  refine ⟨rfl, hreach, rfl, rfl, rfl, ?_⟩
  rw [exampleDevPlatform_hash]
  decide

/-- In every state reachable from the constructor, with `P` the passphrase of the last
call that left a key in the vault: a closed vault holds neither key nor hash; an
open vault holds a 32-byte key, which is the key derived from `P` and the salt in
memory, and a non-empty hash, which is `hashMasterPassword` of `P` under the salt in
memory or, after opening a store file without salt, under the empty salt; where
`hashMasterPassword` rejects the empty salt, the hash of an open vault is that of
`P` under the salt in memory. -/
theorem reachable_key_and_hash {ρ : Type} (pf : Platform) (v : SecureVault ρ) (P : Bytes)
    (h : Reachable pf v P) :
    (v.isOpen = false → v.vault_key_ = none ∧ v.master_hash_ = []) ∧
    (v.isOpen = true →
      (∃ k, v.vault_key_ = some k ∧ k.size = 32 ∧
        ∀ rd, v.crypto_manager_.deriveKey pf rd P v.vault_salt_ = .ok (k, v.vault_salt_)) ∧
      v.master_hash_ ≠ [] ∧
      (v.crypto_manager_.hashMasterPassword pf P v.vault_salt_ = .ok v.master_hash_ ∨
        v.crypto_manager_.hashMasterPassword pf P [] = .ok v.master_hash_)) ∧
    (v.isOpen = true →
      (∀ hash, v.crypto_manager_.hashMasterPassword pf P [] ≠ .ok hash) →
      v.crypto_manager_.hashMasterPassword pf P v.vault_salt_ = .ok v.master_hash_) := by
  have hinv := reachable_keyHashInvariant pf v P h
  refine ⟨hinv.2.1, hinv.2.2, fun hopen hreject => ?_⟩
  rcases (hinv.2.2 hopen).2.2 with h1 | h2
  · exact h1
  · exact absurd h2 (hreject _)

set_option maxRecDepth 100000 in
/-- On the example vault after `createVault("correct-horse", "/tmp/v.store")`: the
state is reachable, the vault is open, and its hash is that of "correct-horse" under
its salt. -/
theorem reachable_key_and_hash_witness :
    Reachable examplePlatform exampleOpenVault (lit "correct-horse") ∧
    exampleOpenVault.isOpen = true ∧
    exampleOpenVault.master_hash_ ≠ [] ∧
    (exampleOpenVault.crypto_manager_.hashMasterPassword examplePlatform (lit "correct-horse")
        exampleOpenVault.vault_salt_ = .ok exampleOpenVault.master_hash_ ∨
      exampleOpenVault.crypto_manager_.hashMasterPassword examplePlatform (lit "correct-horse")
        [] = .ok exampleOpenVault.master_hash_) :=
  have hreach : Reachable examplePlatform exampleOpenVault (lit "correct-horse") :=
    Reachable.createVault exampleVault [] exampleHost exampleFileSystem (lit "correct-horse")
      (lit "/tmp/v.store")
      (Reachable.new true 5 0 exampleVault rfl : Reachable examplePlatform exampleVault [])
  ⟨hreach, rfl,
    ((reachable_key_and_hash examplePlatform exampleOpenVault (lit "correct-horse")
      hreach).2.1 rfl).2⟩

/-! ## C21: auto-lock -/

/-- Truncating division by a positive number against a positive bound. -/
theorem le_tdiv_iff (e T : Int) (q : Nat) (hq : 0 < q) (hT : 0 < T) :
    T ≤ Int.tdiv e (q : Int) ↔ T * (q : Int) ≤ e := by
  have hq' : (0 : Int) < (q : Int) := by exact_mod_cast hq
  by_cases he : 0 ≤ e
  · rw [Int.tdiv_eq_ediv he (le_of_lt hq')]
    exact Int.le_ediv_iff_mul_le hq'
  · have hneg : e < 0 := lt_of_not_le he
    constructor
    · intro h
      have : Int.tdiv e (q : Int) ≤ 0 := by
        have h2 : 0 ≤ Int.tdiv (-e) (q : Int) := Int.tdiv_nonneg (by omega) (le_of_lt hq')
        have h3 : Int.tdiv (-e) (q : Int) = -(Int.tdiv e (q : Int)) := Int.neg_tdiv e (q : Int)
        omega
      omega
    · intro h
      have : 0 < T * (q : Int) := Int.mul_pos hT hq'
      omega

/-- C21: with a steady clock of `q > 0` ticks in a second, `shouldAutoLock()` returns
true if and only if the vault is Open, the timeout `T` is positive and at least `T`
seconds (`T * q` ticks) have passed since the last activity. It is false when the
clock still shows the time `updateActivity()` recorded, and false at every time for
`T ≤ 0` and for a Closed vault. -/
theorem shouldAutoLock_iff {ρ : Type} (v : SecureVault ρ) (now q : Nat) (hq : 0 < q) :
    (v.shouldAutoLock now q = true ↔
      v.isOpen = true ∧ 0 < v.auto_lock_timeout_ ∧
        v.auto_lock_timeout_ * (q : Int) ≤ (now : Int) - (v.last_activity_ : Int)) ∧
    (∀ host : Host, 0 < v.auto_lock_timeout_ →
      (v.updateActivity host).shouldAutoLock host.steady_now q = false) ∧
    (v.auto_lock_timeout_ ≤ 0 → v.shouldAutoLock now q = false) ∧
    (v.isOpen = false → v.shouldAutoLock now q = false) := by
  have main : ∀ (w : SecureVault ρ) (t : Nat), (w.shouldAutoLock t q = true ↔
      w.is_open_ = true ∧ 0 < w.auto_lock_timeout_ ∧
        w.auto_lock_timeout_ * (q : Int) ≤ (t : Int) - (w.last_activity_ : Int)) := by
    intro w t
    unfold SecureVault.shouldAutoLock
    cases ho : w.is_open_
    · simp
    · by_cases hT : w.auto_lock_timeout_ ≤ 0
      · simp only [Bool.not_true, Bool.false_or, decide_eq_true hT, if_true]
        constructor
        · intro h; cases h
        · rintro ⟨_, h, _⟩; omega
      · have hpos : 0 < w.auto_lock_timeout_ := lt_of_not_le hT
        simp only [Bool.not_true, Bool.false_or, decide_eq_false hT, Bool.false_eq_true,
          if_false, decide_eq_true_eq, ge_iff_le, true_and]
        rw [le_tdiv_iff _ _ q hq hpos]
        exact ⟨fun h => ⟨hpos, h⟩, fun h => h.2⟩
  refine ⟨main v now, ?_, ?_, ?_⟩
  · intro host hT
    cases h : (v.updateActivity host).shouldAutoLock host.steady_now q with
    | false => rfl
    | true =>
      have h2 := ((main _ _).1 h).2.2
      have hpos : (0 : Int) < (q : Int) := by exact_mod_cast hq
      have : 0 < v.auto_lock_timeout_ * (q : Int) := Int.mul_pos hT hpos
      simp only [SecureVault.updateActivity, sub_self] at h2
      omega
  · intro hT
    cases h : v.shouldAutoLock now q with
    | false => rfl
    | true =>
      have := ((main _ _).1 h).2.1
      omega
  · intro hc
    cases h : v.shouldAutoLock now q with
    | false => rfl
    | true =>
      have := ((main _ _).1 h).1
      rw [SecureVault.isOpen] at hc
      rw [hc] at this
      cases this

set_option maxRecDepth 100000 in
/-- C21 on the open example vault, last active at tick 100 with the timeout 60 and a
clock counting seconds: due at 160, which is 60 seconds after the last activity, and
not due right after `updateActivity()`. -/
theorem shouldAutoLock_iff_witness :
    (0 < 1) ∧
    exampleOpenVault.shouldAutoLock 160 1 = true ∧
    (exampleOpenVault.updateActivity exampleHost).shouldAutoLock exampleHost.steady_now 1 =
      false :=
  ⟨by decide,
    (shouldAutoLock_iff exampleOpenVault 160 1 (by decide)).1.2
      ⟨by decide, by decide, by decide⟩,
    (shouldAutoLock_iff exampleOpenVault 160 1 (by decide)).2.1 exampleHost (by decide)⟩

/-! ## C22, C23, C24: closing, and entry operations on a closed vault -/

/-- `secure_zero_memory` over a whole region leaves zeros only. -/
theorem secure_zero_memory_length (region : Bytes) :
    secure_zero_memory region region.length = List.replicate region.length 0 := by
  induction region with
  | nil => rfl
  | cons b rest ih =>
    simp only [secure_zero_memory, List.length_cons, List.replicate_succ, ih]

/-- What `secureZero(std::string&)` leaves: the empty string, and zeros in the storage
over the length the string had. -/
theorem secureZeroStorage_eq (str : Bytes) :
    SecureMemory.secureZeroStorage str = ([], List.replicate str.length 0) := by
  cases str with
  | nil => rfl
  | cons b rest =>
    have h := secure_zero_memory_length (b :: rest)
    unfold SecureMemory.secureZeroStorage SecureMemory.secureZeroRegion
    simp only [List.isEmpty_cons, Bool.not_false, if_true, List.length_cons, Nat.succ_ne_zero,
      if_false, string_clear] at h ⊢
    rw [h]

/-- What `clearSensitiveData()` leaves: every password empty, and zeros in the storage
of every password. -/
theorem clearSensitiveDataStorage_eq {ρ : Type} (v : SecureVault ρ) :
    v.clearSensitiveDataStorage =
      ({ v with entries_ := v.entries_.map (fun e => { e with password := [] }) },
        v.entries_.map (fun e => List.replicate e.password.length 0)) := by
  unfold SecureVault.clearSensitiveDataStorage
  simp only [List.map_map, Function.comp_def, secureZeroStorage_eq]

/-- `closeVault` twice is `closeVault` once. -/
theorem closeVault_closeVault {ρ : Type} (v : SecureVault ρ) :
    v.closeVault.closeVault = v.closeVault := rfl

/-- `closeVault` leaves a closed vault as it is when key, record set, path, salt and
hash are already cleared. -/
theorem closeVault_of_cleared {ρ : Type} (v : SecureVault ρ) (hclosed : v.is_open_ = false)
    (hkey : v.vault_key_ = none) (hentries : v.entries_ = []) (hpath : v.vault_path_ = [])
    (hsalt : v.vault_salt_ = []) (hhash : v.master_hash_ = []) : v.closeVault = v := by
  obtain ⟨cm, g, key, entries, path, salt, hash, isopen, last, timeout⟩ := v
  simp only at hclosed hkey hentries hpath hsalt hhash
  subst hclosed hkey hentries hpath hsalt hhash
  rfl

set_option maxRecDepth 100000 in
/-- C22 (the code at the failing input): `closeVault()` applied twice equals
`closeVault()` applied once from every state, and it leaves a closed vault with
cleared fields as it is; but the Closed vault left by `open("wrong", "/tmp/v.store")`
on a file that is not JSON still holds the path, `closeVault()` clears it, and
`verifyIntegrity()` is true before the call and false after it. -/
theorem closeVault_changes_closed_vault_after_failed_load :
    (∀ (ρ : Type) (v : SecureVault ρ), v.closeVault.closeVault = v.closeVault) ∧
    exampleVault.isOpen = false ∧ exampleVault.closeVault = exampleVault ∧
    (exampleVault.openVault examplePlatform exampleHost exampleMalformedStore
      (lit "wrong") (lit "/tmp/v.store")).2.isOpen = false ∧
    (exampleVault.openVault examplePlatform exampleHost exampleMalformedStore
      (lit "wrong") (lit "/tmp/v.store")).2.vault_path_ = lit "/tmp/v.store" ∧
    (exampleVault.openVault examplePlatform exampleHost exampleMalformedStore
      (lit "wrong") (lit "/tmp/v.store")).2.closeVault.vault_path_ = [] ∧
    (exampleVault.openVault examplePlatform exampleHost exampleMalformedStore
      (lit "wrong") (lit "/tmp/v.store")).2.verifyIntegrity exampleMalformedStore = true ∧
    (exampleVault.openVault examplePlatform exampleHost exampleMalformedStore
      (lit "wrong") (lit "/tmp/v.store")).2.closeVault.verifyIntegrity
        exampleMalformedStore = false := by
  refine ⟨fun _ v => closeVault_closeVault v, rfl, rfl, ?_, ?_, ?_, ?_, ?_⟩ <;> decide

/-- C23: from every vault state, after `closeVault()` the vault is Closed, the key is
absent, hash, salt, record set and path are empty; and when `entries_.clear()`
destroys the records, the storage of every password holds zero bytes over the whole
length the password had: `clearSensitiveData()` has overwritten and emptied every
password before. -/
theorem closeVault_clears {ρ : Type} (v : SecureVault ρ) :
    v.closeVault.isOpen = false ∧
    v.closeVault.vault_key_ = none ∧
    v.closeVault.master_hash_ = [] ∧
    v.closeVault.vault_salt_ = [] ∧
    v.closeVault.entries_ = [] ∧
    v.closeVault.vault_path_ = [] ∧
    v.closeVault = v.closeVaultStorage.1 ∧
    v.closeVaultStorage.2 = v.entries_.map (fun e => List.replicate e.password.length 0) ∧
    (∀ storage ∈ v.closeVaultStorage.2, ∀ b ∈ storage, b = 0) ∧
    v.closeVaultStorage.2 = v.clearSensitiveDataStorage.2 ∧
    v.clearSensitiveData.entries_ = v.entries_.map (fun e => { e with password := [] }) := by
  have hstorage : v.closeVaultStorage.2 =
      v.entries_.map (fun e => List.replicate e.password.length 0) := by
    unfold SecureVault.closeVaultStorage
    simp only [clearSensitiveDataStorage_eq]
  refine ⟨rfl, rfl, rfl, rfl, rfl, rfl, rfl, hstorage, ?_, rfl, ?_⟩
  · intro storage hs b hb
    rw [hstorage] at hs
    obtain ⟨e, _, he⟩ := List.mem_map.1 hs
    rw [← he] at hb
    exact List.eq_of_mem_replicate hb
  · unfold SecureVault.clearSensitiveData
    rw [clearSensitiveDataStorage_eq]

set_option maxRecDepth 100000 in
/-- The storage of the password of the entry "Mail" when the example vault holding it
is closed: 64 zero bytes. -/
theorem closeVaultStorage_example :
    (SecureVault.closeVaultStorage
      { exampleOpenVault with entries_ := [exampleEntry] }).2 = [List.replicate 64 0] := by
  decide

/-- C24: on a Closed vault `createEntry`, `getEntry` and `getPassword` fail with an
error and `saveEntry` and `deleteEntry` return false, for every argument; each
leaves the vault state (so the closed flag and the record set) and the file system
exactly as they were. On every vault, `createEntry` with the empty label fails and
leaves the state as it was. -/
theorem entry_operations_on_closed_vault {ρ : Type} (v : SecureVault ρ) (R : StdRandom ρ)
    (pf : Platform) (host : Host) (fs : FileSystem) (label entryId : Bytes) (r : VaultEntry)
    (hclosed : v.isOpen = false) :
    v.createEntry R host label = (.error .vault_not_open_or_invalid_label, v) ∧
    v.getEntry entryId = .error .vault_not_open ∧
    v.getPassword host entryId = (.error .vault_not_open, v) ∧
    v.saveEntry pf host fs r = (false, v, fs) ∧
    v.deleteEntry pf host fs entryId = (false, v, fs) ∧
    (∀ w : SecureVault ρ,
      w.createEntry R host [] = (.error .vault_not_open_or_invalid_label, w)) := by
  have h : v.is_open_ = false := hclosed
  refine ⟨?_, ?_, ?_, ?_, ?_, ?_⟩
  · simp [SecureVault.createEntry, h]
  · simp [SecureVault.getEntry, h]
  · simp [SecureVault.getPassword, h]
  · simp [SecureVault.saveEntry, h]
  · simp [SecureVault.deleteEntry, h]
  · intro w
    simp [SecureVault.createEntry]

set_option maxRecDepth 100000 in
/-- C24 on the closed example vault. -/
theorem entry_operations_on_closed_vault_witness :
    exampleVault.isOpen = false ∧
    exampleVault.createEntry exampleRandom exampleHost (lit "Mail") =
      (.error .vault_not_open_or_invalid_label, exampleVault) ∧
    exampleVault.getEntry exampleEntry.id = .error .vault_not_open ∧
    exampleVault.getPassword exampleHost exampleEntry.id =
      (.error .vault_not_open, exampleVault) ∧
    exampleVault.saveEntry examplePlatform exampleHost exampleFileSystem exampleEntry =
      (false, exampleVault, exampleFileSystem) ∧
    exampleVault.deleteEntry examplePlatform exampleHost exampleFileSystem exampleEntry.id =
      (false, exampleVault, exampleFileSystem) :=
  have h := entry_operations_on_closed_vault exampleVault exampleRandom examplePlatform
    exampleHost exampleFileSystem (lit "Mail") exampleEntry.id exampleEntry rfl
  ⟨rfl, h.1, h.2.1, h.2.2.1, h.2.2.2.1, h.2.2.2.2.1⟩

/-! ## C25: the length of labels -/

set_option maxRecDepth 100000 in
/-- C25 (the code at the failing input): on the open example vault `createEntry` with
a label of 101 characters returns a record carrying that label, and `saveEntry` of
the record returns true and puts it into the record set. The creation dialog, whose
`validateInput()` refuses a trimmed label longer than 100 characters, accepts the
text "a" followed by 100 spaces and builds an entry whose label has 101 characters. -/
theorem createEntry_accepts_label_of_101_characters :
    exampleOpenVault.isOpen = true ∧
    (List.replicate 101 97).length = 101 ∧
    (exampleOpenVault.createEntry exampleRandom exampleHost (List.replicate 101 97)).1 =
      .ok { exampleEntry with label := List.replicate 101 97 } ∧
    (exampleOpenVault.saveEntry examplePlatform exampleHost exampleStore
      { exampleEntry with label := List.replicate 101 97 }).1 = true ∧
    (exampleOpenVault.saveEntry examplePlatform exampleHost exampleStore
      { exampleEntry with label := List.replicate 101 97 }).2.1.getEntryLabels =
      [(exampleEntry.id, List.replicate 101 97)] ∧
    VaultCreationDialog.validateInput (List.replicate 101 97) = false ∧
    VaultCreationDialog.validateInput (97 :: List.replicate 100 32) = true ∧
    (VaultCreationDialog.onGenerateCredentials exampleRandom 5 exampleHost (fun s => s)
      (97 :: List.replicate 100 32)).map (fun e => e.label.length) = some 101 := by
  decide

/-! ## C26: releasing and moving a buffer -/

/-- What `cleanup()` does to a buffer that owns the region at `p`. -/
theorem cleanup_of_data (b : SecureMemory.SecureBuffer) (m : SecureMemory.Memory)
    (munlock_ok : Bool) (p : Nat) (hdata : b.data_ = some p) :
    b.cleanup m munlock_ok =
      ({ data_ := none, size_ := 0, locked_ := false },
        SecureMemory.Memory.free
          (if b.locked_ then
            (SecureMemory.Memory.unlockMemory (m.secureZero (some p) b.size_) (some p) b.size_
              munlock_ok).2
           else m.secureZero (some p) b.size_) p) := by
  unfold SecureMemory.SecureBuffer.cleanup
  rw [hdata]

/-- C26: for a buffer that owns a region of `n > 0` bytes at `p`: the first statement
of `cleanup()` overwrites all `n` bytes with zero; the calls of `cleanup()` are
`secure_zero_memory`, then `munlock` exactly when the lock flag is set, then `free`;
afterwards the region is released and the buffer has no data, size 0 and the flag
false, and `cleanup()` on it (or on a moved-from buffer) makes no call and changes
nothing. The flag of a constructed buffer is the answer of the system to the lock
request. Moving transfers pointer, size and flag to the destination and leaves the
source without data, with size 0 and the flag false; a move assignment releases
the destination's old region first, and does nothing when source and destination
are one object. -/
theorem cleanup_and_move (b : SecureMemory.SecureBuffer) (m : SecureMemory.Memory)
    (munlock_ok : Bool) (p n : Nat) (contents : Bytes)
    (hdata : b.data_ = some p) (hsize : b.size_ = n) (hn : 0 < n)
    (hregion : m.region p = some contents) (hlen : contents.length = n) :
    (m.secureZero b.data_ b.size_).region p = some (List.replicate n 0) ∧
    (b.cleanup m munlock_ok).2.log =
      m.log ++ [SecureMemory.Call.secure_zero_memory p n] ++
        (if b.locked_ then [SecureMemory.Call.munlock p n] else []) ++
        [SecureMemory.Call.free p] ∧
    (b.cleanup m munlock_ok).2.region p = none ∧
    (b.cleanup m munlock_ok).1 = { data_ := none, size_ := 0, locked_ := false } ∧
    (b.cleanup m munlock_ok).1.cleanup (b.cleanup m munlock_ok).2 munlock_ok =
      b.cleanup m munlock_ok ∧
    (∀ (m0 : SecureMemory.Memory) (fresh : Bytes) (mlock_ok : Bool),
      ∃ m1, SecureMemory.SecureBuffer.new m0 n (some p) fresh mlock_ok =
          .ok ({ data_ := some p, size_ := n, locked_ := mlock_ok }, m1) ∧
        m1.region p = some (List.replicate n 0)) ∧
    (SecureMemory.SecureBuffer.moveConstruct b).1 = b ∧
    (SecureMemory.SecureBuffer.moveConstruct b).2 =
      { data_ := none, size_ := 0, locked_ := false } ∧
    (SecureMemory.SecureBuffer.moveConstruct b).2.cleanup m munlock_ok =
      ((SecureMemory.SecureBuffer.moveConstruct b).2, m) ∧
    (∀ this : SecureMemory.SecureBuffer,
      (this.moveAssign b false m munlock_ok).1 = b ∧
      (this.moveAssign b false m munlock_ok).2.1 =
        { data_ := none, size_ := 0, locked_ := false } ∧
      (this.moveAssign b false m munlock_ok).2.2 = (this.cleanup m munlock_ok).2) ∧
    b.moveAssign b true m munlock_ok = (b, b, m) := by
  obtain ⟨data, size, locked⟩ := b
  simp only at hdata hsize
  subst hdata hsize hlen
  have hne : contents.length ≠ 0 := by omega
  have hzero : secure_zero_memory contents contents.length =
      List.replicate contents.length 0 := secure_zero_memory_length contents
  refine ⟨?_, ?_, ?_, ?_, ?_, ?_, rfl, rfl, rfl, fun this => ⟨rfl, rfl, rfl⟩, rfl⟩
  · simp [SecureMemory.Memory.secureZero, hne, SecureMemory.Memory.called,
      SecureMemory.Memory.setRegion, hregion, hzero]
  · rw [cleanup_of_data _ m munlock_ok p rfl]
    cases locked <;> cases munlock_ok <;>
      simp [SecureMemory.Memory.secureZero, SecureMemory.Memory.unlockMemory, hne,
        SecureMemory.Memory.called, SecureMemory.Memory.setRegion,
        SecureMemory.Memory.setLocked, SecureMemory.Memory.free]
  · rw [cleanup_of_data _ m munlock_ok p rfl]
    simp [SecureMemory.Memory.free, SecureMemory.Memory.called, SecureMemory.Memory.setRegion]
  · rw [cleanup_of_data _ m munlock_ok p rfl]
  · rw [cleanup_of_data _ m munlock_ok p rfl]
    rfl
  · intro m0 fresh mlock_ok
    refine ⟨SecureMemory.Memory.called
      (SecureMemory.Memory.setRegion
        (SecureMemory.Memory.lockMemory (m0.setRegion p (some fresh)) (some p) contents.length
          mlock_ok).2 p (some (List.replicate contents.length 0)))
      (.memset_zero p contents.length), ?_, ?_⟩
    · unfold SecureMemory.SecureBuffer.new
      rw [if_neg hne]
      simp only [SecureMemory.Memory.lockMemory, if_neg hne]
    · simp [SecureMemory.Memory.called, SecureMemory.Memory.setRegion]

/-- C26 on the locked 32-byte buffer at address 4096: the calls of `cleanup()` and the
buffer it leaves. -/
theorem cleanup_and_move_witness :
    (SecureMemory.SecureBuffer.cleanup { data_ := some 4096, size_ := 32, locked_ := true }
        exampleKeyMemory true).2.log =
      [.mlock 4096 32, .memset_zero 4096 32, .secure_zero_memory 4096 32, .munlock 4096 32,
        .free 4096] ∧
    (SecureMemory.SecureBuffer.cleanup { data_ := some 4096, size_ := 32, locked_ := true }
        exampleKeyMemory true).1 = { data_ := none, size_ := 0, locked_ := false } :=
  have h := cleanup_and_move { data_ := some 4096, size_ := 32, locked_ := true }
    exampleKeyMemory true 4096 32 (List.replicate 32 48) rfl rfl (by decide) rfl rfl
  ⟨h.2.1, h.2.2.2.1⟩

/-! ## C27: vault statistics -/

theorem string_lt_irrefl (a : Bytes) : string_lt a a = false := by
  induction a with
  | nil => rfl
  | cons x xs ih => simp [string_lt, ih]

theorem string_lt_trans (a b c : Bytes) (hab : string_lt a b = true)
    (hbc : string_lt b c = true) : string_lt a c = true := by
  induction a generalizing b c with
  | nil =>
    cases b with
    | nil => simp [string_lt] at hab
    | cons y ys =>
      cases c with
      | nil => simp [string_lt] at hbc
      | cons z zs => rfl
  | cons x xs ih =>
    cases b with
    | nil => simp [string_lt] at hab
    | cons y ys =>
      cases c with
      | nil => simp [string_lt] at hbc
      | cons z zs =>
        simp only [string_lt] at hab hbc ⊢
        by_cases hxy : x < y
        · by_cases hyz : y < z
          · simp [lt_trans hxy hyz]
          · by_cases hzy : z < y
            · simp [hyz, hzy] at hbc
            · have : y = z := by omega
              subst this
              simp [hxy]
        · by_cases hyx : y < x
          · simp [hxy, hyx] at hab
          · have hxy' : x = y := by omega
            subst hxy'
            simp only [lt_self_iff_false, if_false] at hab
            by_cases hxz : x < z
            · simp [hxz]
            · by_cases hzx : z < x
              · simp [hxz, hzx] at hbc
              · simp only [hxz, hzx, if_false] at hbc ⊢
                exact ih ys zs hab hbc

theorem string_lt_total (a b : Bytes) (h : string_lt a b = false) :
    a = b ∨ string_lt b a = true := by
  induction a generalizing b with
  | nil =>
    cases b with
    | nil => exact Or.inl rfl
    | cons y ys => simp [string_lt] at h
  | cons x xs ih =>
    cases b with
    | nil => exact Or.inr rfl
    | cons y ys =>
      simp only [string_lt] at h ⊢
      by_cases hxy : x < y
      · simp [hxy] at h
      · by_cases hyx : y < x
        · simp [hyx]
        · have : x = y := by omega
          subst this
          simp only [lt_self_iff_false, if_false] at h ⊢
          rcases ih ys h with h1 | h1
          · exact Or.inl (by rw [h1])
          · exact Or.inr h1

/-- The loop of `std::min_element` under a strict order: the result is one of the
elements and no element is smaller. -/
theorem min_fold_spec {α : Type} (comp : α → α → Bool) (hirr : ∀ a, comp a a = false)
    (htrans : ∀ a b c, comp a b = true → comp b c = true → comp a c = true)
    (rest : List α) (first : α) (seen : List α) (hmem : first ∈ seen)
    (hmin : ∀ x ∈ seen, comp x first = false) :
    rest.foldl (fun smallest x => if comp x smallest then x else smallest) first ∈ seen ++ rest ∧
    ∀ x ∈ seen ++ rest,
      comp x (rest.foldl (fun smallest x => if comp x smallest then x else smallest) first)
        = false := by
  induction rest generalizing first seen with
  | nil => simpa using ⟨hmem, hmin⟩
  | cons y ys ih =>
    simp only [List.foldl_cons]
    have hs : seen ++ y :: ys = (seen ++ [y]) ++ ys := by simp
    rw [hs]
    by_cases hc : comp y first = true
    · rw [if_pos hc]
      apply ih y (seen ++ [y]) (by simp)
      intro x hx
      rcases List.mem_append.1 hx with h | h
      · cases hxy : comp x y with
        | false => rfl
        | true =>
          have := htrans x y first hxy hc
          rw [hmin x h] at this
          cases this
      · rw [List.mem_singleton.1 h]
        exact hirr y
    · rw [if_neg hc]
      apply ih first (seen ++ [y]) (by simp [hmem])
      intro x hx
      rcases List.mem_append.1 hx with h | h
      · exact hmin x h
      · rw [List.mem_singleton.1 h]
        simpa using hc

/-- The loop of `std::max_element` under a strict order: the result is one of the
elements and no element is larger. -/
theorem max_fold_spec {α : Type} (comp : α → α → Bool) (hirr : ∀ a, comp a a = false)
    (htrans : ∀ a b c, comp a b = true → comp b c = true → comp a c = true)
    (rest : List α) (first : α) (seen : List α) (hmem : first ∈ seen)
    (hmax : ∀ x ∈ seen, comp first x = false) :
    rest.foldl (fun largest x => if comp largest x then x else largest) first ∈ seen ++ rest ∧
    ∀ x ∈ seen ++ rest,
      comp (rest.foldl (fun largest x => if comp largest x then x else largest) first) x
        = false := by
  induction rest generalizing first seen with
  | nil => simpa using ⟨hmem, hmax⟩
  | cons y ys ih =>
    simp only [List.foldl_cons]
    have hs : seen ++ y :: ys = (seen ++ [y]) ++ ys := by simp
    rw [hs]
    by_cases hc : comp first y = true
    · rw [if_pos hc]
      apply ih y (seen ++ [y]) (by simp)
      intro x hx
      rcases List.mem_append.1 hx with h | h
      · cases hyx : comp y x with
        | false => rfl
        | true =>
          have := htrans first y x hc hyx
          rw [hmax x h] at this
          cases this
      · rw [List.mem_singleton.1 h]
        exact hirr y
    · rw [if_neg hc]
      apply ih first (seen ++ [y]) (by simp [hmem])
      intro x hx
      rcases List.mem_append.1 hx with h | h
      · exact hmax x h
      · rw [List.mem_singleton.1 h]
        simpa using hc

/-- What `getStats` returns for a record set that is not empty. -/
theorem getStats_cons {ρ : Type} (v : SecureVault ρ) (host : Host) (first : VaultEntry)
    (rest : List VaultEntry) (h : v.entries_ = first :: rest) :
    v.getStats host =
      { entryCount := v.entries_.length
        createdAt := (rest.foldl (fun smallest x =>
          if string_lt x.created_at smallest.created_at then x else smallest) first).created_at
        lastModified := (rest.foldl (fun largest x =>
          if string_lt largest.created_at x.created_at then x else largest) first).created_at
        deviceFingerprint := host.device_fingerprint } := by
  unfold SecureVault.getStats
  rw [h]
  rfl

/-- C27: `getStats()` returns as `entryCount` the number of stored records. For a
non-empty record set `createdAt` and `lastModified` are each the `created_at` of a
stored record, `createdAt` is equal to or before every `created_at` and
`lastModified` equal to or after every `created_at` in the lexicographic order of
`std::string`, and `createdAt` is equal to or before `lastModified`. For an empty
record set both are the empty string. -/
theorem getStats_spec {ρ : Type} (v : SecureVault ρ) (host : Host) :
    (v.getStats host).entryCount = v.entries_.length ∧
    (v.entries_ = [] →
      (v.getStats host).createdAt = [] ∧ (v.getStats host).lastModified = []) ∧
    (v.entries_ ≠ [] →
      (∃ e ∈ v.entries_, (v.getStats host).createdAt = e.created_at) ∧
      (∃ e ∈ v.entries_, (v.getStats host).lastModified = e.created_at) ∧
      (∀ e ∈ v.entries_, (v.getStats host).createdAt = e.created_at ∨
        string_lt (v.getStats host).createdAt e.created_at = true) ∧
      (∀ e ∈ v.entries_, (v.getStats host).lastModified = e.created_at ∨
        string_lt e.created_at (v.getStats host).lastModified = true) ∧
      ((v.getStats host).createdAt = (v.getStats host).lastModified ∨
        string_lt (v.getStats host).createdAt (v.getStats host).lastModified = true)) := by
  refine ⟨?_, ?_, ?_⟩
  · unfold SecureVault.getStats
    split <;> rfl
  · intro h
    unfold SecureVault.getStats
    rw [h]
    exact ⟨rfl, rfl⟩
  · intro hne
    obtain ⟨first, rest, hl⟩ := List.exists_cons_of_ne_nil hne
    rw [getStats_cons v host first rest hl]
    simp only
    have hirr : ∀ a : VaultEntry, string_lt a.created_at a.created_at = false :=
      fun a => string_lt_irrefl _
    have htrans : ∀ a b c : VaultEntry, string_lt a.created_at b.created_at = true →
        string_lt b.created_at c.created_at = true →
        string_lt a.created_at c.created_at = true :=
      fun a b c => string_lt_trans _ _ _
    have hmin := min_fold_spec (fun (a b : VaultEntry) => string_lt a.created_at b.created_at)
      hirr htrans rest first [first] (by simp) (by
        intro x hx
        rw [List.mem_singleton.1 hx]
        exact hirr first)
    have hmax := max_fold_spec (fun (a b : VaultEntry) => string_lt a.created_at b.created_at)
      hirr htrans rest first [first] (by simp) (by
        intro x hx
        rw [List.mem_singleton.1 hx]
        exact hirr first)
    simp only [List.singleton_append] at hmin hmax
    rw [hl]
    refine ⟨⟨_, hmin.1, rfl⟩, ⟨_, hmax.1, rfl⟩, ?_, ?_, ?_⟩
    · intro e he
      rcases string_lt_total _ _ (hmin.2 e he) with h | h
      · exact Or.inl h.symm
      · exact Or.inr h
    · intro e he
      rcases string_lt_total _ _ (hmax.2 e he) with h | h
      · exact Or.inl h
      · exact Or.inr h
    · rcases string_lt_total _ _ (hmax.2 _ hmin.1) with h | h
      · exact Or.inl h.symm
      · exact Or.inr h

/-! ## C28: the cipher is a cyclic XOR mask -/

/-- XOR of two bytes is a byte. -/
theorem xor_lt_256 (a b : Nat) (ha : a < 256) (hb : b < 256) : a ^^^ b < 256 := by
  have h8 : (256 : Nat) = 2 ^ 8 := by norm_num
  rw [h8] at ha hb ⊢
  exact Nat.xor_lt_two_pow ha hb

/-- The mask cancels in the XOR of two masked bytes. -/
theorem xor_mask_cancel (a b k : Nat) (ha : a < 256) (hb : b < 256) :
    ((a ^^^ k) % 256) ^^^ ((b ^^^ k) % 256) = a ^^^ b := by
  have h8 : (256 : Nat) = 2 ^ 8 := by norm_num
  rw [h8] at ha hb ⊢
  apply Nat.eq_of_testBit_eq
  intro i
  simp only [Nat.testBit_mod_two_pow, Nat.testBit_xor]
  by_cases hi : i < 8
  · simp only [hi, decide_True, Bool.true_and]
    cases a.testBit i <;> cases b.testBit i <;> cases k.testBit i <;> rfl
  · have h1 : a.testBit i = false :=
      Nat.testBit_lt_two_pow (lt_of_lt_of_le ha (Nat.pow_le_pow_right (by norm_num) (by omega)))
    have h2 : b.testBit i = false :=
      Nat.testBit_lt_two_pow (lt_of_lt_of_le hb (Nat.pow_le_pow_right (by norm_num) (by omega)))
    simp [hi, h1, h2]

/-- The byte at index `i` of the loop's output. -/
theorem xorLoop_getD (key : SecureBuffer) (data : Bytes) (j i : Nat) (hi : i < data.length) :
    (CryptoManager.xorLoop key j data).getD i 0 =
      (data.getD i 0 ^^^ key.bytes.getD ((j + i) % key.size) 0) % 256 := by
  induction data generalizing j i with
  | nil => simp at hi
  | cons d rest ih =>
    cases i with
    | zero => simp [CryptoManager.xorLoop]
    | succ i =>
      simp only [CryptoManager.xorLoop, List.getD_cons_succ]
      rw [ih (j + 1) i (by simpa using hi)]
      have : j + 1 + i = j + (i + 1) := by omega
      rw [this]

/-- XOR of the loop's outputs for two inputs of equal length. -/
theorem xorLoop_zipWith (key : SecureBuffer) (a b : Bytes) (j : Nat) (ha : IsBytes a)
    (hb : IsBytes b) (hlen : a.length = b.length) :
    List.zipWith (fun x y => x ^^^ y) (CryptoManager.xorLoop key j a)
        (CryptoManager.xorLoop key j b) =
      List.zipWith (fun x y => x ^^^ y) a b := by
  induction a generalizing b j with
  | nil => cases b <;> simp [CryptoManager.xorLoop]
  | cons x xs ih =>
    cases b with
    | nil => simp at hlen
    | cons y ys =>
      simp only [CryptoManager.xorLoop, List.zipWith_cons_cons]
      rw [xor_mask_cancel x y _ (ha x (List.mem_cons_self _ _)) (hb y (List.mem_cons_self _ _)),
        ih ys (j + 1) (fun c hc => ha c (List.mem_cons_of_mem _ hc))
          (fun c hc => hb c (List.mem_cons_of_mem _ hc)) (by simpa using hlen)]

/-- C28: with the codec initialized, for byte strings `T1` and `T2` of equal length
and a key `K` of `n > 0` bytes: `encrypt(T1, K)` has the length of `T1` and its byte
at `i` is `T1[i] xor K[i mod n]`; `decrypt` returns the same bytes for the same
input; and the XOR of the ciphertexts of `T1` and `T2` is the XOR of `T1` and `T2`,
whatever the key. -/
theorem encrypt_is_xor_mask (cm : CryptoManager) (hinit : cm.initialized = true)
    (T1 T2 : Bytes) (K : SecureBuffer) (hK : 0 < K.size) (hKb : IsBytes K.bytes)
    (hT1 : IsBytes T1) (hT2 : IsBytes T2) (hlen : T1.length = T2.length) :
    ∃ C1 C2, cm.encrypt T1 K = .ok C1 ∧ cm.encrypt T2 K = .ok C2 ∧
      C1.length = T1.length ∧
      (∀ i, i < T1.length → C1.getD i 0 = T1.getD i 0 ^^^ K.bytes.getD (i % K.size) 0) ∧
      cm.decrypt T1 K = .ok C1 ∧
      List.zipWith (fun x y => x ^^^ y) C1 C2 = List.zipWith (fun x y => x ^^^ y) T1 T2 := by
  refine ⟨CryptoManager.xorLoop K 0 T1, CryptoManager.xorLoop K 0 T2, ?_, ?_,
    xorLoop_length K T1 0, ?_, ?_, xorLoop_zipWith K T1 T2 0 hT1 hT2 hlen⟩
  · simp [CryptoManager.encrypt, hinit]
  · simp [CryptoManager.encrypt, hinit]
  · intro i hi
    rw [xorLoop_getD K T1 0 i hi, Nat.zero_add]
    apply Nat.mod_eq_of_lt
    apply xor_lt_256
    · have hmem : T1.getD i 0 ∈ T1 := by
        rw [List.getD_eq_getElem _ _ hi]
        exact List.getElem_mem _
      exact hT1 _ hmem
    · have hlt : i % K.size < K.bytes.length := Nat.mod_lt _ hK
      have hmem : K.bytes.getD (i % K.size) 0 ∈ K.bytes := by
        rw [List.getD_eq_getElem _ _ hlt]
        exact List.getElem_mem _
      exact hKb _ hmem
  · simp [CryptoManager.decrypt, hinit]

/-- C28 at the plaintexts "Hi" and "Yo" under the 32-byte key 0, 1, ..., 31. -/
theorem encrypt_is_xor_mask_witness :
    ∃ C1 C2, CryptoManager.encrypt ⟨true⟩ [72, 105] ⟨List.range 32⟩ = .ok C1 ∧
      CryptoManager.encrypt ⟨true⟩ [89, 111] ⟨List.range 32⟩ = .ok C2 ∧
      C1.length = 2 ∧
      (∀ i, i < 2 → C1.getD i 0 = [72, 105].getD i 0 ^^^ (List.range 32).getD (i % 32) 0) ∧
      CryptoManager.decrypt ⟨true⟩ [72, 105] ⟨List.range 32⟩ = .ok C1 ∧
      List.zipWith (fun x y => x ^^^ y) C1 C2 =
        List.zipWith (fun x y => x ^^^ y) [72, 105] [89, 111] :=
  encrypt_is_xor_mask ⟨true⟩ rfl [72, 105] [89, 111] ⟨List.range 32⟩ (by decide) (by decide)
    (by decide) (by decide) rfl

/-! ## C29: saving a record that was read back -/

/-- The record `getEntry` returns is the first stored record with the id. -/
theorem getEntry_ok_inv {ρ : Type} (v : SecureVault ρ) (entryId : Bytes) (r : VaultEntry)
    (h : v.getEntry entryId = .ok r) :
    v.is_open_ = true ∧ v.entries_.find? (fun e => e.id == entryId) = some r ∧
    r.id = entryId := by
  unfold SecureVault.getEntry at h
  cases ho : v.is_open_ with
  | false => simp [ho] at h
  | true =>
    simp only [ho, Bool.not_true, Bool.false_eq_true, if_false] at h
    cases hf : v.entries_.find? (fun e => e.id == entryId) with
    | none => rw [hf] at h; cases h
    | some e =>
      rw [hf] at h
      cases h
      refine ⟨rfl, rfl, ?_⟩
      have := List.find?_some hf
      simpa using this

/-- Text-encoding makes a non-empty string longer. -/
theorem toBase64_ne_self (data P : Bytes) (hlen : data.length = P.length) (hP : P ≠ []) :
    CryptoManager.toBase64 data ≠ P := by
  intro heq
  have h1 := congrArg List.length heq
  simp only [CryptoManager.toBase64, toBase64_length, hlen] at h1
  have : 0 < P.length := List.length_pos.2 hP
  omega

/-- C29: for every Open vault (open, codec initialized, holding the key `k`) and every
id for which `getEntry(id)` returns a record `r`, whose password `c` is a byte
string: after `saveEntry(r)` the record stored under the id is `r` with the password
`toBase64(encrypt(c, k))`, and `getPassword(id)` returns `c`. When `c` is the
text-encoded ciphertext of a non-empty plaintext, `getPassword(id)` does not return
that plaintext. -/
theorem saveEntry_of_getEntry {ρ : Type} (v : SecureVault ρ) (pf : Platform) (hs hr : Host)
    (fs : FileSystem) (entryId : Bytes) (hinit : v.crypto_manager_.initialized = true)
    (k : SecureBuffer) (hk : v.vault_key_ = some k)
    (r : VaultEntry) (hget : v.getEntry entryId = .ok r) (hbytes : IsBytes r.password) :
    ∃ c2, v.crypto_manager_.encrypt r.password k = .ok c2 ∧
      (v.saveEntry pf hs fs r).2.1.getEntry entryId =
        .ok { r with password := CryptoManager.toBase64 c2 } ∧
      ((v.saveEntry pf hs fs r).2.1.getPassword hr entryId).1 = .ok r.password ∧
      (∀ P : Bytes, P ≠ [] →
        r.password = CryptoManager.toBase64 (CryptoManager.xorLoop k 0 P) →
        ((v.saveEntry pf hs fs r).2.1.getPassword hr entryId).1 ≠ .ok P) := by
  obtain ⟨hopen, -, hid⟩ := getEntry_ok_inv v entryId r hget
  obtain ⟨hfind, hopen2, hkey2, hcm2⟩ := saveEntry_stored v pf hs fs r hopen hinit
  have hkey : v.key = k := by simp [SecureVault.key, hk]
  rw [hkey, hid] at hfind
  have hpw : ((v.saveEntry pf hs fs r).2.1.getPassword hr entryId).1 = .ok r.password := by
    unfold SecureVault.getPassword
    simp only [hopen2, Bool.not_true, Bool.false_eq_true, if_false, SecureVault.updateActivity,
      hfind, CryptoManager.decrypt, hcm2, hinit, SecureVault.key, hkey2, hk, Option.getD_some]
    rw [fromBase64_toBase64 _ (xorLoop_isBytes _ _ _)]
    rw [xorLoop_involutive _ _ hbytes]
  refine ⟨CryptoManager.xorLoop k 0 r.password, by simp [CryptoManager.encrypt, hinit], ?_,
    hpw, ?_⟩
  · unfold SecureVault.getEntry
    simp only [hopen2, Bool.not_true, Bool.false_eq_true, if_false, hfind]
    rw [hid]
  · intro P hP hc
    rw [hpw]
    intro heq
    have h2 : r.password = P := by
      simpa using heq
    rw [hc] at h2
    exact toBase64_ne_self _ P (xorLoop_length k P 0) hP h2

set_option maxRecDepth 100000 in
/-- C29 on the example vault holding the saved entry "Mail": the record read back is
saved again, and `getPassword` then returns the text-encoded ciphertext. -/
theorem saveEntry_of_getEntry_witness :
    ((SecureVault.saveEntry
        (exampleOpenVault.saveEntry examplePlatform exampleHost exampleStore exampleEntry).2.1
        examplePlatform exampleHost exampleStore
        { exampleEntry with
          password := CryptoManager.toBase64
            (CryptoManager.xorLoop ⟨List.replicate 32 48⟩ 0 exampleEntry.password) }
      ).2.1.getPassword exampleHost exampleEntry.id).1 =
      .ok (CryptoManager.toBase64
        (CryptoManager.xorLoop ⟨List.replicate 32 48⟩ 0 exampleEntry.password)) :=
  (saveEntry_of_getEntry
    (exampleOpenVault.saveEntry examplePlatform exampleHost exampleStore exampleEntry).2.1
    examplePlatform exampleHost exampleHost exampleStore exampleEntry.id (by decide)
    ⟨List.replicate 32 48⟩ (by decide)
    { exampleEntry with
      password := CryptoManager.toBase64
        (CryptoManager.xorLoop ⟨List.replicate 32 48⟩ 0 exampleEntry.password) }
    (by decide) (by decide)).elim (fun _ h => h.2.2.1)

/-! ## C30: ids stay unique -/

/-- Assigning a record at the first record of its id keeps the list of ids. -/
theorem assignFirst_ids (x : VaultEntry) (l : List VaultEntry) :
    (SecureVault.assignFirst (fun e => e.id == x.id) x l).map (fun e => e.id) =
      l.map (fun e => e.id) := by
  induction l with
  | nil => rfl
  | cons a rest ih =>
    unfold SecureVault.assignFirst
    by_cases ha : (a.id == x.id) = true
    · simp only [ha, if_true, List.map_cons]
      rw [eq_of_beq ha]
    · simp only [ha, if_false, List.map_cons, ih, Bool.false_eq_true]

/-- The record set after `saveEntry`, in every case. -/
theorem saveEntry_entries {ρ : Type} (v : SecureVault ρ) (pf : Platform) (host : Host)
    (fs : FileSystem) (r : VaultEntry) :
    (v.saveEntry pf host fs r).2.1.entries_ = v.entries_ ∨
    (∃ r2 : VaultEntry, r2.id = r.id ∧
      ((v.entries_.find? (fun e => e.id == r.id) ≠ none ∧
          (v.saveEntry pf host fs r).2.1.entries_ =
            SecureVault.assignFirst (fun e => e.id == r2.id) r2 v.entries_) ∨
        (v.entries_.find? (fun e => e.id == r.id) = none ∧
          (v.saveEntry pf host fs r).2.1.entries_ = v.entries_ ++ [r2]))) := by
  by_cases ho : v.is_open_ = true
  · cases hi : v.crypto_manager_.initialized with
    | false =>
      left
      rw [saveEntry_not_initialized v pf host fs r ho hi]
    | true =>
      right
      rw [saveEntry_eq v pf host fs r ho hi _ rfl]
      refine ⟨{ r with
        password := CryptoManager.toBase64 (CryptoManager.xorLoop v.key 0 r.password) }, rfl, ?_⟩
      cases hf : v.entries_.find? (fun e => e.id == r.id) with
      | none => exact Or.inr ⟨rfl, rfl⟩
      | some y => exact Or.inl ⟨by simp, rfl⟩
  · left
    simp [SecureVault.saveEntry, ho]

/-- The record set after `deleteEntry`, in every case. -/
theorem deleteEntry_entries {ρ : Type} (v : SecureVault ρ) (pf : Platform) (host : Host)
    (fs : FileSystem) (entryId : Bytes) :
    (v.deleteEntry pf host fs entryId).2.1.entries_ = v.entries_ ∨
    (v.deleteEntry pf host fs entryId).2.1.entries_ =
      v.entries_.eraseP (fun e => e.id == entryId) := by
  unfold SecureVault.deleteEntry
  by_cases ho : v.is_open_ = true
  · simp only [ho, Bool.not_true, Bool.false_eq_true, if_false, SecureVault.updateActivity]
    cases hf : v.entries_.find? (fun e => e.id == entryId) with
    | none => exact Or.inl rfl
    | some y => exact Or.inr rfl
  · left
    simp [ho]

theorem saveEntry_nodup {ρ : Type} (v : SecureVault ρ) (pf : Platform) (host : Host)
    (fs : FileSystem) (r : VaultEntry) (h : (v.entries_.map (fun e => e.id)).Nodup) :
    ((v.saveEntry pf host fs r).2.1.entries_.map (fun e => e.id)).Nodup := by
  rcases saveEntry_entries v pf host fs r with h1 | ⟨r2, hid, ⟨_, h2⟩ | ⟨hnone, h2⟩⟩
  · rw [h1]; exact h
  · rw [h2, assignFirst_ids]; exact h
  · rw [h2, List.map_append, List.map_singleton]
    apply List.Nodup.append h (List.nodup_singleton _)
    intro a ha hb
    rw [List.mem_singleton.1 hb, hid] at ha
    obtain ⟨e, he, heid⟩ := List.mem_map.1 ha
    have := List.find?_eq_none.1 hnone e he
    simp [heid] at this

theorem deleteEntry_nodup {ρ : Type} (v : SecureVault ρ) (pf : Platform) (host : Host)
    (fs : FileSystem) (entryId : Bytes) (h : (v.entries_.map (fun e => e.id)).Nodup) :
    ((v.deleteEntry pf host fs entryId).2.1.entries_.map (fun e => e.id)).Nodup := by
  rcases deleteEntry_entries v pf host fs entryId with h1 | h1
  · rw [h1]; exact h
  · rw [h1]
    exact h.sublist ((List.eraseP_sublist _).map _)

theorem applyEntryOps_nodup {ρ : Type} (pf : Platform) (ops : List EntryOp) (v : SecureVault ρ)
    (h : (v.entries_.map (fun e => e.id)).Nodup) :
    ((v.applyEntryOps pf ops).entries_.map (fun e => e.id)).Nodup := by
  induction ops generalizing v with
  | nil => exact h
  | cons op rest ih =>
    cases op with
    | saveEntry host fs entry => exact ih _ (saveEntry_nodup v pf host fs entry h)
    | deleteEntry host fs entryId => exact ih _ (deleteEntry_nodup v pf host fs entryId h)

/-- With unique ids, the record `getEntry` returns is the only record of that id. -/
theorem getEntry_unique {ρ : Type} (v : SecureVault ρ)
    (h : (v.entries_.map (fun e => e.id)).Nodup) (entryId : Bytes) (e : VaultEntry)
    (hget : v.getEntry entryId = .ok e) :
    e ∈ v.entries_ ∧ e.id = entryId ∧ ∀ x ∈ v.entries_, x.id = entryId → x = e := by
  obtain ⟨-, hfind, hid⟩ := getEntry_ok_inv v entryId e hget
  have hmem := List.mem_of_find?_eq_some hfind
  refine ⟨hmem, hid, fun x hx hxid => ?_⟩
  exact List.inj_on_of_nodup_map h hx hmem (by rw [hxid, hid])

/-- A vault that `createVault` has just created holds no record. -/
theorem createVault_entries_nil {ρ : Type} (v : SecureVault ρ) (pf : Platform) (host : Host)
    (fs : FileSystem) (P F : Bytes) (h : (v.createVault pf host fs P F).1 = true) :
    (v.createVault pf host fs P F).2.1.entries_ = [] := by
  by_cases hP : P.isEmpty = true
  · simp [SecureVault.createVault, hP] at h
  · have hne : P.isEmpty = false := by simpa using hP
    cases hs : v.crypto_manager_.generateSalt host.random_device with
    | error x =>
      simp only [SecureVault.createVault, hne, Bool.false_eq_true, if_false, hs]
      rfl
    | ok salt =>
      cases hk : v.crypto_manager_.deriveKey pf host.random_device P salt with
      | error x =>
        simp only [SecureVault.createVault, hne, Bool.false_eq_true, if_false, hs, hk]
        rfl
      | ok r =>
        obtain ⟨key, salt2⟩ := r
        cases hh : v.crypto_manager_.hashMasterPassword pf P salt2 with
        | error x =>
          simp only [SecureVault.createVault, hne, Bool.false_eq_true, if_false, hs, hk, hh]
          rfl
        | ok hash =>
          simp only [SecureVault.createVault, hne, Bool.false_eq_true, if_false, hs, hk, hh,
            SecureVault.updateActivity]

/-- C30: for every vault whose stored records have pairwise distinct ids, the record
set after `saveEntry(r)`, after `deleteEntry(id)` and after every sequence of such
calls again has pairwise distinct ids, for every argument and whatever the calls
return; there `getEntry(id)` returns the only record with that id. A vault that
`createVault` has just created holds no record, so its ids are distinct. -/
theorem unique_ids_preserved {ρ : Type} (v : SecureVault ρ) (pf : Platform)
    (hunique : (v.entries_.map (fun e => e.id)).Nodup) :
    (∀ (host : Host) (fs : FileSystem) (r : VaultEntry),
      ((v.saveEntry pf host fs r).2.1.entries_.map (fun e => e.id)).Nodup) ∧
    (∀ (host : Host) (fs : FileSystem) (entryId : Bytes),
      ((v.deleteEntry pf host fs entryId).2.1.entries_.map (fun e => e.id)).Nodup) ∧
    (∀ ops : List EntryOp,
      ((v.applyEntryOps pf ops).entries_.map (fun e => e.id)).Nodup ∧
      ∀ (entryId : Bytes) (e : VaultEntry),
        (v.applyEntryOps pf ops).getEntry entryId = .ok e →
        e ∈ (v.applyEntryOps pf ops).entries_ ∧ e.id = entryId ∧
        ∀ x ∈ (v.applyEntryOps pf ops).entries_, x.id = entryId → x = e) ∧
    (∀ (u : SecureVault ρ) (host : Host) (fs : FileSystem) (P F : Bytes),
      (u.createVault pf host fs P F).1 = true →
      ((u.createVault pf host fs P F).2.1.entries_.map (fun e => e.id)).Nodup) := by
  refine ⟨fun host fs r => saveEntry_nodup v pf host fs r hunique,
    fun host fs entryId => deleteEntry_nodup v pf host fs entryId hunique,
    fun ops => ⟨applyEntryOps_nodup pf ops v hunique,
      fun entryId e hget => getEntry_unique _ (applyEntryOps_nodup pf ops v hunique) entryId e
        hget⟩,
    fun u host fs P F h => ?_⟩
  rw [createVault_entries_nil u pf host fs P F h]
  exact List.nodup_nil

set_option maxRecDepth 100000 in
/-- C30 on the newly created example vault: its ids are distinct, and they still are
after saving the entry "Mail", saving a second record with the same id and deleting
an absent id. -/
theorem unique_ids_preserved_witness :
    (exampleOpenVault.entries_.map (fun e => e.id)).Nodup ∧
    ((exampleOpenVault.applyEntryOps examplePlatform
      [.saveEntry exampleHost exampleStore exampleEntry,
       .saveEntry exampleHost exampleStore { exampleEntry with label := lit "Bank" },
       .deleteEntry exampleHost exampleStore (lit "none")]).entries_.map
        (fun e => e.id)).Nodup :=
  ⟨by decide,
    ((unique_ids_preserved exampleOpenVault examplePlatform (by decide)).2.2.1
      [.saveEntry exampleHost exampleStore exampleEntry,
       .saveEntry exampleHost exampleStore { exampleEntry with label := lit "Bank" },
       .deleteEntry exampleHost exampleStore (lit "none")]).1⟩

end core
end crimson
